import Mathlib

set_option maxHeartbeats 1000000

/-
Verification development for an in-process job scheduler:
the Job state machine of scripts/job.py, the CancellationToken of
scripts/utils.py and the Scheduler of scripts/scheduler.py, shallowly
embedded as executable Lean definitions.

Conventions of the embedding:
- Python uuids are modelled as Nat job ids; job objects are compared by id
  (distinct construction yields distinct ids, as uuid4 guarantees).
- Python exceptions are modelled by the PyErr type; a Python operation that
  can raise returns an Except PyErr value, and stateful execution returns
  the state at the point of the raise, as Python mutation does.
- The exceptions module of the repository is not under src; its classes
  are modelled from the spec as the distinct error conditions PoolSize,
  IncorrectJobState and JobTwiceScheduling of section 7.
- The abstract work step of a concrete job (its _run) is modelled by a
  kind tag (sync for SimpleSyncJob-like jobs, async for SimpleAsyncJob-like
  jobs whose work happens later on a timer thread) plus a worker script
  work : Nat -> WOutcome giving the outcome of the n-th worker invocation
  (a stateful Python worker closure is a function of its call count); epi
  counts worker invocations so far.
-/

inductive JState
| PENDING
| RUNNING
| COMPLETED
| FAILED
deriving DecidableEq

inductive JKind
| sync
| async
deriving DecidableEq

inductive WOutcome
| ok (v : String)
| exn

inductive PyErr
| incorrectJobState
| poolSize
| jobTwiceScheduling
| keyError
| attributeError
| workerExn
| fuel
deriving DecidableEq

def TIMEOUT_ERROR : String := "Timeout"

def NO_TRIES_LEFT_ERROR : String := "No tries left"

def MANUALLY_FAILED_ERROR : String := "Manually failed"

def INTERNAL_JOB_ERROR : String := "Internal job error"

structure Job where
  id : Nat
  startAt : Int
  maxWorkingTime : Int
  tries : Int
  dependencies : Option (List Nat)
  result : Option String
  state : JState
  handlers : List Nat
  kind : JKind
  work : Nat → WOutcome
  epi : Nat

/-- Job.__init__: a fresh job is PENDING with no result, no subscribers and
an untouched worker. -/
def mkJob (i : Nat) (startAt : Int) (maxWorkingTime : Int) (tries : Int)
    (dependencies : Option (List Nat)) (kind : JKind) (work : Nat → WOutcome) : Job :=
  { id := i, startAt := startAt, maxWorkingTime := maxWorkingTime, tries := tries,
    dependencies := dependencies, result := none, state := JState.PENDING,
    handlers := [], kind := kind, work := work, epi := 0 }

/-- Job.can_be_started: the try budget is strictly positive. -/
def Job.canBeStarted (j : Job) : Bool := j.tries > 0

/-- Job.add_complete_handler: set insertion by identity. -/
def Job.addCompleteHandler (j : Job) (h : Nat) : Job :=
  if h ∈ j.handlers then j else { j with handlers := h :: j.handlers }

/-- Job.remove_all_complete_handlers. -/
def Job.removeAllCompleteHandlers (j : Job) : Job :=
  { j with handlers := [] }

/-
The pure job operations below return, besides the updated job, the list of
drained subscribers that Python invokes at that point (the subscriber set is
copied, cleared, and each member called). At the job level the subscribers
are opaque observers; the scheduler embedding further down interprets every
drained subscriber as the scheduler completion callback, the only callback
the scheduler ever registers.
-/

/-- Job._notify_complete: requires RUNNING; publishes the result (the
coroutine send echoes the value passed in), transitions to COMPLETED and
drains the subscriber set. -/
def Job.notifyCompleteP (j : Job) (v : Option String) : Except PyErr (Job × List Nat) :=
  if j.state ≠ JState.RUNNING then Except.error PyErr.incorrectJobState
  else Except.ok ({ j with result := v, state := JState.COMPLETED, handlers := [] }, j.handlers)

/-- Job._notify_error: requires RUNNING; decrements the try budget by one,
publishes the error, transitions to FAILED and drains the subscriber set. -/
def Job.notifyErrorP (j : Job) (e : Option String) : Except PyErr (Job × List Nat) :=
  if j.state ≠ JState.RUNNING then Except.error PyErr.incorrectJobState
  else
    Except.ok
      ({ j with tries := j.tries - 1, result := e, state := JState.FAILED, handlers := [] },
       j.handlers)

/-- Job.make_failed: requires PENDING; sets the result to the manual-failure
marker, transitions to FAILED and drains the subscriber set. The try budget
is not touched. -/
def Job.makeFailedP (j : Job) : Except PyErr (Job × List Nat) :=
  if j.state ≠ JState.PENDING then Except.error PyErr.incorrectJobState
  else
    Except.ok
      ({ j with result := some MANUALLY_FAILED_ERROR, state := JState.FAILED, handlers := [] },
       j.handlers)

/-- Job.stop: requires RUNNING; disarms the timeout, clears the result and
returns to PENDING. The subscriber set is not touched. -/
def Job.stopP (j : Job) : Except PyErr Job :=
  if j.state ≠ JState.RUNNING then Except.error PyErr.incorrectJobState
  else Except.ok { j with result := none, state := JState.PENDING }

/-- Body of Job.run after the PENDING guard and the transition to RUNNING:
j1 is the job already set RUNNING with a cleared result. With an exhausted
try budget run at once notifies the no-tries error; otherwise a sync job
invokes the worker inline (a worker exception is caught by the outer
boundary of run and converted to the internal-error failure) while an async
job returns still RUNNING, its work pending on a timer thread. -/
def Job.runBody (j1 : Job) : Except PyErr (Job × List Nat × List JState) :=
  if ¬ j1.canBeStarted then
    match j1.notifyErrorP (some NO_TRIES_LEFT_ERROR) with
    | Except.ok (j2, hs) => Except.ok (j2, hs, [JState.RUNNING, JState.FAILED])
    | Except.error e => Except.error e
  else
    match j1.kind with
    | JKind.async => Except.ok (j1, [], [JState.RUNNING])
    | JKind.sync =>
      match j1.work j1.epi with
      | WOutcome.ok v =>
        match ({ j1 with epi := j1.epi + 1 } : Job).notifyCompleteP (some v) with
        | Except.ok (j3, hs) => Except.ok (j3, hs, [JState.RUNNING, JState.COMPLETED])
        | Except.error e => Except.error e
      | WOutcome.exn =>
        match ({ j1 with epi := j1.epi + 1 } : Job).notifyErrorP (some INTERNAL_JOB_ERROR) with
        | Except.ok (j3, hs) => Except.ok (j3, hs, [JState.RUNNING, JState.FAILED])
        | Except.error e => Except.error e

/-- Job.run at the job level: requires PENDING, else raises before any
mutation; sets RUNNING and clears the result, then proceeds with runBody.
The returned trace lists the phases entered during the call, and the
returned list the drained subscribers of the single notification, if one
happened. -/
def Job.runJ (j : Job) : Except PyErr (Job × List Nat × List JState) :=
  if j.state ≠ JState.PENDING then Except.error PyErr.incorrectJobState
  else Job.runBody { j with state := JState.RUNNING, result := none }

/-- Job.restart: requires COMPLETED or FAILED, else raises before any
mutation; clears the result, returns to PENDING and immediately runs. -/
def Job.restartJ (j : Job) : Except PyErr (Job × List Nat × List JState) :=
  if j.state ≠ JState.COMPLETED ∧ j.state ≠ JState.FAILED then
    Except.error PyErr.incorrectJobState
  else
    match Job.runJ { j with result := none, state := JState.PENDING } with
    | Except.ok (j2, hs, tr) => Except.ok (j2, hs, JState.PENDING :: tr)
    | Except.error e => Except.error e

/-- One public or internal-notifier operation on a job, with its argument. -/
inductive JobOp
| opRun
| opStop
| opRestart
| opMakeFailed
| opNotifyComplete (v : Option String)
| opNotifyError (e : Option String)

/-- Application of one operation, returning the updated job and the phases
entered during the operation. -/
def Job.applyOp (j : Job) : JobOp → Except PyErr (Job × List JState)
| JobOp.opRun =>
  match j.runJ with
  | Except.ok (j2, _, tr) => Except.ok (j2, tr)
  | Except.error e => Except.error e
| JobOp.opStop =>
  match j.stopP with
  | Except.ok j2 => Except.ok (j2, [JState.PENDING])
  | Except.error e => Except.error e
| JobOp.opRestart =>
  match j.restartJ with
  | Except.ok (j2, _, tr) => Except.ok (j2, tr)
  | Except.error e => Except.error e
| JobOp.opMakeFailed =>
  match j.makeFailedP with
  | Except.ok (j2, _) => Except.ok (j2, [JState.FAILED])
  | Except.error e => Except.error e
| JobOp.opNotifyComplete v =>
  match j.notifyCompleteP v with
  | Except.ok (j2, _) => Except.ok (j2, [JState.COMPLETED])
  | Except.error e => Except.error e
| JobOp.opNotifyError e =>
  match j.notifyErrorP e with
  | Except.ok (j2, _) => Except.ok (j2, [JState.FAILED])
  | Except.error e => Except.error e

/-- Application of a sequence of operations; an operation that raises leaves
the job unchanged (every guard in the source raises before any mutation) and
the caller moves on. The second component accumulates all phases entered. -/
def Job.applyOps (j : Job) : List JobOp → Job × List JState
| [] => (j, [])
| op :: ops =>
  match j.applyOp op with
  | Except.error _ => j.applyOps ops
  | Except.ok (j2, tr) => ((j2.applyOps ops).1, tr ++ (j2.applyOps ops).2)

/-- Transition edges actually performed by the source: the five the spec
lists plus PENDING to FAILED, performed by make_failed. -/
def edgeOk : JState → JState → Bool
| JState.PENDING, JState.RUNNING => true
| JState.RUNNING, JState.COMPLETED => true
| JState.RUNNING, JState.FAILED => true
| JState.RUNNING, JState.PENDING => true
| JState.COMPLETED, JState.PENDING => true
| JState.FAILED, JState.PENDING => true
| JState.PENDING, JState.FAILED => true
| _, _ => false

/-- A phase list is a run of the edge relation from the given phase. -/
def traceRun : JState → List JState → Bool
| _, [] => true
| cur, x :: xs => edgeOk cur x && traceRun x xs

/-- States of the automaton of the regular language claimed by the spec:
PENDING (RUNNING (COMPLETED|FAILED) PENDING)* followed by nothing or by
RUNNING (COMPLETED|FAILED). -/
inductive AState
| atP
| atR
| atT
| rej
deriving DecidableEq

def lstep : AState → JState → AState
| AState.atP, JState.RUNNING => AState.atR
| AState.atR, JState.COMPLETED => AState.atT
| AState.atR, JState.FAILED => AState.atT
| AState.atT, JState.PENDING => AState.atP
| _, _ => AState.rej

/-- Membership in the regular language claimed by the spec (this definition
follows the words of the claim, for comparison with the behaviour of the
source): words start with PENDING and end either at a PENDING or right after
a terminal phase of a complete episode. -/
def inLClaim : List JState → Bool
| JState.PENDING :: rest =>
  match rest.foldl lstep AState.atP with
  | AState.atP => true
  | AState.atT => true
  | _ => false
| _ => false

/-
CancellationToken of scripts/utils.py. Callbacks are opaque identifiers;
operations return the list of callbacks invoked by the call, in invocation
order (Python keeps them in a list and iterates a copy of it).
-/

structure CancellationToken where
  callbacks : List Nat
  isCanceled : Bool
  isCompleted : Bool
deriving DecidableEq

/-- CancellationToken.__init__. -/
def mkToken : CancellationToken :=
  { callbacks := [], isCanceled := false, isCompleted := false }

/-- CancellationToken.on_cancel: registers the callback when not cancelled,
otherwise invokes it immediately. -/
def CancellationToken.onCancel (t : CancellationToken) (cb : Nat) :
    CancellationToken × List Nat :=
  if t.isCanceled then (t, [cb])
  else ({ t with callbacks := t.callbacks ++ [cb] }, [])

/-- CancellationToken.cancel: on the first call sets both flags and invokes
every registered callback in registration order; a later call returns at
once, changing nothing and invoking nothing. The callback list itself is not
cleared by the source (only a copy is iterated). -/
def CancellationToken.cancel (t : CancellationToken) : CancellationToken × List Nat :=
  if t.isCanceled then (t, [])
  else ({ t with isCanceled := true, isCompleted := true }, t.callbacks)

/-- CancellationToken.complete. -/
def CancellationToken.completeT (t : CancellationToken) : CancellationToken :=
  { t with isCompleted := true }

/-- CancellationToken.is_active: not cancelled and not completed. -/
def CancellationToken.isActive (t : CancellationToken) : Bool :=
  !t.isCanceled && !t.isCompleted

/-- Fixed sync job with one try and an always-raising worker, used as a
concrete instance in several statements below. -/
def cJob1 : Job := mkJob 0 0 0 1 none JKind.sync (fun _ => WOutcome.exn)

/-- Fixed sync job with an exhausted try budget. -/
def cJob5 : Job := mkJob 0 0 0 0 none JKind.sync (fun _ => WOutcome.ok "v")

/-- Fixed job in the RUNNING phase. -/
def cJobR : Job :=
  { mkJob 7 0 0 3 none JKind.sync (fun _ => WOutcome.exn) with state := JState.RUNNING }

/-- Result of notifying the error "boom" on cJobR. -/
def cJobRE : Job :=
  { cJobR with tries := cJobR.tries - 1, result := some "boom", state := JState.FAILED, handlers := [] }

/-
Helper lemmas about the job operations.
-/

/-- Last element of a phase list, with a default for the empty list. -/
def lastD (s : JState) : List JState → JState
| [] => s
| x :: xs => lastD x xs

/-- Allowed source phase of each operation, per the guards of the source. -/
def srcOk : JobOp → JState → Bool
| JobOp.opRun, JState.PENDING => true
| JobOp.opStop, JState.RUNNING => true
| JobOp.opRestart, JState.COMPLETED => true
| JobOp.opRestart, JState.FAILED => true
| JobOp.opMakeFailed, JState.PENDING => true
| JobOp.opNotifyComplete _, JState.RUNNING => true
| JobOp.opNotifyError _, JState.RUNNING => true
| _, _ => false

/-
Scheduler of scripts/scheduler.py. The state holds the job heap (all job
objects the scheduler has seen, keyed by id), the four partitions, the armed
deferred-start timers (job id paired with the generation of the master
cancellation token captured at arm time; scheduler.stop cancels the current
token, killing exactly the timers of the current generation, while
scheduler.run replaces the token without cancelling it, so older timers stay
armed), and the running flag standing for the presence of the master token.
Set removal in Python raises KeyError when the element is absent, and the
transcription preserves that; set insertion deduplicates. Every completion
subscriber the scheduler registers is its local on_job_complete closure,
modelled by handler id 0 as pending jobs under the scheduler always have an
empty subscriber set. Reentrancy is faithful: a synchronous job started
inside a scheduler routine completes inside it, draining its subscribers and
re-entering the scheduler handler, so execution carries a fuel parameter;
fuel exhaustion is a model artifact reported as the uncatchable PyErr.fuel,
and only executions that do not run out of fuel generate reachable states.
-/

structure SchedState where
  poolSize : Nat
  jobs : List Job
  pending : List Nat
  running : List Nat
  completed : List Nat
  failed : List Nat
  timers : List (Nat × Nat)
  isRunning : Bool
  curGen : Nat

/-- Set insertion. -/
def insertNew (a : Nat) (l : List Nat) : List Nat := if a ∈ l then l else a :: l

/-- Lookup of a job object by id. -/
def getJob (s : SchedState) (jid : Nat) : Option Job :=
  s.jobs.find? (fun k => k.id == jid)

/-- In-place mutation of the job object with the same id. -/
def setJob (s : SchedState) (j : Job) : SchedState :=
  { s with jobs := s.jobs.map (fun k => if k.id == j.id then j else k) }

/-- Dependency list of a job, empty when None. -/
def depsList (j : Job) : List Nat :=
  match j.dependencies with
  | some l => l
  | none => []

/-- Membership of an id in the dependency list of a job; false when the
dependency list is None. -/
def depsContain (j : Job) (d : Nat) : Bool :=
  match j.dependencies with
  | some l => l.contains d
  | none => false

/-- Scheduler.__is_job_available_by_dependencies: every dependency id is in
completed (vacuously true when dependencies is None). -/
def depsAvailable (s : SchedState) (j : Job) : Bool :=
  (depsList j).all (fun d => decide (d ∈ s.completed))

/-- Scheduler.__is_job_available_by_time. -/
def timeAvailable (now : Int) (j : Job) : Bool := j.startAt ≤ now

/-- Jobs marked by one round of Scheduler.__auto_fail_jobs_with_dependency:
the pending jobs that depend on the failed id and are not already FAILED. -/
def markedOf (s : SchedState) (jid : Nat) : List Nat :=
  s.pending.filter (fun p =>
    match getJob s p with
    | some pj => depsContain pj jid && decide (pj.state ≠ JState.FAILED)
    | none => false)

/-- Internal scheduler activities, used as the call tag of the fueled
executor exec: job.run with its reentrant completion processing (runTry
being the body of its try block, whose escaped exceptions run converts to
the internal-error failure), the two notifiers, subscriber draining, the scheduler completion handler with its
success and failure branches, the cascade, and the start routines. -/
inductive Call
| runJob (jid : Nat)
| runTry (jid : Nat)
| notifyComplete (jid : Nat) (v : Option String)
| notifyError (jid : Nat) (e : Option String)
| invokeHandlers (jid : Nat) (hs : List Nat)
| onJobComplete (jid : Nat)
| onJobFailed (jid : Nat)
| autoFail (jid : Nat)
| makeFailedCall (jid : Nat)
| makeFailedList (l : List Nat)
| cascadeList (l : List Nat)
| startJobIfCan (jid : Nat)
| startJob (jid : Nat)
| startList (depId : Nat) (l : List Nat)
| runPendingList (l : List Nat)

/-- Fueled executor of the scheduler internals, transcribed from
scripts/scheduler.py and the parts of scripts/job.py it re-enters. Returns
the state at return or at the point an exception escapes, with the escaped
exception. -/
def exec : Nat → Int → Call → SchedState → SchedState × Option PyErr
| 0, _, _, s => (s, some PyErr.fuel)
| Nat.succ n, now, c, s =>
  match c with
  | Call.runJob jid =>
    match getJob s jid with
    | none => (s, some PyErr.keyError)
    | some j =>
      if j.state ≠ JState.PENDING then (s, some PyErr.incorrectJobState)
      else
        match exec n now (Call.runTry jid) s with
        | (s2, none) => (s2, none)
        | (s2, some PyErr.fuel) => (s2, some PyErr.fuel)
        | (s2, some _) => exec n now (Call.notifyError jid (some INTERNAL_JOB_ERROR)) s2
  | Call.runTry jid =>
    match getJob s jid with
    | none => (s, some PyErr.keyError)
    | some j =>
      if ¬ j.canBeStarted then
        exec n now (Call.notifyError jid (some NO_TRIES_LEFT_ERROR))
          (setJob s { j with state := JState.RUNNING, result := none })
      else
        match j.kind with
        | JKind.async => (setJob s { j with state := JState.RUNNING, result := none }, none)
        | JKind.sync =>
          match j.work j.epi with
          | WOutcome.ok v =>
            exec n now (Call.notifyComplete jid (some v))
              (setJob s { j with state := JState.RUNNING, result := none, epi := j.epi + 1 })
          | WOutcome.exn =>
            (setJob s { j with state := JState.RUNNING, result := none, epi := j.epi + 1 },
             some PyErr.workerExn)
  | Call.notifyComplete jid v =>
    match getJob s jid with
    | none => (s, some PyErr.keyError)
    | some j =>
      if j.state ≠ JState.RUNNING then (s, some PyErr.incorrectJobState)
      else
        exec n now (Call.invokeHandlers jid j.handlers)
          (setJob s { j with result := v, state := JState.COMPLETED, handlers := [] })
  | Call.notifyError jid e =>
    match getJob s jid with
    | none => (s, some PyErr.keyError)
    | some j =>
      if j.state ≠ JState.RUNNING then (s, some PyErr.incorrectJobState)
      else
        exec n now (Call.invokeHandlers jid j.handlers)
          (setJob s
            { j with tries := j.tries - 1, result := e, state := JState.FAILED, handlers := [] })
  | Call.invokeHandlers jid hs =>
    match hs with
    | [] => (s, none)
    | _ :: rest =>
      match exec n now (Call.onJobComplete jid) s with
      | (s1, none) => exec n now (Call.invokeHandlers jid rest) s1
      | (s1, some e) => (s1, some e)
  | Call.onJobComplete jid =>
    match getJob s jid with
    | none => (s, some PyErr.keyError)
    | some j =>
      if j.state = JState.COMPLETED then
        if jid ∈ s.running then
          exec n now (Call.startList jid s.pending)
            { s with running := s.running.erase jid, completed := insertNew jid s.completed }
        else (s, some PyErr.keyError)
      else if j.state = JState.FAILED then exec n now (Call.onJobFailed jid) s
      else (s, some PyErr.incorrectJobState)
  | Call.onJobFailed jid =>
    match getJob s jid with
    | none => (s, some PyErr.keyError)
    | some j =>
      if j.canBeStarted ∧ jid ∉ s.pending then
        if j.state ≠ JState.COMPLETED ∧ j.state ≠ JState.FAILED then
          (s, some PyErr.incorrectJobState)
        else exec n now (Call.runJob jid) (setJob s { j with result := none, state := JState.PENDING })
      else
        if jid ∈ s.pending then
          exec n now (Call.autoFail jid)
            { s with pending := s.pending.erase jid, failed := insertNew jid s.failed }
        else
          if jid ∈ s.running then
            exec n now (Call.autoFail jid)
              { s with running := s.running.erase jid, failed := insertNew jid s.failed }
          else (s, some PyErr.keyError)
  | Call.autoFail jid =>
    match exec n now (Call.makeFailedList (markedOf s jid)) s with
    | (s1, none) => exec n now (Call.cascadeList (markedOf s jid)) s1
    | (s1, some e) => (s1, some e)
  | Call.makeFailedCall jid =>
    match getJob s jid with
    | none => (s, some PyErr.keyError)
    | some j =>
      if j.state ≠ JState.PENDING then (s, some PyErr.incorrectJobState)
      else
        exec n now (Call.invokeHandlers jid j.handlers)
          (setJob s
            { j with result := some MANUALLY_FAILED_ERROR, state := JState.FAILED, handlers := [] })
  | Call.makeFailedList l =>
    match l with
    | [] => (s, none)
    | p :: rest =>
      match exec n now (Call.makeFailedCall p) s with
      | (s1, none) => exec n now (Call.makeFailedList rest) s1
      | (s1, some e) => (s1, some e)
  | Call.cascadeList l =>
    match l with
    | [] => (s, none)
    | p :: rest =>
      match exec n now (Call.onJobFailed p) s with
      | (s1, none) => exec n now (Call.cascadeList rest) s1
      | (s1, some e) => (s1, some e)
  | Call.startJobIfCan jid =>
    if ¬ s.isRunning then (s, none)
    else
      match getJob s jid with
      | none => (s, some PyErr.keyError)
      | some j =>
        if ¬ depsAvailable s j then (s, none)
        else
          if ¬ timeAvailable now j then ({ s with timers := (jid, s.curGen) :: s.timers }, none)
          else exec n now (Call.startJob jid) s
  | Call.startJob jid =>
    match getJob s jid with
    | none => (s, some PyErr.keyError)
    | some j =>
      if jid ∈ s.pending then
        exec n now (Call.runJob jid)
          { s with jobs := (setJob s (j.addCompleteHandler 0)).jobs,
                   pending := s.pending.erase jid,
                   running := insertNew jid s.running }
      else (setJob s (j.addCompleteHandler 0), some PyErr.keyError)
  | Call.startList depId l =>
    match l with
    | [] => (s, none)
    | p :: rest =>
      match getJob s p with
      | none => (s, some PyErr.keyError)
      | some pj =>
        if depsContain pj depId then
          match exec n now (Call.startJobIfCan p) s with
          | (s1, none) => exec n now (Call.startList depId rest) s1
          | (s1, some e) => (s1, some e)
        else exec n now (Call.startList depId rest) s
  | Call.runPendingList l =>
    match l with
    | [] => (s, none)
    | p :: rest =>
      if p ∈ s.pending then
        match exec n now (Call.startJobIfCan p) s with
        | (s1, none) => exec n now (Call.runPendingList rest) s1
        | (s1, some e) => (s1, some e)
      else exec n now (Call.runPendingList rest) s

/-- Admission step of Scheduler.schedule: the job object joins the heap
and its id the pending partition. -/
def admitted (s : SchedState) (j : Job) : SchedState :=
  { s with jobs := j :: s.jobs, pending := insertNew j.id s.pending }

/-- Scheduler.schedule: the pool guard and the twice-scheduling guard raise
before any mutation; on admission the job object joins the heap and its id
the pending partition; a dependency already failed routes straight through
make_failed and the failure handler; otherwise start-if-ready runs. -/
def scheduleF (n : Nat) (now : Int) (j : Job) (s : SchedState) : SchedState × Option PyErr :=
  if s.pending.length + s.running.length ≥ s.poolSize then (s, some PyErr.poolSize)
  else
    if j.id ∈ s.pending ∨ j.id ∈ s.running ∨ j.id ∈ s.completed ∨ j.id ∈ s.failed then
      (s, some PyErr.jobTwiceScheduling)
    else
      if (depsList j).any (fun d => decide (d ∈ s.failed)) then
        match exec n now (Call.makeFailedCall j.id) (admitted s j) with
        | (s2, none) => exec n now (Call.onJobFailed j.id) s2
        | (s2, some e) => (s2, some e)
      else
        exec n now (Call.startJobIfCan j.id) (admitted s j)

/-- Scheduler.run: install a fresh master cancellation token (a new
generation; the old token is replaced without being cancelled) and try to
start every job of a snapshot of pending that is still pending. -/
def schedRunF (n : Nat) (now : Int) (s : SchedState) : SchedState × Option PyErr :=
  exec n now (Call.runPendingList s.pending) { s with isRunning := true, curGen := s.curGen + 1 }

/-- Loop body of Scheduler.stop over the snapshot of running jobs: drop all
completion subscribers, stop the job (raising IncorrectJobState if it is
not RUNNING, with the subscribers already dropped), and re-insert it into
pending. -/
def stopListGo : List Nat → SchedState → SchedState × Option PyErr
| [], s => (s, none)
| p :: rest, s =>
  match getJob s p with
  | none => (s, some PyErr.keyError)
  | some j =>
    if j.state ≠ JState.RUNNING then
      (setJob s (j.removeAllCompleteHandlers), some PyErr.incorrectJobState)
    else
      stopListGo rest
        { setJob s { j with handlers := [], result := none, state := JState.PENDING } with
          pending := insertNew p s.pending }

/-- Scheduler.stop: dereferences the master token, raising when the
scheduler is not running before touching anything; otherwise cancels the
token (which kills the deferred-start timers of the current generation),
clears it, empties running and re-pends every previously running job. -/
def schedStopF (s : SchedState) : SchedState × Option PyErr :=
  if ¬ s.isRunning then (s, some PyErr.attributeError)
  else
    stopListGo s.running
      { s with isRunning := false,
               timers := s.timers.filter (fun t => !(t.2 == s.curGen)),
               running := [] }

/-- Worker thread of a delayed asynchronous job reaching its delay while
the episode token is still active (the job still RUNNING): the worker runs
(one invocation) and on success notifies completion; a worker exception
kills the thread silently. When the token was cancelled by a transition out
of RUNNING, nothing happens. -/
def asyncFinStep (n : Nat) (now : Int) (jid : Nat) (s : SchedState) : SchedState × Option PyErr :=
  match getJob s jid with
  | none => (s, none)
  | some j =>
    if j.kind = JKind.async ∧ j.state = JState.RUNNING then
      match j.work j.epi with
      | WOutcome.ok v =>
        exec n now (Call.notifyComplete jid (some v)) (setJob s { j with epi := j.epi + 1 })
      | WOutcome.exn => (setJob s { j with epi := j.epi + 1 }, none)
    else (s, none)
/-- Timeout guard thread of a running job with a positive maximum working
time firing while its token is still active (the job still RUNNING in the
same episode): it issues the Timeout error notification. -/
def timeoutStep (n : Nat) (now : Int) (jid : Nat) (s : SchedState) : SchedState × Option PyErr :=
  match getJob s jid with
  | none => (s, none)
  | some j =>
    if j.maxWorkingTime > 0 ∧ j.state = JState.RUNNING then
      exec n now (Call.notifyError jid (some TIMEOUT_ERROR)) s
    else (s, none)

/-- Deferred-start timer firing: consumes the armed timer; if its captured
token generation is still armed (it is in the list exactly when its token
was never cancelled), the scheduler is running and the job still pending,
the start routine runs, bypassing the dependency re-check as the source
does. -/
def timerFireStep (n : Nat) (now : Int) (jid : Nat) (g : Nat) (s : SchedState) :
    SchedState × Option PyErr :=
  if (jid, g) ∈ s.timers then
    if s.isRunning ∧ jid ∈ s.pending then
      exec n now (Call.startJob jid) { s with timers := s.timers.erase (jid, g) }
    else ({ s with timers := s.timers.erase (jid, g) }, none)
  else (s, none)

/-- Scheduler.__init__. -/
def schedInit (ps : Nat) : SchedState :=
  { poolSize := ps, jobs := [], pending := [], running := [], completed := [],
    failed := [], timers := [], isRunning := false, curGen := 0 }

/-- Freshly constructed job handed to schedule: as Job.__init__ builds it
(PENDING, no result, no subscribers, untouched worker) and with a uuid4
id, new to everything the scheduler has seen. -/
def FreshFor (s : SchedState) (j : Job) : Prop :=
  j.state = JState.PENDING ∧ j.result = none ∧ j.handlers = [] ∧ j.epi = 0 ∧
  (∀ k ∈ s.jobs, k.id ≠ j.id) ∧ j.id ∉ s.pending ∧ j.id ∉ s.running ∧
  j.id ∉ s.completed ∧ j.id ∉ s.failed ∧ (∀ t ∈ s.timers, t.1 ≠ j.id)

/-- States the scheduler can reach: the initial state, and the results of
the public operations schedule, run and stop and of the asynchronous
events (delayed work firing, deferred-start timer firing, timeout guard
firing), excluding executions cut short by the fuel artifact. -/
inductive Reach : SchedState → Prop
| init (ps : Nat) : Reach (schedInit ps)
| sched {s : SchedState} (n : Nat) (now : Int) (j : Job) : Reach s → FreshFor s j →
    (scheduleF n now j s).2 ≠ some PyErr.fuel → Reach (scheduleF n now j s).1
| runS {s : SchedState} (n : Nat) (now : Int) : Reach s →
    (schedRunF n now s).2 ≠ some PyErr.fuel → Reach (schedRunF n now s).1
| stopS {s : SchedState} : Reach s → Reach (schedStopF s).1
| asyncS {s : SchedState} (n : Nat) (now : Int) (jid : Nat) : Reach s →
    (asyncFinStep n now jid s).2 ≠ some PyErr.fuel → Reach (asyncFinStep n now jid s).1
| timerS {s : SchedState} (n : Nat) (now : Int) (jid g : Nat) : Reach s →
    (timerFireStep n now jid g s).2 ≠ some PyErr.fuel → Reach (timerFireStep n now jid g s).1
| timeoutS {s : SchedState} (n : Nat) (now : Int) (jid : Nat) : Reach s →
    (timeoutStep n now jid s).2 ≠ some PyErr.fuel → Reach (timeoutStep n now jid s).1

/-- Sync job with two tries whose worker always raises, for the retry
scenario. -/
def cJobT2 : Job := mkJob 1 0 0 2 none JKind.sync (fun _ => WOutcome.exn)

/-- State after: scheduler of pool size 10, run(), then schedule of
cJobT2. -/
def c2state : SchedState := (scheduleF 20 0 cJobT2 (schedRunF 20 0 (schedInit 10)).1).1

/-- Scheduler.total_jobs_amount. -/
def totalJobsAmount (s : SchedState) : Nat := s.pending.length + s.running.length

/-
Invariant machinery for the dependency-closure property. PF is the set of
pending jobs in the FAILED phase (nonempty only while a cascade is in
flight); PendUnsafe marks a pending PENDING-phase job one of whose
dependencies is already failed (never present at rest: schedule routes such
jobs straight to failed and the cascade clears the dependents of every
newly failed id before the failure handler returns).
-/

def handlersEmpty (s : SchedState) (jid : Nat) : Prop :=
  ∀ j : Job, getJob s jid = some j → j.handlers = []

def stateFailedAt (s : SchedState) (jid : Nat) : Prop :=
  ∀ j : Job, getJob s jid = some j → j.state = JState.FAILED

def PF (s : SchedState) (a : Nat) : Prop :=
  a ∈ s.pending ∧ ∃ j, getJob s a = some j ∧ j.state = JState.FAILED

def PFempty (s : SchedState) : Prop := ∀ a, ¬ PF s a

def PendUnsafe (s : SchedState) (a : Nat) : Prop :=
  a ∈ s.pending ∧ ∃ j, getJob s a = some j ∧ j.state = JState.PENDING ∧
    ∃ d, d ∈ depsList j ∧ d ∈ s.failed

/-- Structural invariants of the scheduler state, maintained by every
internal activity (also in the middle of a cascade). -/
structure SInv (s : SchedState) : Prop where
  pendNodup : s.pending.Nodup
  runNodup : s.running.Nodup
  disjPR : ∀ a ∈ s.pending, a ∉ s.running
  runDeps : ∀ a ∈ s.running, ∀ j, getJob s a = some j → ∀ d ∈ depsList j, d ∈ s.completed
  timerDeps : ∀ t ∈ s.timers, ∀ j, getJob s t.1 = some j → ∀ d ∈ depsList j, d ∈ s.completed
  pendState : ∀ a ∈ s.pending, ∀ j, getJob s a = some j →
    j.state = JState.PENDING ∨ j.state = JState.FAILED
  pendHandlers : ∀ a ∈ s.pending, handlersEmpty s a
  handlersShape : ∀ a, ∀ j : Job, getJob s a = some j → j.handlers = [] ∨ j.handlers = [0]
  failedState : ∀ a ∈ s.failed, stateFailedAt s a
  compFailDisj : ∀ a ∈ s.completed, a ∉ s.failed
  pendNotC : ∀ a ∈ s.pending, a ∉ s.completed
  pendNotF : ∀ a ∈ s.pending, a ∉ s.failed
  runNotC : ∀ a ∈ s.running, a ∉ s.completed
  runNotF : ∀ a ∈ s.running, a ∉ s.failed
  depOK : ∀ a, ∀ j : Job, getJob s a = some j →
    (j.state = JState.PENDING ∧ a ∈ s.pending) ∨
    (∀ d ∈ depsList j, d ∈ s.completed) ∨
    (j.state = JState.FAILED ∧ j.result = some MANUALLY_FAILED_ERROR ∧
      (a ∈ s.pending ∨ a ∈ s.failed))

/-- Relations every internal activity keeps between its initial and final
state: pending only shrinks, completed and failed only grow, the job heap
keeps its ids and every job its dependency list, a pending job in the
PENDING phase was already in it, and a newly failed id has no pending
PENDING-phase dependent left behind. -/
def Keeps (s s2 : SchedState) : Prop :=
  (∀ a, a ∈ s2.pending → a ∈ s.pending) ∧
  (∀ a, a ∈ s.completed → a ∈ s2.completed) ∧
  (∀ a, a ∈ s.failed → a ∈ s2.failed) ∧
  (∀ a, (getJob s2 a).isSome = (getJob s a).isSome) ∧
  (∀ a, ∀ j j2 : Job, getJob s a = some j → getJob s2 a = some j2 →
      j2.dependencies = j.dependencies) ∧
  (∀ a, a ∈ s2.pending → ∀ j j2 : Job, getJob s a = some j → getJob s2 a = some j2 →
      j2.state = JState.PENDING → j.state = JState.PENDING) ∧
  (∀ d, d ∈ s2.failed → d ∉ s.failed →
      ∀ a ∈ s2.pending, ∀ j, getJob s2 a = some j → j.state = JState.PENDING →
        depsContain j d = false)

/-- Frame of an activity that touches only the job jid and no partition:
the run and notification chain of a job whose subscriber set is empty. -/
def FrameJ (s s2 : SchedState) (jid : Nat) : Prop :=
  s2.pending = s.pending ∧ s2.running = s.running ∧ s2.completed = s.completed ∧
  s2.failed = s.failed ∧ s2.timers = s.timers ∧ s2.isRunning = s.isRunning ∧
  s2.curGen = s.curGen ∧
  (∀ a, a ≠ jid → getJob s2 a = getJob s a) ∧ handlersEmpty s2 jid

/-- Precondition of each internal activity, as established by its callers
in the source. -/
def PreC : Call → SchedState → Prop
| Call.runJob jid, s =>
    jid ∉ s.pending ∧ jid ∉ s.failed ∧
    (∀ j : Job, getJob s jid = some j → ∀ d ∈ depsList j, d ∈ s.completed) ∧
    (PFempty s ∨ handlersEmpty s jid)
| Call.runTry jid, s =>
    jid ∉ s.pending ∧ jid ∉ s.failed ∧
    (∀ j : Job, getJob s jid = some j → ∀ d ∈ depsList j, d ∈ s.completed) ∧
    (PFempty s ∨ handlersEmpty s jid)
| Call.notifyComplete jid _, s => PFempty s ∨ handlersEmpty s jid
| Call.notifyError jid _, s => PFempty s ∨ handlersEmpty s jid
| Call.invokeHandlers jid hs, s =>
    hs = [] ∨
      (hs = [0] ∧ PFempty s ∧ handlersEmpty s jid ∧ jid ∉ s.pending ∧ jid ∉ s.failed)
| Call.onJobComplete jid, s =>
    PFempty s ∧ handlersEmpty s jid ∧ jid ∉ s.pending ∧ jid ∉ s.failed
| Call.onJobFailed jid, s =>
    handlersEmpty s jid ∧ stateFailedAt s jid ∧ jid ∉ s.failed
| Call.autoFail _, _ => True
| Call.makeFailedCall jid, s =>
    jid ∈ s.pending ∧ ∃ j, getJob s jid = some j ∧ j.state = JState.PENDING
| Call.makeFailedList l, s =>
    l.Nodup ∧ ∀ a ∈ l, a ∈ s.pending ∧ ∃ j, getJob s a = some j ∧ j.state = JState.PENDING
| Call.cascadeList l, s => l.Nodup ∧ ∀ a ∈ l, PF s a
| Call.startJobIfCan _, s => PFempty s
| Call.startJob jid, s =>
    PFempty s ∧ ∀ j, getJob s jid = some j → depsAvailable s j = true
| Call.startList _ _, s => PFempty s
| Call.runPendingList _, s => PFempty s

/-- Postcondition of each internal activity, holding whenever the
execution did not run out of fuel. -/
def PostC : Call → SchedState → SchedState × Option PyErr → Prop
| Call.runJob jid, s, r =>
    (PFempty s → PFempty r.1) ∧ (handlersEmpty s jid → FrameJ s r.1 jid)
| Call.runTry jid, s, r =>
    (PFempty s → PFempty r.1) ∧ (handlersEmpty s jid → FrameJ s r.1 jid)
| Call.notifyComplete jid _, s, r =>
    (PFempty s → PFempty r.1) ∧ (handlersEmpty s jid → FrameJ s r.1 jid)
| Call.notifyError jid _, s, r =>
    (PFempty s → PFempty r.1) ∧ (handlersEmpty s jid → FrameJ s r.1 jid)
| Call.invokeHandlers _ hs, s, r =>
    (hs = [] → r.1 = s ∧ r.2 = none) ∧ (PFempty s → PFempty r.1)
| Call.onJobComplete _, s, r => PFempty s → PFempty r.1
| Call.onJobFailed jid, s, r =>
    (∀ a, PF r.1 a ↔ (PF s a ∧ a ≠ jid)) ∧
    (∀ a, a ∈ r.1.running → a ∈ s.running) ∧
    (PF s jid →
      r.2 = none ∧ jid ∈ r.1.failed ∧ jid ∉ r.1.pending ∧ jid ∉ r.1.running ∧
      (∀ a, a ∉ s.pending → getJob r.1 a = getJob s a) ∧ getJob r.1 jid = getJob s jid)
| Call.autoFail jid, s, r =>
    r.2 = none ∧ (∀ a, PF r.1 a ↔ PF s a) ∧
    (∀ a, a ∈ r.1.running → a ∈ s.running) ∧
    (∀ a, a ∉ s.pending → getJob r.1 a = getJob s a) ∧
    (∀ a ∈ r.1.pending, ∀ j, getJob r.1 a = some j → j.state = JState.PENDING →
        depsContain j jid = false)
| Call.makeFailedCall jid, s, r =>
    r.2 = none ∧ r.1.pending = s.pending ∧ r.1.running = s.running ∧
    r.1.completed = s.completed ∧ r.1.failed = s.failed ∧ r.1.timers = s.timers ∧
    (∀ a, a ≠ jid → getJob r.1 a = getJob s a) ∧
    (∃ j, getJob r.1 jid = some j ∧ j.state = JState.FAILED ∧
      j.result = some MANUALLY_FAILED_ERROR ∧ j.handlers = [])
| Call.makeFailedList l, s, r =>
    r.2 = none ∧ r.1.pending = s.pending ∧ r.1.running = s.running ∧
    r.1.completed = s.completed ∧ r.1.failed = s.failed ∧ r.1.timers = s.timers ∧
    (∀ a, a ∉ l → getJob r.1 a = getJob s a) ∧
    (∀ a ∈ l, ∃ j, getJob r.1 a = some j ∧ j.state = JState.FAILED ∧
      j.result = some MANUALLY_FAILED_ERROR ∧ j.handlers = [])
| Call.cascadeList l, s, r =>
    r.2 = none ∧ (∀ a, PF r.1 a ↔ (PF s a ∧ a ∉ l)) ∧
    (∀ a, a ∈ r.1.running → a ∈ s.running) ∧
    (∀ a, a ∉ s.pending → getJob r.1 a = getJob s a)
| Call.startJobIfCan _, s, r => PFempty s → PFempty r.1
| Call.startJob _, s, r => PFempty s → PFempty r.1
| Call.startList _ _, s, r => PFempty s → PFempty r.1
| Call.runPendingList _, s, r => PFempty s → PFempty r.1

/-- The reachable-state invariant of the scheduler: the structural
invariants, no pending job left in the FAILED phase (the mid-cascade
condition always resolved at the public surface), and no pending
PENDING-phase job with an already failed dependency. -/
def RInv (s : SchedState) : Prop :=
  SInv s ∧ PFempty s ∧ ∀ a, ¬ PendUnsafe s a

/-- Sync job 1 with one try whose worker raises, to populate the failed
partition of the witness scheduler. -/
def c3JobA : Job := mkJob 1 0 0 1 none JKind.sync (fun _ => WOutcome.exn)

/-- Sync job 2 depending on job 1. -/
def c3JobB : Job := mkJob 2 0 0 1 (some [1]) JKind.sync (fun _ => WOutcome.ok "v")

/-- Scheduler of pool size 2 after run() and the scheduling (and failure)
of job 1. -/
def c3S1 : SchedState := (scheduleF 20 0 c3JobA (schedRunF 20 0 (schedInit 2)).1).1

theorem runBody_ok (j1 j2 : Job) (hs : List Nat) (tr : List JState)
    (hst : j1.state = JState.RUNNING)
    (h : j1.runBody = Except.ok (j2, hs, tr)) :
    ((tr = [JState.RUNNING, JState.FAILED] ∧ j2.state = JState.FAILED) ∨
     (tr = [JState.RUNNING, JState.COMPLETED] ∧ j2.state = JState.COMPLETED) ∨
     (tr = [JState.RUNNING] ∧ j2.state = JState.RUNNING)) ∧
    j2.tries ≤ j1.tries := by
  unfold Job.runBody at h
  split at h
  · simp [Job.notifyErrorP, hst] at h
    obtain ⟨h1, h2, h3⟩ := h
    subst h1
    refine ⟨Or.inl ⟨h3.symm, rfl⟩, by simp⟩
  · split at h
    · simp at h
      obtain ⟨h1, h2, h3⟩ := h
      subst h1
      exact ⟨Or.inr (Or.inr ⟨h3.symm, hst⟩), le_refl _⟩
    · split at h
      · simp [Job.notifyCompleteP, hst] at h
        obtain ⟨h1, h2, h3⟩ := h
        subst h1
        exact ⟨Or.inr (Or.inl ⟨h3.symm, rfl⟩), le_refl _⟩
      · simp [Job.notifyErrorP, hst] at h
        obtain ⟨h1, h2, h3⟩ := h
        subst h1
        refine ⟨Or.inl ⟨h3.symm, rfl⟩, by simp⟩

theorem runJ_ok (j : Job) (j2 : Job) (hs : List Nat) (tr : List JState)
    (h : j.runJ = Except.ok (j2, hs, tr)) :
    j.state = JState.PENDING ∧
    ((tr = [JState.RUNNING, JState.FAILED] ∧ j2.state = JState.FAILED) ∨
     (tr = [JState.RUNNING, JState.COMPLETED] ∧ j2.state = JState.COMPLETED) ∨
     (tr = [JState.RUNNING] ∧ j2.state = JState.RUNNING)) ∧
    j2.tries ≤ j.tries := by
  unfold Job.runJ at h
  split at h
  · simp at h
  · next hpend =>
    refine ⟨by simpa using hpend, ?_⟩
    exact runBody_ok { j with state := JState.RUNNING, result := none } j2 hs tr rfl h

theorem runBody_succeeds (j1 : Job) (hst : j1.state = JState.RUNNING) :
    ∃ p, j1.runBody = Except.ok p := by
  unfold Job.runBody
  split
  · simp [Job.notifyErrorP, hst]
  · cases hk : j1.kind with
    | async => simp
    | sync =>
      cases hw : j1.work j1.epi with
      | ok v => simp [Job.notifyCompleteP, hst]
      | exn => simp [Job.notifyErrorP, hst]

theorem restartJ_ok (j : Job) (j2 : Job) (hs : List Nat) (tr : List JState)
    (h : j.restartJ = Except.ok (j2, hs, tr)) :
    (j.state = JState.COMPLETED ∨ j.state = JState.FAILED) ∧
    (∃ tr2, tr = JState.PENDING :: tr2 ∧
      ((tr2 = [JState.RUNNING, JState.FAILED] ∧ j2.state = JState.FAILED) ∨
       (tr2 = [JState.RUNNING, JState.COMPLETED] ∧ j2.state = JState.COMPLETED) ∨
       (tr2 = [JState.RUNNING] ∧ j2.state = JState.RUNNING))) ∧
    j2.tries ≤ j.tries := by
  unfold Job.restartJ at h
  split at h
  · simp at h
  · next hterm =>
    constructor
    · rcases Classical.em (j.state = JState.COMPLETED) with hc | hc
      · exact Or.inl hc
      · refine Or.inr ?_
        by_contra hf
        exact hterm ⟨hc, hf⟩
    · cases hr : Job.runJ { j with result := none, state := JState.PENDING } with
      | error e => rw [hr] at h; simp at h
      | ok p =>
        obtain ⟨a, b, c⟩ := p
        rw [hr] at h
        simp at h
        obtain ⟨ha, hb, hc⟩ := h
        subst ha
        obtain ⟨_, hshape, htr⟩ := runJ_ok _ a b c hr
        refine ⟨⟨c, hc.symm, hshape⟩, ?_⟩
        simpa using htr

theorem stopP_ok (j a : Job) (h : j.stopP = Except.ok a) :
    j.state = JState.RUNNING ∧ a.state = JState.PENDING ∧ a.result = none ∧
    a.tries = j.tries ∧ a.id = j.id ∧ a.startAt = j.startAt ∧
    a.dependencies = j.dependencies ∧ a.handlers = j.handlers := by
  unfold Job.stopP at h
  split at h
  · simp at h
  · next hrun =>
    have hst : j.state = JState.RUNNING := by by_contra hx; exact hrun hx
    simp at h
    subst h
    simp [hst]

theorem makeFailedP_ok (j a : Job) (hs : List Nat) (h : j.makeFailedP = Except.ok (a, hs)) :
    j.state = JState.PENDING ∧ a.state = JState.FAILED ∧
    a.result = some MANUALLY_FAILED_ERROR ∧ a.tries = j.tries ∧ a.id = j.id ∧
    a.handlers = [] ∧ hs = j.handlers := by
  unfold Job.makeFailedP at h
  split at h
  · simp at h
  · next hpend =>
    have hst : j.state = JState.PENDING := by by_contra hx; exact hpend hx
    simp at h
    obtain ⟨ha, hb⟩ := h
    subst ha
    simp [hst, hb]

theorem notifyCompleteP_ok (j a : Job) (v : Option String) (hs : List Nat)
    (h : j.notifyCompleteP v = Except.ok (a, hs)) :
    j.state = JState.RUNNING ∧ a.state = JState.COMPLETED ∧ a.result = v ∧
    a.tries = j.tries ∧ a.handlers = [] ∧ hs = j.handlers := by
  unfold Job.notifyCompleteP at h
  split at h
  · simp at h
  · next hrun =>
    have hst : j.state = JState.RUNNING := by by_contra hx; exact hrun hx
    simp at h
    obtain ⟨ha, hb⟩ := h
    subst ha
    simp [hst, hb]

theorem notifyErrorP_ok (j a : Job) (e : Option String) (hs : List Nat)
    (h : j.notifyErrorP e = Except.ok (a, hs)) :
    j.state = JState.RUNNING ∧ a.state = JState.FAILED ∧ a.result = e ∧
    a.tries = j.tries - 1 ∧ a.handlers = [] ∧ hs = j.handlers := by
  unfold Job.notifyErrorP at h
  split at h
  · simp at h
  · next hrun =>
    have hst : j.state = JState.RUNNING := by by_contra hx; exact hrun hx
    simp at h
    obtain ⟨ha, hb⟩ := h
    subst ha
    simp [hst, hb]

theorem applyOp_ok (j : Job) (op : JobOp) (j2 : Job) (tr : List JState)
    (h : j.applyOp op = Except.ok (j2, tr)) :
    traceRun j.state tr = true ∧ j2.state = lastD j.state tr ∧ j2.tries ≤ j.tries := by
  cases op with
  | opRun =>
    simp only [Job.applyOp] at h
    cases hr : j.runJ with
    | error e => rw [hr] at h; simp at h
    | ok p =>
      obtain ⟨a, b, c⟩ := p
      rw [hr] at h
      simp at h
      obtain ⟨ha, hc⟩ := h
      subst ha; subst hc
      obtain ⟨hpend, hshape, htr⟩ := runJ_ok j a b c hr
      rw [hpend]
      rcases hshape with ⟨ht, hs2⟩ | ⟨ht, hs2⟩ | ⟨ht, hs2⟩ <;> subst ht <;>
        exact ⟨by decide, by simp [lastD]; exact hs2, htr⟩
  | opStop =>
    simp only [Job.applyOp] at h
    cases hr : j.stopP with
    | error e => rw [hr] at h; simp at h
    | ok a =>
      rw [hr] at h
      simp at h
      obtain ⟨ha, hc⟩ := h
      subst ha; subst hc
      obtain ⟨h1, h2, _, h4, _⟩ := stopP_ok j a hr
      rw [h1]
      refine ⟨by decide, ?_, le_of_eq h4⟩
      simp [lastD]
      exact h2
  | opRestart =>
    simp only [Job.applyOp] at h
    cases hr : j.restartJ with
    | error e => rw [hr] at h; simp at h
    | ok p =>
      obtain ⟨a, b, c⟩ := p
      rw [hr] at h
      simp at h
      obtain ⟨ha, hc⟩ := h
      subst ha; subst hc
      obtain ⟨hsrc, ⟨tr2, htr2, hshape⟩, htr⟩ := restartJ_ok j a b c hr
      subst htr2
      rcases hsrc with hs1 | hs1 <;> rw [hs1] <;>
        rcases hshape with ⟨ht, hs2⟩ | ⟨ht, hs2⟩ | ⟨ht, hs2⟩ <;> subst ht <;>
          exact ⟨by decide, by simp [lastD]; exact hs2, htr⟩
  | opMakeFailed =>
    simp only [Job.applyOp] at h
    cases hr : j.makeFailedP with
    | error e => rw [hr] at h; simp at h
    | ok p =>
      obtain ⟨a, b⟩ := p
      rw [hr] at h
      simp at h
      obtain ⟨ha, hc⟩ := h
      subst ha; subst hc
      obtain ⟨h1, h2, _, h4, _⟩ := makeFailedP_ok j a b hr
      rw [h1]
      refine ⟨by decide, ?_, le_of_eq h4⟩
      simp [lastD]
      exact h2
  | opNotifyComplete v =>
    simp only [Job.applyOp] at h
    cases hr : j.notifyCompleteP v with
    | error e => rw [hr] at h; simp at h
    | ok p =>
      obtain ⟨a, b⟩ := p
      rw [hr] at h
      simp at h
      obtain ⟨ha, hc⟩ := h
      subst ha; subst hc
      obtain ⟨h1, h2, _, h4, _⟩ := notifyCompleteP_ok j a v b hr
      rw [h1]
      refine ⟨by decide, ?_, le_of_eq h4⟩
      simp [lastD]
      exact h2
  | opNotifyError e =>
    simp only [Job.applyOp] at h
    cases hr : j.notifyErrorP e with
    | error e2 => rw [hr] at h; simp at h
    | ok p =>
      obtain ⟨a, b⟩ := p
      rw [hr] at h
      simp at h
      obtain ⟨ha, hc⟩ := h
      subst ha; subst hc
      obtain ⟨h1, h2, _, h4, _⟩ := notifyErrorP_ok j a e b hr
      rw [h1]
      refine ⟨by decide, ?_, ?_⟩
      · simp [lastD]
        exact h2
      · rw [h4]
        omega


theorem traceRun_append (s : JState) (a b : List JState) :
    traceRun s (a ++ b) = (traceRun s a && traceRun (lastD s a) b) := by
  induction a generalizing s with
  | nil => simp [traceRun, lastD]
  | cons x xs ih => simp [traceRun, lastD, ih x, Bool.and_assoc]

theorem lastD_append (a b : List JState) (s : JState) :
    lastD s (a ++ b) = lastD (lastD s a) b := by
  induction a generalizing s with
  | nil => simp [lastD]
  | cons x xs ih => simp [lastD, ih]

theorem applyOps_trace (j : Job) (ops : List JobOp) :
    traceRun j.state (j.applyOps ops).2 = true ∧
    (j.applyOps ops).1.state = lastD j.state (j.applyOps ops).2 ∧
    (j.applyOps ops).1.tries ≤ j.tries := by
  induction ops generalizing j with
  | nil => simp [Job.applyOps, traceRun, lastD]
  | cons op ops ih =>
    simp only [Job.applyOps]
    cases hop : j.applyOp op with
    | error e => exact ih j
    | ok p =>
      obtain ⟨j2, tr⟩ := p
      obtain ⟨h1, h2, h3⟩ := applyOp_ok j op j2 tr hop
      obtain ⟨i1, i2, i3⟩ := ih j2
      refine ⟨?_, ?_, le_trans i3 h3⟩
      · rw [traceRun_append, h1, Bool.true_and, ← h2]
        exact i1
      · rw [lastD_append, ← h2]
        exact i2

theorem applyOp_err (j : Job) (op : JobOp) :
    (srcOk op j.state = false → j.applyOp op = Except.error PyErr.incorrectJobState) ∧
    (srcOk op j.state = true → ∃ p, j.applyOp op = Except.ok p) := by
  cases op with
  | opRun =>
    constructor
    · intro hbad
      have hne : j.state ≠ JState.PENDING := by
        intro hx
        rw [hx] at hbad
        simp [srcOk] at hbad
      simp [Job.applyOp, Job.runJ, hne]
    · intro hgood
      have hst : j.state = JState.PENDING := by
        cases hj : j.state <;> rw [hj] at hgood <;> simp [srcOk] at hgood <;> rfl
      obtain ⟨p, hp⟩ := runBody_succeeds { j with state := JState.RUNNING, result := none } rfl
      obtain ⟨a, b, c⟩ := p
      refine ⟨(a, c), ?_⟩
      simp [Job.applyOp, Job.runJ, hst, hp]
  | opStop =>
    constructor
    · intro hbad
      have hne : j.state ≠ JState.RUNNING := by
        intro hx
        rw [hx] at hbad
        simp [srcOk] at hbad
      simp [Job.applyOp, Job.stopP, hne]
    · intro hgood
      have hst : j.state = JState.RUNNING := by
        cases hj : j.state <;> rw [hj] at hgood <;> simp [srcOk] at hgood <;> rfl
      refine ⟨({ j with result := none, state := JState.PENDING }, [JState.PENDING]), ?_⟩
      simp [Job.applyOp, Job.stopP, hst]
  | opRestart =>
    constructor
    · intro hbad
      have hne : j.state ≠ JState.COMPLETED ∧ j.state ≠ JState.FAILED := by
        constructor <;> intro hx <;> rw [hx] at hbad <;> simp [srcOk] at hbad
      simp [Job.applyOp, Job.restartJ, hne.1, hne.2]
    · intro hgood
      have hst : j.state = JState.COMPLETED ∨ j.state = JState.FAILED := by
        cases hj : j.state <;> rw [hj] at hgood <;> simp [srcOk] at hgood
        · exact Or.inl rfl
        · exact Or.inr rfl
      obtain ⟨p, hp⟩ := runBody_succeeds { j with result := none, state := JState.RUNNING } rfl
      obtain ⟨a, b, c⟩ := p
      refine ⟨(a, JState.PENDING :: c), ?_⟩
      rcases hst with hst | hst <;>
        simp [Job.applyOp, Job.restartJ, Job.runJ, hst, hp]
  | opMakeFailed =>
    constructor
    · intro hbad
      have hne : j.state ≠ JState.PENDING := by
        intro hx
        rw [hx] at hbad
        simp [srcOk] at hbad
      simp [Job.applyOp, Job.makeFailedP, hne]
    · intro hgood
      have hst : j.state = JState.PENDING := by
        cases hj : j.state <;> rw [hj] at hgood <;> simp [srcOk] at hgood <;> rfl
      cases hres : j.applyOp JobOp.opMakeFailed with
      | ok p => exact ⟨p, rfl⟩
      | error e2 => simp [Job.applyOp, Job.makeFailedP, hst] at hres
  | opNotifyComplete v =>
    constructor
    · intro hbad
      have hne : j.state ≠ JState.RUNNING := by
        intro hx
        rw [hx] at hbad
        simp [srcOk] at hbad
      simp [Job.applyOp, Job.notifyCompleteP, hne]
    · intro hgood
      have hst : j.state = JState.RUNNING := by
        cases hj : j.state <;> rw [hj] at hgood <;> simp [srcOk] at hgood <;> rfl
      cases hres : j.applyOp (JobOp.opNotifyComplete v) with
      | ok p => exact ⟨p, rfl⟩
      | error e2 => simp [Job.applyOp, Job.notifyCompleteP, hst] at hres
  | opNotifyError e =>
    constructor
    · intro hbad
      have hne : j.state ≠ JState.RUNNING := by
        intro hx
        rw [hx] at hbad
        simp [srcOk] at hbad
      simp [Job.applyOp, Job.notifyErrorP, hne]
    · intro hgood
      have hst : j.state = JState.RUNNING := by
        cases hj : j.state <;> rw [hj] at hgood <;> simp [srcOk] at hgood <;> rfl
      cases hres : j.applyOp (JobOp.opNotifyError e) with
      | ok p => exact ⟨p, rfl⟩
      | error e2 => simp [Job.applyOp, Job.notifyErrorP, hst] at hres

/-- C1 counterexample: make_failed on a PENDING job raises nothing and
performs the transition PENDING to FAILED, which is not among the
transitions the claim lists, and the resulting phase sequence PENDING,
FAILED is outside the regular language the claim states. -/
theorem c1_counterexample :
    cJob1.state = JState.PENDING ∧
    (cJob1.applyOps [JobOp.opMakeFailed]).2 = [JState.FAILED] ∧
    (cJob1.applyOps [JobOp.opMakeFailed]).1.state = JState.FAILED ∧
    (∃ p, cJob1.applyOp JobOp.opMakeFailed = Except.ok p) ∧
    inLClaim [JState.PENDING, JState.FAILED] = false := by
  exact ⟨rfl, rfl, rfl, ⟨_, rfl⟩, rfl⟩

/-- C1 (amended): the observable transitions of a job are exactly
PENDING to RUNNING via run, RUNNING to COMPLETED or FAILED via the internal
notifiers, COMPLETED or FAILED to PENDING via restart, RUNNING to PENDING
via stop, and additionally PENDING to FAILED via make_failed; any operation
invoked in a phase other than its allowed source raises IncorrectJobState
and performs nothing, and every phase sequence of a job is a run of this
extended edge set from PENDING (the claimed regular language widened by the
make_failed edge and closed under prefixes). -/
theorem c1_transitions :
    (∀ (j : Job) (ops : List JobOp), j.state = JState.PENDING →
        traceRun JState.PENDING (j.applyOps ops).2 = true) ∧
    (∀ (j : Job) (op : JobOp),
        (srcOk op j.state = false → j.applyOp op = Except.error PyErr.incorrectJobState) ∧
        (srcOk op j.state = true → ∃ p, j.applyOp op = Except.ok p)) := by
  constructor
  · intro j ops hp
    have h := (applyOps_trace j ops).1
    rw [hp] at h
    exact h
  · intro j op
    exact applyOp_err j op

/-- C1 witness: the amended theorem applied at a concrete job, operation
list and operation. -/
theorem c1_witness :
    traceRun JState.PENDING (cJob1.applyOps [JobOp.opRun, JobOp.opRestart]).2 = true ∧
    cJob1.applyOp JobOp.opStop = Except.error PyErr.incorrectJobState :=
  ⟨c1_transitions.1 cJob1 [JobOp.opRun, JobOp.opRestart] rfl,
   (c1_transitions.2 cJob1 JobOp.opStop).1 rfl⟩

/-- C5 counterexample: run on a PENDING job with try budget 0 does produce
the FAILED outcome with result "No tries left", but the budget is
decremented to -1, below 0, contrary to the claim that the budget goes no
lower on this path. -/
theorem c5_counterexample :
    cJob5.tries = 0 ∧ cJob5.state = JState.PENDING ∧
    (∃ j2 hs, cJob5.runJ = Except.ok (j2, hs, [JState.RUNNING, JState.FAILED]) ∧
      j2.result = some NO_TRIES_LEFT_ERROR ∧ j2.state = JState.FAILED ∧
      j2.tries = -1 ∧ j2.tries < 0) := by
  exact ⟨rfl, rfl, ⟨_, _, rfl, rfl, rfl, rfl, by decide⟩⟩

/-- C5 (amended): run on a PENDING job whose try budget is 0 performs the
legal no-work transition PENDING, RUNNING, FAILED with result
"No tries left", and the budget is decremented by one on this path as well,
so it does drop below 0, to -1. -/
theorem c5_no_tries_run (j : Job) (hp : j.state = JState.PENDING) (ht : j.tries = 0) :
    ∃ j2 hs, j.runJ = Except.ok (j2, hs, [JState.RUNNING, JState.FAILED]) ∧
      j2.result = some NO_TRIES_LEFT_ERROR ∧ j2.state = JState.FAILED ∧
      j2.tries = j.tries - 1 ∧ j2.tries < 0 ∧ hs = j.handlers := by
  cases hr : j.runJ with
  | error e =>
    exfalso
    simp [Job.runJ, hp, Job.runBody, Job.canBeStarted, ht, Job.notifyErrorP] at hr
  | ok p =>
    obtain ⟨a, b, c⟩ := p
    have hr2 := hr
    simp [Job.runJ, hp, Job.runBody, Job.canBeStarted, ht, Job.notifyErrorP] at hr
    obtain ⟨ha, hb, hc⟩ := hr
    refine ⟨a, b, ?_, ?_, ?_, ?_, ?_, hb.symm⟩
    · rw [hc]
    · rw [← ha]
    · rw [← ha]
    · rw [← ha]
      simp [ht]
    · rw [← ha]
      simp [ht]

/-- C5 witness: the amended theorem applied at the concrete exhausted job. -/
theorem c5_witness :
    ∃ j2 hs, cJob5.runJ = Except.ok (j2, hs, [JState.RUNNING, JState.FAILED]) ∧
      j2.result = some NO_TRIES_LEFT_ERROR ∧ j2.state = JState.FAILED ∧
      j2.tries = cJob5.tries - 1 ∧ j2.tries < 0 ∧ hs = cJob5.handlers :=
  c5_no_tries_run cJob5 rfl rfl

/-- C6: the try budget changes only on FAILED outcomes and then by exactly
one: every successful _notify_error decrements it by one, a successful
_notify_complete leaves it unchanged, and over any sequence of operations
the budget never increases. -/
theorem c6_tries_monotone :
    (∀ (j a : Job) (e : Option String) (hs : List Nat),
        j.notifyErrorP e = Except.ok (a, hs) → a.tries = j.tries - 1) ∧
    (∀ (j a : Job) (v : Option String) (hs : List Nat),
        j.notifyCompleteP v = Except.ok (a, hs) → a.tries = j.tries) ∧
    (∀ (j : Job) (ops : List JobOp), (j.applyOps ops).1.tries ≤ j.tries) := by
  refine ⟨?_, ?_, ?_⟩
  · intro j a e hs h
    exact (notifyErrorP_ok j a e hs h).2.2.2.1
  · intro j a v hs h
    exact (notifyCompleteP_ok j a v hs h).2.2.2.1
  · intro j ops
    exact (applyOps_trace j ops).2.2

/-- C6 witness: the theorem applied at a concrete running job and a
concrete operation list. -/
theorem c6_witness :
    cJobRE.tries = cJobR.tries - 1 ∧
    (cJobR.applyOps [JobOp.opStop]).1.tries ≤ cJobR.tries :=
  ⟨c6_tries_monotone.1 cJobR cJobRE (some "boom") [] rfl,
   c6_tries_monotone.2.2 cJobR [JobOp.opStop]⟩

/-- C8: make_failed on a PENDING job sets the state to FAILED and the
result to "Manually failed" and leaves the try budget unchanged, unlike
_notify_error: a cascaded or manual failure consumes no try. -/
theorem c8_make_failed_frame (j : Job) (hp : j.state = JState.PENDING) :
    ∃ a, j.makeFailedP = Except.ok (a, j.handlers) ∧ a.state = JState.FAILED ∧
      a.result = some MANUALLY_FAILED_ERROR ∧ a.tries = j.tries := by
  cases hr : j.makeFailedP with
  | error e =>
    exfalso
    simp [Job.makeFailedP, hp] at hr
  | ok p =>
    obtain ⟨a, hs⟩ := p
    obtain ⟨_, h2, h3, h4, _, _, h7⟩ := makeFailedP_ok j a hs hr
    refine ⟨a, ?_, h2, h3, h4⟩
    rw [h7]

/-- C8 witness: the theorem applied at the concrete pending job. -/
theorem c8_witness :
    ∃ a, cJob1.makeFailedP = Except.ok (a, cJob1.handlers) ∧ a.state = JState.FAILED ∧
      a.result = some MANUALLY_FAILED_ERROR ∧ a.tries = cJob1.tries :=
  c8_make_failed_frame cJob1 rfl

/-- C9: stop on a RUNNING job sets the state to PENDING and the result to
None and changes nothing else at the public interface: id, start-at,
dependencies, try budget and the registered completion-handler set are
unchanged (handlers are drained only by a completion, not by a stop). -/
theorem c9_stop_frame (j : Job) (hrun : j.state = JState.RUNNING) :
    ∃ a, j.stopP = Except.ok a ∧ a.state = JState.PENDING ∧ a.result = none ∧
      a.id = j.id ∧ a.startAt = j.startAt ∧ a.dependencies = j.dependencies ∧
      a.tries = j.tries ∧ a.handlers = j.handlers := by
  cases hr : j.stopP with
  | error e =>
    exfalso
    simp [Job.stopP, hrun] at hr
  | ok a =>
    obtain ⟨_, h2, h3, h4, h5, h6, h7, h8⟩ := stopP_ok j a hr
    exact ⟨a, rfl, h2, h3, h5, h6, h7, h4, h8⟩

/-- C9 witness: the theorem applied at the concrete running job. -/
theorem c9_witness :
    ∃ a, cJobR.stopP = Except.ok a ∧ a.state = JState.PENDING ∧ a.result = none ∧
      a.id = cJobR.id ∧ a.startAt = cJobR.startAt ∧ a.dependencies = cJobR.dependencies ∧
      a.tries = cJobR.tries ∧ a.handlers = cJobR.handlers :=
  c9_stop_frame cJobR rfl

/-- C7: cancel is idempotent: the first call on a not-yet-cancelled token
sets both flags and invokes exactly the callbacks registered before it, in
registration order (on_cancel appends); a later cancel changes no state and
invokes nothing; is_active holds exactly when the token is neither
cancelled nor completed. -/
theorem c7_cancel_idempotent (t : CancellationToken) :
    (t.isCanceled = false →
      t.cancel = ({ t with isCanceled := true, isCompleted := true }, t.callbacks)) ∧
    (t.isCanceled = true → t.cancel = (t, [])) ∧
    ((t.cancel.1).cancel = (t.cancel.1, [])) ∧
    (t.isCanceled = false →
      ∀ cb, t.onCancel cb = ({ t with callbacks := t.callbacks ++ [cb] }, [])) ∧
    (t.isActive = true ↔ (t.isCanceled = false ∧ t.isCompleted = false)) := by
  refine ⟨?_, ?_, ?_, ?_, ?_⟩
  · intro h
    simp [CancellationToken.cancel, h]
  · intro h
    simp [CancellationToken.cancel, h]
  · cases hc : t.isCanceled with
    | false => simp [CancellationToken.cancel, hc]
    | true => simp [CancellationToken.cancel, hc]
  · intro h cb
    simp [CancellationToken.onCancel, h]
  · simp [CancellationToken.isActive]

/-- C7 witness: the theorem applied at the fresh token. -/
theorem c7_witness :
    (mkToken.isCanceled = false →
      mkToken.cancel = ({ mkToken with isCanceled := true, isCompleted := true },
        mkToken.callbacks)) ∧
    (mkToken.isCanceled = true → mkToken.cancel = (mkToken, [])) ∧
    ((mkToken.cancel.1).cancel = (mkToken.cancel.1, [])) ∧
    (mkToken.isCanceled = false →
      ∀ cb, mkToken.onCancel cb = ({ mkToken with callbacks := mkToken.callbacks ++ [cb] }, [])) ∧
    (mkToken.isActive = true ↔ (mkToken.isCanceled = false ∧ mkToken.isCompleted = false)) :=
  c7_cancel_idempotent mkToken

/-- C10: Scheduler.stop when the scheduler is not running (no master
cancellation token) is not a no-op: it raises at the dereference of the
absent token, leaving every partition unchanged, and stop returns normally
only when is_running held. -/
theorem c10_stop_not_running :
    (∀ s : SchedState, s.isRunning = false → schedStopF s = (s, some PyErr.attributeError)) ∧
    (∀ s : SchedState, (schedStopF s).2 = none → s.isRunning = true) := by
  constructor
  · intro s h
    simp [schedStopF, h]
  · intro s h
    cases hv : s.isRunning with
    | true => rfl
    | false => simp [schedStopF, hv] at h

/-- C10 witness: the theorem applied at the fresh scheduler. -/
theorem c10_witness :
    schedStopF (schedInit 1) = (schedInit 1, some PyErr.attributeError) :=
  c10_stop_not_running.1 (schedInit 1) rfl

/-- C2 evaluation at the failing input: scheduler running, one sync job
with try budget 2 whose worker always raises. Its first failure reaches the
scheduler handler, which calls restart; but the subscriber set was drained
before the handler ran and nothing re-registers it, so the second episode
notifies nobody: schedule returns with the job FAILED, its subscriber set
empty, still inside the running partition, and the failed partition empty
forever after, against the claim that the restarted episode reports back
through the same handler and the job ends up in completed or failed. -/
theorem c2_code_evaluation :
    c2state.running = [1] ∧ c2state.pending = [] ∧ c2state.failed = [] ∧
    c2state.completed = [] ∧
    (∃ j, getJob c2state 1 = some j ∧ j.state = JState.FAILED ∧ j.handlers = [] ∧
      j.tries = 0) ∧
    (scheduleF 20 0 cJobT2 (schedRunF 20 0 (schedInit 10)).1).2 = none := by
  exact ⟨rfl, rfl, rfl, rfl, ⟨_, rfl, rfl, rfl, rfl⟩, rfl⟩

@[simp] theorem setJob_pending (s : SchedState) (j : Job) : (setJob s j).pending = s.pending := rfl

@[simp] theorem setJob_running (s : SchedState) (j : Job) : (setJob s j).running = s.running := rfl

@[simp] theorem setJob_completed (s : SchedState) (j : Job) :
    (setJob s j).completed = s.completed := rfl

@[simp] theorem setJob_failed (s : SchedState) (j : Job) : (setJob s j).failed = s.failed := rfl

@[simp] theorem setJob_poolSize (s : SchedState) (j : Job) :
    (setJob s j).poolSize = s.poolSize := rfl

@[simp] theorem setJob_timers (s : SchedState) (j : Job) : (setJob s j).timers = s.timers := rfl

@[simp] theorem setJob_isRunning (s : SchedState) (j : Job) :
    (setJob s j).isRunning = s.isRunning := rfl

@[simp] theorem setJob_curGen (s : SchedState) (j : Job) : (setJob s j).curGen = s.curGen := rfl

theorem insertNew_length (a : Nat) (l : List Nat) :
    (insertNew a l).length ≤ l.length + 1 := by
  unfold insertNew
  split
  · omega
  · simp

theorem erase_length_le (a : Nat) (l : List Nat) : (l.erase a).length ≤ l.length :=
  (List.erase_sublist a l).length_le

theorem exec_total_pool (n : Nat) :
    ∀ (now : Int) (c : Call) (s : SchedState),
      totalJobsAmount (exec n now c s).1 ≤ totalJobsAmount s ∧
      (exec n now c s).1.poolSize = s.poolSize := by
  induction n with
  | zero =>
    intro now c s
    simp [exec]
  | succ n ih =>
    intro now c s
    cases c with
    | runJob jid =>
      simp only [exec]
      split
      · simp [totalJobsAmount]
      · next j heq =>
        split
        · simp [totalJobsAmount]
        · rcases hB : exec n now (Call.runTry jid) s with ⟨s2, e2⟩
          have h1 := ih now (Call.runTry jid) s
          rw [hB] at h1
          try rw [hB]
          have h2 := ih now (Call.notifyError jid (some INTERNAL_JOB_ERROR)) s2
          cases e2 with
          | none => simp [totalJobsAmount] at h1 ⊢; omega
          | some pe =>
            cases pe <;> simp [totalJobsAmount] at h1 h2 ⊢ <;> omega
    | runTry jid =>
      simp only [exec]
      split
      · simp [totalJobsAmount]
      · next j heq =>
        split
        · have h1 := ih now (Call.notifyError jid (some NO_TRIES_LEFT_ERROR))
            (setJob s { j with state := JState.RUNNING, result := none })
          simp [totalJobsAmount] at h1 ⊢
          omega
        · split
          · simp [totalJobsAmount]
          · split
            · next v hw =>
              have h1 := ih now (Call.notifyComplete jid (some v))
                (setJob s { j with state := JState.RUNNING, result := none, epi := j.epi + 1 })
              simp [totalJobsAmount] at h1 ⊢
              omega
            · simp [totalJobsAmount]
    | notifyComplete jid v =>
      simp only [exec]
      split
      · simp [totalJobsAmount]
      · next j heq =>
        split
        · simp [totalJobsAmount]
        · have h1 := ih now (Call.invokeHandlers jid j.handlers)
            (setJob s { j with result := v, state := JState.COMPLETED, handlers := [] })
          simp [totalJobsAmount] at h1 ⊢
          omega
    | notifyError jid e =>
      simp only [exec]
      split
      · simp [totalJobsAmount]
      · next j heq =>
        split
        · simp [totalJobsAmount]
        · have h1 := ih now (Call.invokeHandlers jid j.handlers)
            (setJob s
              { j with tries := j.tries - 1, result := e, state := JState.FAILED, handlers := [] })
          simp [totalJobsAmount] at h1 ⊢
          omega
    | invokeHandlers jid hs =>
      cases hs with
      | nil => simp [exec, totalJobsAmount]
      | cons hh rest =>
        simp only [exec]
        rcases hA : exec n now (Call.onJobComplete jid) s with ⟨s1, e1⟩
        have h1 := ih now (Call.onJobComplete jid) s
        rw [hA] at h1
        try rw [hA]
        have h2 := ih now (Call.invokeHandlers jid rest) s1
        cases e1 with
        | none => simp [totalJobsAmount] at h1 h2 ⊢; omega
        | some e => simp [totalJobsAmount] at h1 ⊢; omega
    | onJobComplete jid =>
      simp only [exec]
      split
      · simp [totalJobsAmount]
      · next j heq =>
        split
        · split
          · next hmem =>
            have h1 := ih now (Call.startList jid s.pending)
              { s with running := s.running.erase jid, completed := insertNew jid s.completed }
            have h2 := erase_length_le jid s.running
            simp [totalJobsAmount] at h1 ⊢
            omega
          · simp [totalJobsAmount]
        · split
          · have h1 := ih now (Call.onJobFailed jid) s
            simp [totalJobsAmount] at h1 ⊢
            omega
          · simp [totalJobsAmount]
    | onJobFailed jid =>
      simp only [exec]
      split
      · simp [totalJobsAmount]
      · next j heq =>
        split
        · split
          · simp [totalJobsAmount]
          · have h1 := ih now (Call.runJob jid)
              (setJob s { j with result := none, state := JState.PENDING })
            simp [totalJobsAmount] at h1 ⊢
            omega
        · split
          · have h1 := ih now (Call.autoFail jid)
              { s with pending := s.pending.erase jid, failed := insertNew jid s.failed }
            have h2 := erase_length_le jid s.pending
            simp [totalJobsAmount] at h1 ⊢
            omega
          · split
            · have h1 := ih now (Call.autoFail jid)
                { s with running := s.running.erase jid, failed := insertNew jid s.failed }
              have h2 := erase_length_le jid s.running
              simp [totalJobsAmount] at h1 ⊢
              omega
            · simp [totalJobsAmount]
    | autoFail jid =>
      simp only [exec]
      rcases hA : exec n now (Call.makeFailedList (markedOf s jid)) s with ⟨s1, e1⟩
      have h1 := ih now (Call.makeFailedList (markedOf s jid)) s
      rw [hA] at h1
      try rw [hA]
      have h2 := ih now (Call.cascadeList (markedOf s jid)) s1
      cases e1 with
      | none => simp [totalJobsAmount] at h1 h2 ⊢; omega
      | some e => simp [totalJobsAmount] at h1 ⊢; omega
    | makeFailedCall jid =>
      simp only [exec]
      split
      · simp [totalJobsAmount]
      · next j heq =>
        split
        · simp [totalJobsAmount]
        · have h1 := ih now (Call.invokeHandlers jid j.handlers)
            (setJob s
              { j with result := some MANUALLY_FAILED_ERROR, state := JState.FAILED,
                       handlers := [] })
          simp [totalJobsAmount] at h1 ⊢
          omega
    | makeFailedList l =>
      cases l with
      | nil => simp [exec, totalJobsAmount]
      | cons p rest =>
        simp only [exec]
        rcases hA : exec n now (Call.makeFailedCall p) s with ⟨s1, e1⟩
        have h1 := ih now (Call.makeFailedCall p) s
        rw [hA] at h1
        try rw [hA]
        have h2 := ih now (Call.makeFailedList rest) s1
        cases e1 with
        | none => simp [totalJobsAmount] at h1 h2 ⊢; omega
        | some e => simp [totalJobsAmount] at h1 ⊢; omega
    | cascadeList l =>
      cases l with
      | nil => simp [exec, totalJobsAmount]
      | cons p rest =>
        simp only [exec]
        rcases hA : exec n now (Call.onJobFailed p) s with ⟨s1, e1⟩
        have h1 := ih now (Call.onJobFailed p) s
        rw [hA] at h1
        try rw [hA]
        have h2 := ih now (Call.cascadeList rest) s1
        cases e1 with
        | none => simp [totalJobsAmount] at h1 h2 ⊢; omega
        | some e => simp [totalJobsAmount] at h1 ⊢; omega
    | startJobIfCan jid =>
      simp only [exec]
      split
      · simp [totalJobsAmount]
      · split
        · simp [totalJobsAmount]
        · next j heq =>
          split
          · simp [totalJobsAmount]
          · split
            · simp [totalJobsAmount]
            · have h1 := ih now (Call.startJob jid) s
              simp [totalJobsAmount] at h1 ⊢
              omega
    | startJob jid =>
      simp only [exec]
      split
      · simp [totalJobsAmount]
      · next j heq =>
        split
        · next hmem =>
          have h1 := ih now (Call.runJob jid)
            { s with jobs := (setJob s (j.addCompleteHandler 0)).jobs,
                     pending := s.pending.erase jid,
                     running := insertNew jid s.running }
          have h2 := List.length_erase_of_mem hmem
          have h3 := insertNew_length jid s.running
          have h4 : 1 ≤ s.pending.length := List.length_pos_of_mem hmem
          simp [totalJobsAmount] at h1 ⊢
          omega
        · simp [totalJobsAmount]
    | startList depId l =>
      cases l with
      | nil => simp [exec, totalJobsAmount]
      | cons p rest =>
        simp only [exec]
        split
        · simp [totalJobsAmount]
        · next pj heq =>
          split
          · rcases hA : exec n now (Call.startJobIfCan p) s with ⟨s1, e1⟩
            have h1 := ih now (Call.startJobIfCan p) s
            rw [hA] at h1
            try rw [hA]
            have h2 := ih now (Call.startList depId rest) s1
            cases e1 with
            | none => simp [totalJobsAmount] at h1 h2 ⊢; omega
            | some e => simp [totalJobsAmount] at h1 ⊢; omega
          · have h2 := ih now (Call.startList depId rest) s
            simp [totalJobsAmount] at h2 ⊢
            omega
    | runPendingList l =>
      cases l with
      | nil => simp [exec, totalJobsAmount]
      | cons p rest =>
        simp only [exec]
        split
        · rcases hA : exec n now (Call.startJobIfCan p) s with ⟨s1, e1⟩
          have h1 := ih now (Call.startJobIfCan p) s
          rw [hA] at h1
          try rw [hA]
          have h2 := ih now (Call.runPendingList rest) s1
          cases e1 with
          | none => simp [totalJobsAmount] at h1 h2 ⊢; omega
          | some e => simp [totalJobsAmount] at h1 ⊢; omega
        · have h2 := ih now (Call.runPendingList rest) s
          simp [totalJobsAmount] at h2 ⊢
          omega

@[simp] theorem admitted_running (s : SchedState) (j : Job) :
    (admitted s j).running = s.running := rfl

@[simp] theorem admitted_poolSize (s : SchedState) (j : Job) :
    (admitted s j).poolSize = s.poolSize := rfl

@[simp] theorem admitted_pending (s : SchedState) (j : Job) :
    (admitted s j).pending = insertNew j.id s.pending := rfl

theorem stopListGo_total (l : List Nat) :
    ∀ s : SchedState,
      (stopListGo l s).1.pending.length ≤ s.pending.length + l.length ∧
      (stopListGo l s).1.running = s.running ∧
      (stopListGo l s).1.poolSize = s.poolSize := by
  induction l with
  | nil => intro s; simp [stopListGo]
  | cons p rest ih =>
    intro s
    simp only [stopListGo]
    split
    · simp
    · next j heq =>
      split
      · simp
      · obtain ⟨h1a, h1b, h1c⟩ := ih
          { setJob s { j with handlers := [], result := none, state := JState.PENDING } with
            pending := insertNew p s.pending }
        have h2 := insertNew_length p s.pending
        refine ⟨?_, ?_, ?_⟩
        · simp at h1a ⊢
          omega
        · simpa using h1b
        · simpa using h1c

theorem reach_total (s : SchedState) (h : Reach s) : totalJobsAmount s ≤ s.poolSize := by
  induction h with
  | init ps => simp [schedInit, totalJobsAmount]
  | @sched s n now j hr hf hnf ih =>
    unfold scheduleF
    split
    · simpa using ih
    · next hguard =>
      split
      · simpa using ih
      · have hb : totalJobsAmount (admitted s j) ≤ s.poolSize := by
          have h2 := insertNew_length j.id s.pending
          simp [totalJobsAmount] at hguard ⊢
          omega
        split
        · rcases hA : exec n now (Call.makeFailedCall j.id) (admitted s j) with ⟨s2, e2⟩
          have h1 := exec_total_pool n now (Call.makeFailedCall j.id) (admitted s j)
          rw [hA] at h1
          try rw [hA]
          have h2 := exec_total_pool n now (Call.onJobFailed j.id) s2
          cases e2 with
          | none => simp [totalJobsAmount] at h1 h2 hb ⊢; omega
          | some e => simp [totalJobsAmount] at h1 hb ⊢; omega
        · have h1 := exec_total_pool n now (Call.startJobIfCan j.id) (admitted s j)
          simp [totalJobsAmount] at h1 hb ⊢
          omega
  | @runS s n now hr hnf ih =>
    unfold schedRunF
    have h1 := exec_total_pool n now (Call.runPendingList s.pending)
      { s with isRunning := true, curGen := s.curGen + 1 }
    simp [totalJobsAmount] at h1 ih ⊢
    omega
  | @stopS s hr ih =>
    unfold schedStopF
    split
    · simpa using ih
    · obtain ⟨ha, hb, hc⟩ := stopListGo_total s.running
        { s with isRunning := false,
                 timers := s.timers.filter (fun t => !(t.2 == s.curGen)),
                 running := [] }
      simp [totalJobsAmount] at ih ha ⊢
      rw [hb, hc]
      simp
      omega
  | @asyncS s n now jid hr hnf ih =>
    unfold asyncFinStep
    split
    · simpa using ih
    · next j heq =>
      split
      · split
        · next v hw =>
          have h1 := exec_total_pool n now (Call.notifyComplete jid (some v))
            (setJob s { j with epi := j.epi + 1 })
          simp [totalJobsAmount] at h1 ih ⊢
          omega
        · simpa [totalJobsAmount] using ih
      · simpa using ih
  | @timerS s n now jid g hr hnf ih =>
    unfold timerFireStep
    split
    · split
      · have h1 := exec_total_pool n now (Call.startJob jid)
          { s with timers := s.timers.erase (jid, g) }
        simp [totalJobsAmount] at h1 ih ⊢
        omega
      · simpa [totalJobsAmount] using ih
    · simpa using ih
  | @timeoutS s n now jid hr hnf ih =>
    unfold timeoutStep
    split
    · simpa using ih
    · next j heq =>
      split
      · have h1 := exec_total_pool n now (Call.notifyError jid (some TIMEOUT_ERROR)) s
        simp [totalJobsAmount] at h1 ih ⊢
        omega
      · simpa using ih

/-- C4: in every reachable scheduler state the combined size of the pending
and running partitions is at most the pool size, and schedule invoked when
the combined size already equals the pool size raises PoolSize without
admitting the job or changing anything. -/
theorem c4_pool_bound :
    (∀ s : SchedState, Reach s → totalJobsAmount s ≤ s.poolSize) ∧
    (∀ (s : SchedState) (n : Nat) (now : Int) (j : Job),
        totalJobsAmount s = s.poolSize → scheduleF n now j s = (s, some PyErr.poolSize)) := by
  constructor
  · intro s h
    exact reach_total s h
  · intro s n now j h
    unfold scheduleF
    have hge : s.pending.length + s.running.length ≥ s.poolSize := by
      simp [totalJobsAmount] at h
      omega
    simp [hge]

/-- C4 witness: the bound at the initial state of pool size 0, where the
pool is already saturated and schedule refuses. -/
theorem c4_witness :
    totalJobsAmount (schedInit 0) ≤ (schedInit 0).poolSize ∧
    scheduleF 5 0 cJob1 (schedInit 0) = (schedInit 0, some PyErr.poolSize) :=
  ⟨c4_pool_bound.1 (schedInit 0) (Reach.init 0),
   c4_pool_bound.2 (schedInit 0) 5 0 cJob1 rfl⟩

theorem find_map_set (l : List Job) (j : Job) (jid : Nat) (k : Job)
    (hk : l.find? (fun k => k.id == jid) = some k) (hj : j.id = jid) :
    (l.map (fun k => if k.id == j.id then j else k)).find? (fun k => k.id == jid) = some j := by
  induction l with
  | nil => simp at hk
  | cons x xs ih =>
    simp only [List.map_cons]
    by_cases hx : x.id = jid
    · have hxj : x.id = j.id := by rw [hx, hj]
      rw [if_pos (by simp [hxj])]
      simp only [List.find?_cons, show (j.id == jid) = true by simp [hj]]
    · have hxj : ¬ x.id = j.id := by rw [hj]; exact hx
      rw [if_neg (by simp [hxj])]
      simp only [List.find?_cons, show (x.id == jid) = false by simp [hx]] at hk
      simp only [List.find?_cons, show (x.id == jid) = false by simp [hx]]
      exact ih hk

theorem find_map_set_other (l : List Job) (j : Job) (a : Nat) (ha : a ≠ j.id) :
    (l.map (fun k => if k.id == j.id then j else k)).find? (fun k => k.id == a) =
    l.find? (fun k => k.id == a) := by
  induction l with
  | nil => simp
  | cons x xs ih =>
    simp only [List.map_cons]
    by_cases hx : x.id = j.id
    · have h1 : (j.id == a) = false := by
        simp
        exact fun hc => ha hc.symm
      have h2 : (x.id == a) = false := by
        rw [hx]
        exact h1
      rw [if_pos (by simp [hx])]
      simp only [List.find?_cons, h1, h2]
      exact ih
    · rw [if_neg (by simp [hx])]
      by_cases hxa : x.id = a
      · simp only [List.find?_cons, show (x.id == a) = true by simp [hxa]]
      · simp only [List.find?_cons, show (x.id == a) = false by simp [hxa]]
        exact ih

theorem find_map_set_none (l : List Job) (j : Job) (jid : Nat)
    (hk : l.find? (fun k => k.id == jid) = none) (hj : j.id = jid) :
    (l.map (fun k => if k.id == j.id then j else k)).find? (fun k => k.id == jid) = none := by
  induction l with
  | nil => simp
  | cons x xs ih =>
    have hx : ¬ x.id = jid := by
      by_contra hc
      simp only [List.find?_cons, show (x.id == jid) = true by simp [hc]] at hk
      simp at hk
    simp only [List.find?_cons, show (x.id == jid) = false by simp [hx]] at hk
    simp only [List.map_cons]
    have hxj : ¬ x.id = j.id := by rw [hj]; exact hx
    rw [if_neg (by simp [hxj])]
    simp only [List.find?_cons, show (x.id == jid) = false by simp [hx]]
    exact ih hk

theorem getJob_setJob_self (s : SchedState) (j : Job) (jid : Nat) (k : Job)
    (hk : getJob s jid = some k) (hj : j.id = jid) :
    getJob (setJob s j) jid = some j :=
  find_map_set s.jobs j jid k hk hj

theorem getJob_setJob_other (s : SchedState) (j : Job) (a : Nat) (ha : a ≠ j.id) :
    getJob (setJob s j) a = getJob s a :=
  find_map_set_other s.jobs j a ha

theorem getJob_setJob_isSome (s : SchedState) (j : Job) (a : Nat) :
    (getJob (setJob s j) a).isSome = (getJob s a).isSome := by
  by_cases ha : a = j.id
  · cases hk : getJob s a with
    | none =>
      have h2 : getJob (setJob s j) a = none := find_map_set_none s.jobs j a hk ha.symm
      rw [h2]
    | some k =>
      have h2 : getJob (setJob s j) a = some j := getJob_setJob_self s j a k hk ha.symm
      rw [h2]
      rfl
  · rw [getJob_setJob_other s j a ha]

theorem getJob_id (s : SchedState) (a : Nat) (j : Job) (h : getJob s a = some j) :
    j.id = a := by
  have := List.find?_some h
  simpa using this

theorem mem_insertNew (a b : Nat) (l : List Nat) :
    a ∈ insertNew b l ↔ a = b ∨ a ∈ l := by
  unfold insertNew
  split
  · next hb =>
    constructor
    · exact fun h => Or.inr h
    · rintro (rfl | h)
      · exact hb
      · exact h
  · simp

theorem insertNew_nodup (b : Nat) (l : List Nat) (h : l.Nodup) : (insertNew b l).Nodup := by
  unfold insertNew
  split
  · exact h
  · next hb => exact List.nodup_cons.mpr ⟨hb, h⟩

theorem Keeps_refl (s : SchedState) : Keeps s s := by
  refine ⟨fun a h => h, fun a h => h, fun a h => h, fun a => rfl, ?_, ?_, ?_⟩
  · intro a j j2 h1 h2
    rw [h1] at h2
    cases h2
    rfl
  · intro a _ j j2 h1 h2 hst
    rw [h1] at h2
    cases h2
    exact hst
  · intro d hd hnd
    exact absurd hd hnd

theorem Keeps_trans {s1 s2 s3 : SchedState} (h1 : Keeps s1 s2) (h2 : Keeps s2 s3) :
    Keeps s1 s3 := by
  obtain ⟨p1, c1, f1, e1, d1, ps1, fs1⟩ := h1
  obtain ⟨p2, c2, f2, e2, d2, ps2, fs2⟩ := h2
  refine ⟨fun a h => p1 a (p2 a h), fun a h => c2 a (c1 a h), fun a h => f2 a (f1 a h),
    fun a => (e2 a).trans (e1 a), ?_, ?_, ?_⟩
  · intro a j j3 hj hj3
    have hs : (getJob s2 a).isSome = true := by rw [← e2 a, hj3]; rfl
    cases hmid : getJob s2 a with
    | none => rw [hmid] at hs; simp at hs
    | some j2 =>
      exact (d2 a j2 j3 hmid hj3).trans (d1 a j j2 hj hmid)
  · intro a ha j j3 hj hj3 hst
    have hs : (getJob s2 a).isSome = true := by rw [← e2 a, hj3]; rfl
    cases hmid : getJob s2 a with
    | none => rw [hmid] at hs; simp at hs
    | some j2 =>
      exact ps1 a (p2 a ha) j j2 hj hmid (ps2 a ha j2 j3 hmid hj3 hst)
  · intro d hd hnd a ha j hj hst
    by_cases hmid : d ∈ s2.failed
    · have hs : (getJob s2 a).isSome = true := by rw [← e2 a, hj]; rfl
      cases hj2 : getJob s2 a with
      | none => rw [hj2] at hs; simp at hs
      | some j2 =>
        have hst2 : j2.state = JState.PENDING := ps2 a ha j2 j hj2 hj hst
        have := fs1 d hmid hnd a (p2 a ha) j2 hj2 hst2
        have hdep : depsContain j d = depsContain j2 d := by
          unfold depsContain
          rw [d2 a j2 j hj2 hj]
        rw [hdep]
        exact this
    · exact fs2 d hd hmid a ha j hj hst

theorem SInv_update (s : SchedState) (hI : SInv s) (jid : Nat) (j jN : Job)
    (hj : getJob s jid = some j) (hid : jN.id = j.id)
    (hdeps : jN.dependencies = j.dependencies)
    (c1 : jid ∈ s.pending → (jN.state = JState.PENDING ∨ jN.state = JState.FAILED) ∧
      jN.handlers = [])
    (c2 : jid ∈ s.failed → jN.state = JState.FAILED)
    (c3 : jN.handlers = [] ∨ jN.handlers = [0])
    (c4 : (jN.state = JState.PENDING ∧ jid ∈ s.pending) ∨
      (∀ d ∈ depsList j, d ∈ s.completed) ∨
      (jN.state = JState.FAILED ∧ jN.result = some MANUALLY_FAILED_ERROR ∧
        (jid ∈ s.pending ∨ jid ∈ s.failed))) :
    SInv (setJob s jN) := by
  have hjid : j.id = jid := getJob_id s jid j hj
  have hNid : jN.id = jid := hid.trans hjid
  have hself : getJob (setJob s jN) jid = some jN :=
    getJob_setJob_self s jN jid j hj hNid
  have hother : ∀ a, a ≠ jid → getJob (setJob s jN) a = getJob s a := by
    intro a ha
    exact getJob_setJob_other s jN a (by rw [hNid]; exact ha)
  have hget : ∀ a (k : Job), getJob (setJob s jN) a = some k →
      (a = jid ∧ k = jN) ∨ (a ≠ jid ∧ getJob s a = some k) := by
    intro a k hk
    by_cases ha : a = jid
    · subst ha
      rw [hself] at hk
      cases hk
      exact Or.inl ⟨rfl, rfl⟩
    · rw [hother a ha] at hk
      exact Or.inr ⟨ha, hk⟩
  have hdl : depsList jN = depsList j := by unfold depsList; rw [hdeps]
  constructor
  · exact hI.pendNodup
  · exact hI.runNodup
  · exact hI.disjPR
  · intro a ha k hk d hd
    rcases hget a k hk with ⟨rfl, rfl⟩ | ⟨hne, hk2⟩
    · rw [hdl] at hd
      exact hI.runDeps a ha j hj d hd
    · exact hI.runDeps a ha k hk2 d hd
  · intro t ht k hk d hd
    rcases hget t.1 k hk with ⟨he, rfl⟩ | ⟨hne, hk2⟩
    · rw [hdl] at hd
      refine hI.timerDeps t ht j ?_ d hd
      rw [he]
      exact hj
    · exact hI.timerDeps t ht k hk2 d hd
  · intro a ha k hk
    rcases hget a k hk with ⟨rfl, rfl⟩ | ⟨hne, hk2⟩
    · exact (c1 ha).1
    · exact hI.pendState a ha k hk2
  · intro a ha k hk
    rcases hget a k hk with ⟨rfl, rfl⟩ | ⟨hne, hk2⟩
    · exact (c1 ha).2
    · exact hI.pendHandlers a ha k hk2
  · intro a k hk
    rcases hget a k hk with ⟨rfl, rfl⟩ | ⟨hne, hk2⟩
    · exact c3
    · exact hI.handlersShape a k hk2
  · intro a ha k hk
    rcases hget a k hk with ⟨rfl, rfl⟩ | ⟨hne, hk2⟩
    · exact c2 ha
    · exact hI.failedState a ha k hk2
  · exact hI.compFailDisj
  · exact hI.pendNotC
  · exact hI.pendNotF
  · exact hI.runNotC
  · exact hI.runNotF
  · intro a k hk
    rcases hget a k hk with ⟨rfl, rfl⟩ | ⟨hne, hk2⟩
    · rw [hdl]
      exact c4
    · exact hI.depOK a k hk2

theorem Keeps_setJob (s : SchedState) (jid : Nat) (j jN : Job)
    (hj : getJob s jid = some j) (hid : jN.id = j.id)
    (hdeps : jN.dependencies = j.dependencies)
    (hps : jid ∈ s.pending → jN.state = JState.PENDING → j.state = JState.PENDING) :
    Keeps s (setJob s jN) := by
  have hjid : j.id = jid := getJob_id s jid j hj
  have hNid : jN.id = jid := hid.trans hjid
  have hself : getJob (setJob s jN) jid = some jN :=
    getJob_setJob_self s jN jid j hj hNid
  have hother : ∀ a, a ≠ jid → getJob (setJob s jN) a = getJob s a := by
    intro a ha
    exact getJob_setJob_other s jN a (by rw [hNid]; exact ha)
  have hget : ∀ a (k : Job), getJob (setJob s jN) a = some k →
      (a = jid ∧ k = jN) ∨ (a ≠ jid ∧ getJob s a = some k) := by
    intro a k hk
    by_cases ha : a = jid
    · subst ha
      rw [hself] at hk
      cases hk
      exact Or.inl ⟨rfl, rfl⟩
    · rw [hother a ha] at hk
      exact Or.inr ⟨ha, hk⟩
  refine ⟨fun a h => h, fun a h => h, fun a h => h, fun a => getJob_setJob_isSome s jN a,
    ?_, ?_, ?_⟩
  · intro a k k2 hk hk2
    rcases hget a k2 hk2 with ⟨rfl, rfl⟩ | ⟨hne, hk3⟩
    · rw [hj] at hk
      cases hk
      exact hdeps
    · rw [hk3] at hk
      cases hk
      rfl
  · intro a ha k k2 hk hk2 hst
    rcases hget a k2 hk2 with ⟨rfl, rfl⟩ | ⟨hne, hk3⟩
    · rw [hj] at hk
      cases hk
      exact hps ha hst
    · rw [hk3] at hk
      cases hk
      exact hst
  · intro d hd hnd
    exact absurd hd hnd

theorem PF_setJob_other (s : SchedState) (jN : Job) (a : Nat) (ha : a ≠ jN.id) :
    PF (setJob s jN) a ↔ PF s a := by
  unfold PF
  rw [getJob_setJob_other s jN a ha]
  rfl

theorem PF_setJob_self (s : SchedState) (jid : Nat) (j jN : Job)
    (hj : getJob s jid = some j) (hNid : jN.id = jid) :
    PF (setJob s jN) jid ↔ (jid ∈ s.pending ∧ jN.state = JState.FAILED) := by
  unfold PF
  rw [getJob_setJob_self s jN jid j hj hNid]
  constructor
  · rintro ⟨hm, k, hk, hst⟩
    cases hk
    exact ⟨hm, hst⟩
  · rintro ⟨hm, hst⟩
    exact ⟨hm, jN, rfl, hst⟩

theorem PFempty_setJob (s : SchedState) (jid : Nat) (j jN : Job)
    (hj : getJob s jid = some j) (hNid : jN.id = jid)
    (h : PFempty s) (hN : jN.state ≠ JState.FAILED) : PFempty (setJob s jN) := by
  intro a hPF
  by_cases ha : a = jid
  · subst ha
    rw [PF_setJob_self s a j jN hj hNid] at hPF
    exact hN hPF.2
  · rw [PF_setJob_other s jN a (by rw [hNid]; exact ha)] at hPF
    exact h a hPF

theorem handlersEmpty_setJob_self (s : SchedState) (jid : Nat) (j jN : Job)
    (hj : getJob s jid = some j) (hNid : jN.id = jid) (hh : jN.handlers = []) :
    handlersEmpty (setJob s jN) jid := by
  intro k hk
  rw [getJob_setJob_self s jN jid j hj hNid] at hk
  cases hk
  exact hh

theorem handlersEmpty_setJob_other (s : SchedState) (jN : Job) (a : Nat) (ha : a ≠ jN.id)
    (hh : handlersEmpty s a) : handlersEmpty (setJob s jN) a := by
  intro k hk
  rw [getJob_setJob_other s jN a ha] at hk
  exact hh k hk

theorem stateFailedAt_setJob_self (s : SchedState) (jid : Nat) (j jN : Job)
    (hj : getJob s jid = some j) (hNid : jN.id = jid) (hst : jN.state = JState.FAILED) :
    stateFailedAt (setJob s jN) jid := by
  intro k hk
  rw [getJob_setJob_self s jN jid j hj hNid] at hk
  cases hk
  exact hst

theorem FrameJ_refl (s : SchedState) (jid : Nat) (h : handlersEmpty s jid) :
    FrameJ s s jid :=
  ⟨rfl, rfl, rfl, rfl, rfl, rfl, rfl, fun a _ => rfl, h⟩

theorem FrameJ_trans {s s1 s2 : SchedState} {jid : Nat}
    (h1 : FrameJ s s1 jid) (h2 : FrameJ s1 s2 jid) : FrameJ s s2 jid := by
  obtain ⟨p1, r1, c1, f1, t1, i1, g1, o1, e1⟩ := h1
  obtain ⟨p2, r2, c2, f2, t2, i2, g2, o2, e2⟩ := h2
  exact ⟨p2.trans p1, r2.trans r1, c2.trans c1, f2.trans f1, t2.trans t1,
    i2.trans i1, g2.trans g1, fun a ha => (o2 a ha).trans (o1 a ha), e2⟩

theorem depsContain_iff (j : Job) (d : Nat) :
    depsContain j d = true ↔ d ∈ depsList j := by
  unfold depsContain depsList
  cases j.dependencies with
  | none => simp
  | some l => simp

theorem depsAvailable_iff (s : SchedState) (j : Job) :
    depsAvailable s j = true ↔ ∀ d ∈ depsList j, d ∈ s.completed := by
  unfold depsAvailable
  simp

theorem markedOf_spec (s : SchedState) (jid a : Nat) :
    a ∈ markedOf s jid ↔ a ∈ s.pending ∧ ∃ pj, getJob s a = some pj ∧
      depsContain pj jid = true ∧ pj.state ≠ JState.FAILED := by
  unfold markedOf
  rw [List.mem_filter]
  constructor
  · rintro ⟨hm, hp⟩
    refine ⟨hm, ?_⟩
    cases hg : getJob s a with
    | none => rw [hg] at hp; simp at hp
    | some pj =>
      rw [hg] at hp
      simp at hp
      exact ⟨pj, rfl, hp.1, hp.2⟩
  · rintro ⟨hm, pj, hg, hd, hst⟩
    refine ⟨hm, ?_⟩
    rw [hg]
    simp [hd, hst]

theorem markedOf_nodup (s : SchedState) (jid : Nat) (h : s.pending.Nodup) :
    (markedOf s jid).Nodup :=
  h.filter _

theorem markedOf_sub (s : SchedState) (jid a : Nat) (h : a ∈ markedOf s jid) :
    a ∈ s.pending :=
  ((markedOf_spec s jid a).1 h).1

/-- Keeps for a step that only moves partitions monotonically and keeps
the job heap and the failed partition. -/
theorem Keeps_parts (s s2 : SchedState)
    (hp : ∀ a, a ∈ s2.pending → a ∈ s.pending)
    (hc : ∀ a, a ∈ s.completed → a ∈ s2.completed)
    (hf : s2.failed = s.failed) (hj : s2.jobs = s.jobs) : Keeps s s2 := by
  have hg : ∀ a, getJob s2 a = getJob s a := by
    intro a
    unfold getJob
    rw [hj]
  refine ⟨hp, hc, fun a h => by rw [hf]; exact h, fun a => by rw [hg a], ?_, ?_, ?_⟩
  · intro a j j2 h1 h2
    rw [hg a, h1] at h2
    cases h2
    rfl
  · intro a _ j j2 h1 h2 hst
    rw [hg a, h1] at h2
    cases h2
    exact hst
  · intro d hd hnd
    rw [hf] at hd
    exact absurd hd hnd

theorem PFempty_setJob_np (s : SchedState) (jid : Nat) (jN : Job)
    (hNid : jN.id = jid) (h : PFempty s) (hnp : jid ∉ s.pending) :
    PFempty (setJob s jN) := by
  intro a hPF
  by_cases ha : a = jid
  · subst ha
    exact hnp hPF.1
  · rw [PF_setJob_other s jN a (by rw [hNid]; exact ha)] at hPF
    exact h a hPF

/-- Invariants across the start move of __start_job on a pending job:
the handler subscription joins the job object, and the id moves from
pending to running. -/
theorem startMove_inv (s : SchedState) (hI : SInv s) (jid : Nat) (j : Job)
    (heq : getJob s jid = some j) (hmem : jid ∈ s.pending)
    (hdall : depsAvailable s j = true) (hPFe : PFempty s) :
    SInv { s with jobs := (setJob s (j.addCompleteHandler 0)).jobs, pending := s.pending.erase jid, running := insertNew jid s.running } ∧ Keeps s { s with jobs := (setJob s (j.addCompleteHandler 0)).jobs, pending := s.pending.erase jid, running := insertNew jid s.running } ∧ PFempty { s with jobs := (setJob s (j.addCompleteHandler 0)).jobs, pending := s.pending.erase jid, running := insertNew jid s.running } := by
  have hjid : j.id = jid := getJob_id s jid j heq
  have hjh : j.handlers = [] := hI.pendHandlers jid hmem j heq
  have hNid0 : (j.addCompleteHandler 0).id = j.id := by
    unfold Job.addCompleteHandler
    split <;> rfl
  have hNid : (j.addCompleteHandler 0).id = jid := hNid0.trans hjid
  have hNdep : (j.addCompleteHandler 0).dependencies = j.dependencies := by
    unfold Job.addCompleteHandler
    split <;> rfl
  have hNh : (j.addCompleteHandler 0).handlers = [0] := by
    simp [Job.addCompleteHandler, hjh]
  have hself : getJob (setJob s (j.addCompleteHandler 0)) jid = some (j.addCompleteHandler 0) :=
    getJob_setJob_self s _ jid j heq hNid
  have hother : ∀ a, a ≠ jid → getJob (setJob s (j.addCompleteHandler 0)) a = getJob s a :=
    fun a ha => getJob_setJob_other s _ a (by rw [hNid]; exact ha)
  have hget : ∀ a (k : Job), getJob (setJob s (j.addCompleteHandler 0)) a = some k →
      (a = jid ∧ k = j.addCompleteHandler 0) ∨ (a ≠ jid ∧ getJob s a = some k) := by
    intro a k hk
    by_cases ha : a = jid
    · subst ha
      rw [hself] at hk
      cases hk
      exact Or.inl ⟨rfl, rfl⟩
    · rw [hother a ha] at hk
      exact Or.inr ⟨ha, hk⟩
  have hdl : depsList (j.addCompleteHandler 0) = depsList j := by
    unfold depsList
    rw [hNdep]
  have hpe : ∀ a, a ∈ s.pending.erase jid ↔ a ≠ jid ∧ a ∈ s.pending :=
    fun a => hI.pendNodup.mem_erase_iff
  refine ⟨?_, ?_, ?_⟩
  · constructor
    · exact hI.pendNodup.erase jid
    · exact insertNew_nodup jid s.running hI.runNodup
    · intro a ha hr
      obtain ⟨hne, ham⟩ := (hpe a).1 ha
      rcases (mem_insertNew a jid s.running).1 hr with h | h
      · exact hne h
      · exact hI.disjPR a ham h
    · intro a ha k hk d hd
      rcases (mem_insertNew a jid s.running).1 ha with rfl | har
      · rcases hget a k hk with ⟨_, rfl⟩ | ⟨hne, _⟩
        · rw [hdl] at hd
          exact (depsAvailable_iff s j).1 hdall d hd
        · exact absurd rfl hne
      · have hane : a ≠ jid := fun hc => hI.disjPR jid hmem (hc ▸ har)
        rcases hget a k hk with ⟨hc, _⟩ | ⟨_, hk2⟩
        · exact absurd hc hane
        · exact hI.runDeps a har k hk2 d hd
    · intro t ht k hk d hd
      by_cases htj : t.1 = jid
      · rcases hget t.1 k hk with ⟨_, rfl⟩ | ⟨hne, hk2⟩
        · rw [hdl] at hd
          refine hI.timerDeps t ht j ?_ d hd
          rw [htj]
          exact heq
        · exact absurd htj hne
      · rcases hget t.1 k hk with ⟨hc, _⟩ | ⟨_, hk2⟩
        · exact absurd hc htj
        · exact hI.timerDeps t ht k hk2 d hd
    · intro a ha k hk
      obtain ⟨hne, ham⟩ := (hpe a).1 ha
      rcases hget a k hk with ⟨hc, _⟩ | ⟨_, hk2⟩
      · exact absurd hc hne
      · exact hI.pendState a ham k hk2
    · intro a ha k hk
      obtain ⟨hne, ham⟩ := (hpe a).1 ha
      rcases hget a k hk with ⟨hc, _⟩ | ⟨_, hk2⟩
      · exact absurd hc hne
      · exact hI.pendHandlers a ham k hk2
    · intro a k hk
      rcases hget a k hk with ⟨_, rfl⟩ | ⟨_, hk2⟩
      · exact Or.inr hNh
      · exact hI.handlersShape a k hk2
    · intro a ha k hk
      have hane : a ≠ jid := fun hc => hI.pendNotF jid hmem (hc ▸ ha)
      rcases hget a k hk with ⟨hc, _⟩ | ⟨_, hk2⟩
      · exact absurd hc hane
      · exact hI.failedState a ha k hk2
    · exact hI.compFailDisj
    · intro a ha
      obtain ⟨_, ham⟩ := (hpe a).1 ha
      exact hI.pendNotC a ham
    · intro a ha
      obtain ⟨_, ham⟩ := (hpe a).1 ha
      exact hI.pendNotF a ham
    · intro a ha
      rcases (mem_insertNew a jid s.running).1 ha with rfl | har
      · exact hI.pendNotC a hmem
      · exact hI.runNotC a har
    · intro a ha
      rcases (mem_insertNew a jid s.running).1 ha with rfl | har
      · exact hI.pendNotF a hmem
      · exact hI.runNotF a har
    · intro a k hk
      rcases hget a k hk with ⟨rfl, rfl⟩ | ⟨hne, hk2⟩
      · refine Or.inr (Or.inl ?_)
        intro d hd
        rw [hdl] at hd
        exact (depsAvailable_iff s j).1 hdall d hd
      · rcases hI.depOK a k hk2 with ⟨h1, h2⟩ | h | ⟨h1, h2, h3⟩
        · exact Or.inl ⟨h1, (hpe a).2 ⟨hne, h2⟩⟩
        · exact Or.inr (Or.inl h)
        · refine Or.inr (Or.inr ⟨h1, h2, ?_⟩)
          rcases h3 with h3 | h3
          · exact Or.inl ((hpe a).2 ⟨hne, h3⟩)
          · exact Or.inr h3
  · refine ⟨fun a ha => ((hpe a).1 ha).2, fun a h => h, fun a h => h,
      fun a => getJob_setJob_isSome s _ a, ?_, ?_, ?_⟩
    · intro a k k2 hk hk2
      rcases hget a k2 hk2 with ⟨rfl, rfl⟩ | ⟨_, hk3⟩
      · rw [heq] at hk
        cases hk
        exact hNdep
      · rw [hk3] at hk
        cases hk
        rfl
    · intro a ha k k2 hk hk2 hst
      obtain ⟨hne, _⟩ := (hpe a).1 ha
      rcases hget a k2 hk2 with ⟨hc, _⟩ | ⟨_, hk3⟩
      · exact absurd hc hne
      · rw [hk3] at hk
        cases hk
        exact hst
    · intro d hd hnd
      exact absurd hd hnd
  · rintro a ⟨ha, k, hk, hst⟩
    obtain ⟨hne, ham⟩ := (hpe a).1 ha
    rcases hget a k hk with ⟨hc, _⟩ | ⟨_, hk2⟩
    · exact absurd hc hne
    · exact hPFe a ⟨ham, k, hk2, hst⟩

set_option maxHeartbeats 3000000

theorem exec_inv (n : Nat) :
    ∀ (now : Int) (c : Call) (s s2 : SchedState) (e : Option PyErr),
      SInv s → PreC c s → exec n now c s = (s2, e) → e ≠ some PyErr.fuel →
      SInv s2 ∧ Keeps s s2 ∧ PostC c s (s2, e) := by
  induction n with
  | zero =>
    intro now c s s2 e hI hP hE hf
    simp only [exec] at hE
    have he : e = some PyErr.fuel := by
      have := congrArg Prod.snd hE
      simpa using this.symm
    exact absurd he hf
  | succ n ih =>
    intro now c s s2 e hI hP hE hf
    cases c with
    | makeFailedCall jid =>
      simp only [PreC] at hP
      obtain ⟨hmem, j0, hj0, hst0⟩ := hP
      simp only [exec] at hE
      split at hE
      · next heq => simp [hj0] at heq
      · next j heq =>
        have hjj : j0 = j := by
          rw [heq] at hj0
          cases hj0
          rfl
        subst hjj
        split at hE
        · next hne => exact absurd hst0 hne
        · have hh : j0.handlers = [] := hI.pendHandlers jid hmem j0 heq
          rw [hh] at hE
          have hI2 : SInv (setJob s
              { j0 with result := some MANUALLY_FAILED_ERROR, state := JState.FAILED,
                        handlers := [] }) := by
            refine SInv_update s hI jid j0 _ heq rfl rfl ?_ ?_ (Or.inl rfl) ?_
            · intro _
              exact ⟨Or.inr rfl, rfl⟩
            · intro hin
              exact absurd hin (hI.pendNotF jid hmem)
            · exact Or.inr (Or.inr ⟨rfl, rfl, Or.inl hmem⟩)
          have hK2 : Keeps s (setJob s
              { j0 with result := some MANUALLY_FAILED_ERROR, state := JState.FAILED,
                        handlers := [] }) := by
            refine Keeps_setJob s jid j0 _ heq rfl rfl ?_
            intro _ h
            simp at h
          obtain ⟨hI3, hK3, hPost3⟩ := ih now (Call.invokeHandlers jid []) _ s2 e hI2
            (Or.inl rfl) hE hf
          obtain ⟨heq2, heNone⟩ := hPost3.1 rfl
          have hs2 : s2 = setJob s { j0 with result := some MANUALLY_FAILED_ERROR, state := JState.FAILED, handlers := [] } := heq2
          have hen : e = none := heNone
          subst hs2
          subst hen
          refine ⟨hI3, Keeps_trans hK2 hK3, ?_⟩
          simp only [PostC]
          have hjid : j0.id = jid := getJob_id s jid j0 heq
          refine ⟨trivial, rfl, rfl, rfl, rfl, rfl, ?_, ?_⟩
          · intro a ha
            exact getJob_setJob_other s _ a (by simpa [hjid] using ha)
          · exact ⟨_, getJob_setJob_self s _ jid j0 heq (by simpa using hjid), rfl, rfl, rfl⟩
    | runJob jid =>
      simp only [exec] at hE
      simp only [PreC] at hP
      obtain ⟨hnp, hnf, hdeps, hor⟩ := hP
      split at hE
      · next heq =>
        injection hE with h1 h2
        subst h1
        subst h2
        refine ⟨hI, Keeps_refl s, fun h => h, fun hHe => FrameJ_refl s jid hHe⟩
      · next j heq =>
        split at hE
        · injection hE with h1 h2
          subst h1
          subst h2
          refine ⟨hI, Keeps_refl s, fun h => h, fun hHe => FrameJ_refl s jid hHe⟩
        · rcases hA : exec n now (Call.runTry jid) s with ⟨s1, e1⟩
          rw [hA] at hE
          have hPre1 : PreC (Call.runTry jid) s := ⟨hnp, hnf, hdeps, hor⟩
          cases e1 with
          | none =>
            simp only at hE
            injection hE with h1 h2
            subst h1
            subst h2
            obtain ⟨hI1, hK1, hPost1⟩ := ih now (Call.runTry jid) s s1 none hI hPre1 hA (by simp)
            exact ⟨hI1, hK1, hPost1.1, hPost1.2⟩
          | some e1q =>
            cases e1q <;> simp only at hE <;>
              first
              | (injection hE with h1 h2
                 subst h1
                 subst h2
                 exact absurd rfl hf)
              | (obtain ⟨hI1, hK1, hPost1⟩ := ih now (Call.runTry jid) s s1 _ hI hPre1 hA
                   (by simp)
                 have hPre2 : PreC (Call.notifyError jid (some INTERNAL_JOB_ERROR)) s1 := by
                   rcases hor with hPFe | hHeS
                   · exact Or.inl (hPost1.1 hPFe)
                   · exact Or.inr (hPost1.2 hHeS).2.2.2.2.2.2.2.2
                 obtain ⟨hI2, hK2, hPost2⟩ := ih now
                   (Call.notifyError jid (some INTERNAL_JOB_ERROR)) s1 s2 e hI1 hPre2 hE hf
                 refine ⟨hI2, Keeps_trans hK1 hK2, ?_, ?_⟩
                 · intro hPFe0
                   exact hPost2.1 (hPost1.1 hPFe0)
                 · intro hHeS0
                   exact FrameJ_trans (hPost1.2 hHeS0)
                     (hPost2.2 (hPost1.2 hHeS0).2.2.2.2.2.2.2.2))
    | runTry jid =>
      simp only [exec] at hE
      simp only [PreC] at hP
      obtain ⟨hnp, hnf, hdeps, hor⟩ := hP
      split at hE
      · next heq =>
        injection hE with h1 h2
        subst h1
        subst h2
        refine ⟨hI, Keeps_refl s, fun h => h, fun hHe => FrameJ_refl s jid hHe⟩
      · next j heq =>
        have hjid : j.id = jid := getJob_id s jid j heq
        have hshape := hI.handlersShape jid j heq
        split at hE
        · have hI1 : SInv (setJob s { j with state := JState.RUNNING, result := none }) :=
            SInv_update s hI jid j _ heq rfl rfl (fun hc => absurd hc hnp)
              (fun hc => absurd hc hnf) hshape (Or.inr (Or.inl (hdeps j heq)))
          have hK1 : Keeps s (setJob s { j with state := JState.RUNNING, result := none }) :=
            Keeps_setJob s jid j _ heq rfl rfl (fun hc _ => absurd hc hnp)
          have hPFe1 : PFempty s → PFempty (setJob s { j with state := JState.RUNNING, result := none }) :=
            fun hPFe => PFempty_setJob_np s jid _ hjid hPFe hnp
          have hHe1 : handlersEmpty s jid → handlersEmpty (setJob s { j with state := JState.RUNNING, result := none }) jid :=
            fun hHeS => handlersEmpty_setJob_self s jid j _ heq hjid (hHeS j heq)
          have hPre1 : PreC (Call.notifyError jid (some NO_TRIES_LEFT_ERROR))
              (setJob s { j with state := JState.RUNNING, result := none }) := by
            rcases hor with hPFe | hHeS
            · exact Or.inl (hPFe1 hPFe)
            · exact Or.inr (hHe1 hHeS)
          obtain ⟨hI2, hK2, hPost2⟩ := ih now (Call.notifyError jid (some NO_TRIES_LEFT_ERROR)) _
            s2 e hI1 hPre1 hE hf
          refine ⟨hI2, Keeps_trans hK1 hK2, ?_, ?_⟩
          · intro hPFe0
            exact hPost2.1 (hPFe1 hPFe0)
          · intro hHeS0
            refine FrameJ_trans ?_ (hPost2.2 (hHe1 hHeS0))
            exact ⟨rfl, rfl, rfl, rfl, rfl, rfl, rfl,
              fun a ha => getJob_setJob_other s _ a (by simpa [hjid] using ha), hHe1 hHeS0⟩
        · split at hE
          · injection hE with h1 h2
            subst h1
            subst h2
            refine ⟨SInv_update s hI jid j _ heq rfl rfl (fun hc => absurd hc hnp)
                (fun hc => absurd hc hnf) hshape (Or.inr (Or.inl (hdeps j heq))),
              Keeps_setJob s jid j _ heq rfl rfl (fun hc _ => absurd hc hnp), ?_, ?_⟩
            · intro hPFe0
              exact PFempty_setJob_np s jid _ hjid hPFe0 hnp
            · intro hHeS0
              exact ⟨rfl, rfl, rfl, rfl, rfl, rfl, rfl,
                fun a ha => getJob_setJob_other s _ a (by simpa [hjid] using ha),
                handlersEmpty_setJob_self s jid j _ heq hjid (hHeS0 j heq)⟩
          · split at hE
            · next v hw =>
              have hI1 : SInv (setJob s { j with state := JState.RUNNING, result := none, epi := j.epi + 1 }) :=
                SInv_update s hI jid j _ heq rfl rfl (fun hc => absurd hc hnp)
                  (fun hc => absurd hc hnf) hshape (Or.inr (Or.inl (hdeps j heq)))
              have hK1 : Keeps s (setJob s { j with state := JState.RUNNING, result := none, epi := j.epi + 1 }) :=
                Keeps_setJob s jid j _ heq rfl rfl (fun hc _ => absurd hc hnp)
              have hPFe1 : PFempty s → PFempty (setJob s { j with state := JState.RUNNING, result := none, epi := j.epi + 1 }) :=
                fun hPFe => PFempty_setJob_np s jid _ hjid hPFe hnp
              have hHe1 : handlersEmpty s jid → handlersEmpty (setJob s { j with state := JState.RUNNING, result := none, epi := j.epi + 1 }) jid :=
                fun hHeS => handlersEmpty_setJob_self s jid j _ heq hjid (hHeS j heq)
              have hPre1 : PreC (Call.notifyComplete jid (some v))
                  (setJob s { j with state := JState.RUNNING, result := none, epi := j.epi + 1 }) := by
                rcases hor with hPFe | hHeS
                · exact Or.inl (hPFe1 hPFe)
                · exact Or.inr (hHe1 hHeS)
              obtain ⟨hI2, hK2, hPost2⟩ := ih now (Call.notifyComplete jid (some v)) _
                s2 e hI1 hPre1 hE hf
              refine ⟨hI2, Keeps_trans hK1 hK2, ?_, ?_⟩
              · intro hPFe0
                exact hPost2.1 (hPFe1 hPFe0)
              · intro hHeS0
                refine FrameJ_trans ?_ (hPost2.2 (hHe1 hHeS0))
                exact ⟨rfl, rfl, rfl, rfl, rfl, rfl, rfl,
                  fun a ha => getJob_setJob_other s _ a (by simpa [hjid] using ha), hHe1 hHeS0⟩
            · injection hE with h1 h2
              subst h1
              subst h2
              refine ⟨SInv_update s hI jid j _ heq rfl rfl (fun hc => absurd hc hnp)
                  (fun hc => absurd hc hnf) hshape (Or.inr (Or.inl (hdeps j heq))),
                Keeps_setJob s jid j _ heq rfl rfl (fun hc _ => absurd hc hnp), ?_, ?_⟩
              · intro hPFe0
                exact PFempty_setJob_np s jid _ hjid hPFe0 hnp
              · intro hHeS0
                exact ⟨rfl, rfl, rfl, rfl, rfl, rfl, rfl,
                  fun a ha => getJob_setJob_other s _ a (by simpa [hjid] using ha),
                  handlersEmpty_setJob_self s jid j _ heq hjid (hHeS0 j heq)⟩
    | notifyComplete jid v =>
      simp only [exec] at hE
      simp only [PreC] at hP
      split at hE
      · next heq =>
        injection hE with h1 h2
        subst h1
        subst h2
        refine ⟨hI, Keeps_refl s, fun h => h, fun hHe => FrameJ_refl s jid hHe⟩
      · next j heq =>
        have hjid : j.id = jid := getJob_id s jid j heq
        split at hE
        · injection hE with h1 h2
          subst h1
          subst h2
          refine ⟨hI, Keeps_refl s, fun h => h, fun hHe => FrameJ_refl s jid hHe⟩
        · next hnr =>
          have hrun : j.state = JState.RUNNING := not_not.mp hnr
          have hnp : jid ∉ s.pending := by
            intro hc
            rcases hI.pendState jid hc j heq with h | h <;> rw [hrun] at h <;> simp at h
          have hnf : jid ∉ s.failed := by
            intro hc
            have := hI.failedState jid hc j heq
            rw [hrun] at this
            simp at this
          have hdepsj : ∀ d ∈ depsList j, d ∈ s.completed := by
            rcases hI.depOK jid j heq with ⟨h1, _⟩ | h | ⟨h1, _, _⟩
            · rw [hrun] at h1
              simp at h1
            · exact h
            · rw [hrun] at h1
              simp at h1
          have hI1 : SInv (setJob s { j with result := v, state := JState.COMPLETED, handlers := [] }) :=
            SInv_update s hI jid j _ heq rfl rfl (fun hc => absurd hc hnp)
              (fun hc => absurd hc hnf) (Or.inl rfl) (Or.inr (Or.inl hdepsj))
          have hK1 : Keeps s (setJob s { j with result := v, state := JState.COMPLETED, handlers := [] }) :=
            Keeps_setJob s jid j _ heq rfl rfl (fun hc _ => absurd hc hnp)
          have hPFe1 : PFempty s → PFempty (setJob s { j with result := v, state := JState.COMPLETED, handlers := [] }) :=
            fun hPFe => PFempty_setJob_np s jid _ hjid hPFe hnp
          have hHe1 : handlersEmpty (setJob s { j with result := v, state := JState.COMPLETED, handlers := [] }) jid :=
            handlersEmpty_setJob_self s jid j _ heq hjid rfl
          have hPre1 : PreC (Call.invokeHandlers jid j.handlers)
              (setJob s { j with result := v, state := JState.COMPLETED, handlers := [] }) := by
            rcases hP with hPFe | hHeS
            · rcases hI.handlersShape jid j heq with hsh | hsh
              · exact Or.inl hsh
              · exact Or.inr ⟨hsh, hPFe1 hPFe, hHe1, hnp, hnf⟩
            · exact Or.inl (hHeS j heq)
          obtain ⟨hI2, hK2, hPost2⟩ := ih now (Call.invokeHandlers jid j.handlers) _ s2 e hI1
            hPre1 hE hf
          refine ⟨hI2, Keeps_trans hK1 hK2, ?_, ?_⟩
          · intro hPFe0
            exact hPost2.2 (hPFe1 hPFe0)
          · intro hHeS0
            obtain ⟨hq1, hq2⟩ := hPost2.1 (hHeS0 j heq)
            have hs2 : s2 = setJob s { j with result := v, state := JState.COMPLETED, handlers := [] } := hq1
            rw [hs2]
            exact ⟨rfl, rfl, rfl, rfl, rfl, rfl, rfl,
              fun a ha => getJob_setJob_other s _ a (by simpa [hjid] using ha), hHe1⟩
    | notifyError jid ev =>
      simp only [exec] at hE
      simp only [PreC] at hP
      split at hE
      · next heq =>
        injection hE with h1 h2
        subst h1
        subst h2
        refine ⟨hI, Keeps_refl s, fun h => h, fun hHe => FrameJ_refl s jid hHe⟩
      · next j heq =>
        have hjid : j.id = jid := getJob_id s jid j heq
        split at hE
        · injection hE with h1 h2
          subst h1
          subst h2
          refine ⟨hI, Keeps_refl s, fun h => h, fun hHe => FrameJ_refl s jid hHe⟩
        · next hnr =>
          have hrun : j.state = JState.RUNNING := not_not.mp hnr
          have hnp : jid ∉ s.pending := by
            intro hc
            rcases hI.pendState jid hc j heq with h | h <;> rw [hrun] at h <;> simp at h
          have hnf : jid ∉ s.failed := by
            intro hc
            have := hI.failedState jid hc j heq
            rw [hrun] at this
            simp at this
          have hdepsj : ∀ d ∈ depsList j, d ∈ s.completed := by
            rcases hI.depOK jid j heq with ⟨h1, _⟩ | h | ⟨h1, _, _⟩
            · rw [hrun] at h1
              simp at h1
            · exact h
            · rw [hrun] at h1
              simp at h1
          have hI1 : SInv (setJob s { j with tries := j.tries - 1, result := ev, state := JState.FAILED, handlers := [] }) :=
            SInv_update s hI jid j _ heq rfl rfl (fun hc => absurd hc hnp)
              (fun hc => absurd hc hnf) (Or.inl rfl) (Or.inr (Or.inl hdepsj))
          have hK1 : Keeps s (setJob s { j with tries := j.tries - 1, result := ev, state := JState.FAILED, handlers := [] }) :=
            Keeps_setJob s jid j _ heq rfl rfl (fun hc _ => absurd hc hnp)
          have hPFe1 : PFempty s → PFempty (setJob s { j with tries := j.tries - 1, result := ev, state := JState.FAILED, handlers := [] }) :=
            fun hPFe => PFempty_setJob_np s jid _ hjid hPFe hnp
          have hHe1 : handlersEmpty (setJob s { j with tries := j.tries - 1, result := ev, state := JState.FAILED, handlers := [] }) jid :=
            handlersEmpty_setJob_self s jid j _ heq hjid rfl
          have hPre1 : PreC (Call.invokeHandlers jid j.handlers)
              (setJob s { j with tries := j.tries - 1, result := ev, state := JState.FAILED, handlers := [] }) := by
            rcases hP with hPFe | hHeS
            · rcases hI.handlersShape jid j heq with hsh | hsh
              · exact Or.inl hsh
              · exact Or.inr ⟨hsh, hPFe1 hPFe, hHe1, hnp, hnf⟩
            · exact Or.inl (hHeS j heq)
          obtain ⟨hI2, hK2, hPost2⟩ := ih now (Call.invokeHandlers jid j.handlers) _ s2 e hI1
            hPre1 hE hf
          refine ⟨hI2, Keeps_trans hK1 hK2, ?_, ?_⟩
          · intro hPFe0
            exact hPost2.2 (hPFe1 hPFe0)
          · intro hHeS0
            obtain ⟨hq1, hq2⟩ := hPost2.1 (hHeS0 j heq)
            have hs2 : s2 = setJob s { j with tries := j.tries - 1, result := ev, state := JState.FAILED, handlers := [] } := hq1
            rw [hs2]
            exact ⟨rfl, rfl, rfl, rfl, rfl, rfl, rfl,
              fun a ha => getJob_setJob_other s _ a (by simpa [hjid] using ha), hHe1⟩
    | invokeHandlers jid hs =>
      cases hs with
      | nil =>
        simp only [exec] at hE
        injection hE with h1 h2
        subst h1
        subst h2
        refine ⟨hI, Keeps_refl s, ?_⟩
        exact ⟨fun _ => ⟨rfl, rfl⟩, fun h => h⟩
      | cons h0 rest =>
        simp only [exec] at hE
        simp only [PreC] at hP
        rcases hP with hJabs | ⟨hhs, hPFe, hHe, hnp, hnf⟩
        · simp at hJabs
        · injection hhs with hh0 hrest
          subst hh0
          subst hrest
          rcases hA : exec n now (Call.onJobComplete jid) s with ⟨s1, e1⟩
          rw [hA] at hE
          have hPre1 : PreC (Call.onJobComplete jid) s := ⟨hPFe, hHe, hnp, hnf⟩
          cases e1 with
          | none =>
            simp only at hE
            obtain ⟨hI1, hK1, hPost1⟩ := ih now (Call.onJobComplete jid) s s1 none hI hPre1 hA
              (by simp)
            obtain ⟨hI2, hK2, hPost2⟩ := ih now (Call.invokeHandlers jid []) s1 s2 e hI1
              (Or.inl rfl) hE hf
            obtain ⟨heq2, hen2⟩ := hPost2.1 rfl
            have hs2 : s2 = s1 := heq2
            have hen : e = none := hen2
            subst hs2
            subst hen
            refine ⟨hI2, Keeps_trans hK1 hK2, ?_⟩
            refine ⟨?_, ?_⟩
            · intro habs
              simp at habs
            · intro hPF0
              exact hPost1 hPF0
          | some e1q =>
            simp only at hE
            injection hE with h1 h2
            subst h1
            subst h2
            have hf1 : some e1q ≠ some PyErr.fuel := hf
            obtain ⟨hI1, hK1, hPost1⟩ := ih now (Call.onJobComplete jid) s s1 (some e1q) hI
              hPre1 hA hf1
            refine ⟨hI1, hK1, ?_⟩
            refine ⟨?_, ?_⟩
            · intro habs
              simp at habs
            · intro hPF0
              exact hPost1 hPF0
    | onJobComplete jid =>
      simp only [exec] at hE
      simp only [PreC] at hP
      obtain ⟨hPFe, hHe, hnp, hnf⟩ := hP
      split at hE
      · injection hE with h1 h2
        subst h1
        subst h2
        exact ⟨hI, Keeps_refl s, fun h => h⟩
      · next j heq =>
        split at hE
        · next hcomp =>
          split at hE
          · next hrun =>
            have hre : ∀ a, a ∈ s.running.erase jid ↔ a ≠ jid ∧ a ∈ s.running :=
              fun a => hI.runNodup.mem_erase_iff
            have hI1 : SInv { s with running := s.running.erase jid, completed := insertNew jid s.completed } := by
              constructor
              · exact hI.pendNodup
              · exact hI.runNodup.erase jid
              · intro a ha hr
                exact hI.disjPR a ha ((hre a).1 hr).2
              · intro a ha k hk d hd
                exact (mem_insertNew d jid s.completed).2
                  (Or.inr (hI.runDeps a ((hre a).1 ha).2 k hk d hd))
              · intro t ht k hk d hd
                exact (mem_insertNew d jid s.completed).2
                  (Or.inr (hI.timerDeps t ht k hk d hd))
              · exact hI.pendState
              · exact hI.pendHandlers
              · exact hI.handlersShape
              · exact hI.failedState
              · intro a ha
                rcases (mem_insertNew a jid s.completed).1 ha with rfl | har
                · exact hnf
                · exact hI.compFailDisj a har
              · intro a ha hc
                rcases (mem_insertNew a jid s.completed).1 hc with rfl | har
                · exact hnp ha
                · exact hI.pendNotC a ha har
              · exact hI.pendNotF
              · intro a ha hc
                obtain ⟨hne, har⟩ := (hre a).1 ha
                rcases (mem_insertNew a jid s.completed).1 hc with rfl | har2
                · exact hne rfl
                · exact hI.runNotC a har har2
              · intro a ha
                exact hI.runNotF a ((hre a).1 ha).2
              · intro a k hk
                rcases hI.depOK a k hk with ⟨h1, h2⟩ | h | ⟨h1, h2, h3⟩
                · exact Or.inl ⟨h1, h2⟩
                · exact Or.inr (Or.inl
                    (fun d hd => (mem_insertNew d jid s.completed).2 (Or.inr (h d hd))))
                · exact Or.inr (Or.inr ⟨h1, h2, h3⟩)
            have hK1 : Keeps s { s with running := s.running.erase jid, completed := insertNew jid s.completed } :=
              Keeps_parts s _ (fun a h => h)
                (fun a h => (mem_insertNew a jid s.completed).2 (Or.inr h)) rfl rfl
            have hPFe1 : PFempty { s with running := s.running.erase jid, completed := insertNew jid s.completed } :=
              hPFe
            obtain ⟨hI2, hK2, hPost2⟩ := ih now (Call.startList jid s.pending) _ s2 e hI1
              hPFe1 hE hf
            exact ⟨hI2, Keeps_trans hK1 hK2, fun _ => hPost2 hPFe1⟩
          · injection hE with h1 h2
            subst h1
            subst h2
            exact ⟨hI, Keeps_refl s, fun h => h⟩
        · split at hE
          · next hfst =>
            have hPre1 : PreC (Call.onJobFailed jid) s := by
              refine ⟨hHe, ?_, hnf⟩
              intro j0 hj0
              rw [heq] at hj0
              cases hj0
              exact hfst
            obtain ⟨hI2, hK2, hPost2⟩ := ih now (Call.onJobFailed jid) s s2 e hI hPre1 hE hf
            refine ⟨hI2, hK2, ?_⟩
            intro hPFe0 a hpf
            exact hPFe0 a ((hPost2.1 a).1 hpf).1
          · injection hE with h1 h2
            subst h1
            subst h2
            exact ⟨hI, Keeps_refl s, fun h => h⟩
    | onJobFailed jid =>
      simp only [exec] at hE
      simp only [PreC] at hP
      obtain ⟨hHe, hsf, hnf⟩ := hP
      split at hE
      · next heq =>
        injection hE with h1 h2
        subst h1
        subst h2
        refine ⟨hI, Keeps_refl s, ?_, fun a h => h, ?_⟩
        · intro a
          constructor
          · intro hpf
            refine ⟨hpf, ?_⟩
            rintro rfl
            obtain ⟨_, k, hk, _⟩ := hpf
            rw [heq] at hk
            cases hk
          · exact fun h => h.1
        · intro hpf
          obtain ⟨_, k, hk, _⟩ := hpf
          rw [heq] at hk
          cases hk
      · next j heq =>
        have hjid : j.id = jid := getJob_id s jid j heq
        have hjf : j.state = JState.FAILED := hsf j heq
        split at hE
        · next hcond =>
          split at hE
          · next hbad =>
            exact absurd hjf hbad.2
          · have hnp : jid ∉ s.pending := hcond.2
            have hjh : j.handlers = [] := hHe j heq
            have hdepsj : ∀ d ∈ depsList j, d ∈ s.completed := by
              rcases hI.depOK jid j heq with ⟨_, h2⟩ | h | ⟨_, _, h3⟩
              · exact absurd h2 hnp
              · exact h
              · rcases h3 with h3 | h3
                · exact absurd h3 hnp
                · exact absurd h3 hnf
            have hI1 : SInv (setJob s { j with result := none, state := JState.PENDING }) :=
              SInv_update s hI jid j _ heq rfl rfl (fun hc => absurd hc hnp)
                (fun hc => absurd hc hnf) (Or.inl hjh) (Or.inr (Or.inl hdepsj))
            have hK1 : Keeps s (setJob s { j with result := none, state := JState.PENDING }) :=
              Keeps_setJob s jid j _ heq rfl rfl (fun hc _ => absurd hc hnp)
            have hHe1 : handlersEmpty (setJob s { j with result := none, state := JState.PENDING }) jid :=
              handlersEmpty_setJob_self s jid j _ heq hjid hjh
            have hother1 : ∀ a, a ≠ jid → getJob (setJob s { j with result := none, state := JState.PENDING }) a = getJob s a :=
              fun a ha => getJob_setJob_other s _ a (by simpa [hjid] using ha)
            have hself1 : getJob (setJob s { j with result := none, state := JState.PENDING }) jid = some { j with result := none, state := JState.PENDING } :=
              getJob_setJob_self s _ jid j heq hjid
            have hPre1 : PreC (Call.runJob jid) (setJob s { j with result := none, state := JState.PENDING }) := by
              refine ⟨hnp, hnf, ?_, Or.inr hHe1⟩
              intro jx hjx d hd
              rw [hself1] at hjx
              cases hjx
              exact hdepsj d hd
            obtain ⟨hI2, hK2, hPost2⟩ := ih now (Call.runJob jid) _ s2 e hI1 hPre1 hE hf
            have hFr : FrameJ (setJob s { j with result := none, state := JState.PENDING }) s2 jid :=
              hPost2.2 hHe1
            obtain ⟨f1, f2, f3, f4, f5, f6, f7, f8, f9⟩ := hFr
            refine ⟨hI2, Keeps_trans hK1 hK2, ?_, ?_, ?_⟩
            · intro a
              by_cases ha : a = jid
              · subst ha
                constructor
                · intro hpf
                  have hm := hpf.1
                  rw [f1] at hm
                  exact absurd hm hnp
                · rintro ⟨hpf, hno⟩
                  exact absurd rfl hno
              · constructor
                · rintro ⟨ham, k, hk, hst⟩
                  rw [f1] at ham
                  rw [f8 a ha, hother1 a ha] at hk
                  exact ⟨⟨ham, k, hk, hst⟩, ha⟩
                · rintro ⟨⟨ham, k, hk, hst⟩, _⟩
                  refine ⟨?_, k, ?_, hst⟩
                  · rw [f1]
                    exact ham
                  · rw [f8 a ha, hother1 a ha]
                    exact hk
            · intro a ha
              rw [f2] at ha
              exact ha
            · intro hpf
              exact absurd hpf.1 hnp
        · split at hE
          · next hpend =>
            have hre : ∀ a, a ∈ s.pending.erase jid ↔ a ≠ jid ∧ a ∈ s.pending :=
              fun a => hI.pendNodup.mem_erase_iff
            have hI1 : SInv { s with pending := s.pending.erase jid, failed := insertNew jid s.failed } := by
              constructor
              · exact hI.pendNodup.erase jid
              · exact hI.runNodup
              · intro a ha
                exact hI.disjPR a ((hre a).1 ha).2
              · exact hI.runDeps
              · exact hI.timerDeps
              · intro a ha
                exact hI.pendState a ((hre a).1 ha).2
              · intro a ha
                exact hI.pendHandlers a ((hre a).1 ha).2
              · exact hI.handlersShape
              · intro a ha
                rcases (mem_insertNew a jid s.failed).1 ha with rfl | har
                · exact hsf
                · exact hI.failedState a har
              · intro a ha hc
                rcases (mem_insertNew a jid s.failed).1 hc with rfl | har
                · exact hI.pendNotC a hpend ha
                · exact hI.compFailDisj a ha har
              · intro a ha
                exact hI.pendNotC a ((hre a).1 ha).2
              · intro a ha hc
                obtain ⟨hne, ham⟩ := (hre a).1 ha
                rcases (mem_insertNew a jid s.failed).1 hc with rfl | har
                · exact hne rfl
                · exact hI.pendNotF a ham har
              · exact hI.runNotC
              · intro a ha hc
                rcases (mem_insertNew a jid s.failed).1 hc with rfl | har
                · exact hI.disjPR a hpend ha
                · exact hI.runNotF a ha har
              · intro a k hk
                rcases hI.depOK a k hk with ⟨h1, h2⟩ | h | ⟨h1, h2, h3⟩
                · by_cases haj : a = jid
                  · rw [haj] at hk
                    rw [hsf k hk] at h1
                    simp at h1
                  · exact Or.inl ⟨h1, (hre a).2 ⟨haj, h2⟩⟩
                · exact Or.inr (Or.inl h)
                · refine Or.inr (Or.inr ⟨h1, h2, ?_⟩)
                  rcases h3 with h3 | h3
                  · by_cases haj : a = jid
                    · exact Or.inr ((mem_insertNew a jid s.failed).2 (Or.inl haj))
                    · exact Or.inl ((hre a).2 ⟨haj, h3⟩)
                  · exact Or.inr ((mem_insertNew a jid s.failed).2 (Or.inr h3))
            obtain ⟨hI2, hK2, hPost2⟩ := ih now (Call.autoFail jid) _ s2 e hI1 True.intro hE hf
            obtain ⟨hen2, hPFiff2, hrun2, hoth2, hdep2⟩ := hPost2
            obtain ⟨k2p, k2c, k2f, k2s, k2d, k2ps, k2fs⟩ := hK2
            refine ⟨hI2, ?_, ?_, ?_, ?_⟩
            · refine ⟨?_, k2c, ?_, k2s, k2d, k2ps, ?_⟩
              · intro a ha
                exact ((hre a).1 (k2p a ha)).2
              · intro a ha
                exact k2f a ((mem_insertNew a jid s.failed).2 (Or.inr ha))
              · intro d hd hnd a ha k hk hst
                by_cases hdj : d = jid
                · subst hdj
                  exact hdep2 a ha k hk hst
                · refine k2fs d hd ?_ a ha k hk hst
                  intro hc
                  rcases (mem_insertNew d jid s.failed).1 hc with h | h
                  · exact hdj h
                  · exact hnd h
            · intro a
              rw [hPFiff2 a]
              constructor
              · rintro ⟨ham, k, hk, hst⟩
                obtain ⟨hne, ham2⟩ := (hre a).1 ham
                exact ⟨⟨ham2, k, hk, hst⟩, hne⟩
              · rintro ⟨⟨ham, k, hk, hst⟩, hne⟩
                exact ⟨(hre a).2 ⟨hne, ham⟩, k, hk, hst⟩
            · intro a ha
              exact hrun2 a ha
            · intro hpf
              refine ⟨hen2, ?_, ?_, ?_, ?_, ?_⟩
              · exact k2f jid ((mem_insertNew jid jid s.failed).2 (Or.inl rfl))
              · intro hc
                exact ((hre jid).1 (k2p jid hc)).1 rfl
              · intro hc
                exact hI.disjPR jid hpend (hrun2 jid hc)
              · intro a ha
                have ha1 : a ∉ s.pending.erase jid := fun hc => ha ((hre a).1 hc).2
                exact hoth2 a ha1
              · exact hoth2 jid (fun hc => ((hre jid).1 hc).1 rfl)
          · next hpend0 =>
            split at hE
            · next hruns =>
              have hre : ∀ a, a ∈ s.running.erase jid ↔ a ≠ jid ∧ a ∈ s.running :=
                fun a => hI.runNodup.mem_erase_iff
              have hI1 : SInv { s with running := s.running.erase jid, failed := insertNew jid s.failed } := by
                constructor
                · exact hI.pendNodup
                · exact hI.runNodup.erase jid
                · intro a ha hc
                  exact hI.disjPR a ha ((hre a).1 hc).2
                · intro a ha
                  exact hI.runDeps a ((hre a).1 ha).2
                · exact hI.timerDeps
                · exact hI.pendState
                · exact hI.pendHandlers
                · exact hI.handlersShape
                · intro a ha
                  rcases (mem_insertNew a jid s.failed).1 ha with rfl | har
                  · exact hsf
                  · exact hI.failedState a har
                · intro a ha hc
                  rcases (mem_insertNew a jid s.failed).1 hc with rfl | har
                  · exact hI.runNotC a hruns ha
                  · exact hI.compFailDisj a ha har
                · exact hI.pendNotC
                · intro a ha hc
                  rcases (mem_insertNew a jid s.failed).1 hc with rfl | har
                  · exact hpend0 ha
                  · exact hI.pendNotF a ha har
                · intro a ha
                  exact hI.runNotC a ((hre a).1 ha).2
                · intro a ha hc
                  obtain ⟨hne, har⟩ := (hre a).1 ha
                  rcases (mem_insertNew a jid s.failed).1 hc with rfl | har2
                  · exact hne rfl
                  · exact hI.runNotF a har har2
                · intro a k hk
                  rcases hI.depOK a k hk with ⟨h1, h2⟩ | h | ⟨h1, h2, h3⟩
                  · exact Or.inl ⟨h1, h2⟩
                  · exact Or.inr (Or.inl h)
                  · refine Or.inr (Or.inr ⟨h1, h2, ?_⟩)
                    rcases h3 with h3 | h3
                    · exact Or.inl h3
                    · exact Or.inr ((mem_insertNew a jid s.failed).2 (Or.inr h3))
              obtain ⟨hI2, hK2, hPost2⟩ := ih now (Call.autoFail jid) _ s2 e hI1 True.intro hE hf
              obtain ⟨hen2, hPFiff2, hrun2, hoth2, hdep2⟩ := hPost2
              obtain ⟨k2p, k2c, k2f, k2s, k2d, k2ps, k2fs⟩ := hK2
              refine ⟨hI2, ?_, ?_, ?_, ?_⟩
              · refine ⟨k2p, k2c, ?_, k2s, k2d, k2ps, ?_⟩
                · intro a ha
                  exact k2f a ((mem_insertNew a jid s.failed).2 (Or.inr ha))
                · intro d hd hnd a ha k hk hst
                  by_cases hdj : d = jid
                  · subst hdj
                    exact hdep2 a ha k hk hst
                  · refine k2fs d hd ?_ a ha k hk hst
                    intro hc
                    rcases (mem_insertNew d jid s.failed).1 hc with h | h
                    · exact hdj h
                    · exact hnd h
              · intro a
                rw [hPFiff2 a]
                constructor
                · intro hpf
                  exact ⟨hpf, fun hc => hpend0 (hc ▸ hpf.1)⟩
                · rintro ⟨hpf, _⟩
                  exact hpf
              · intro a ha
                exact ((hre a).1 (hrun2 a ha)).2
              · intro hpf
                exact absurd hpf.1 hpend0
            · injection hE with h1 h2
              subst h1
              subst h2
              refine ⟨hI, Keeps_refl s, ?_, fun a h => h, ?_⟩
              · intro a
                constructor
                · intro hpf
                  exact ⟨hpf, fun hc => hpend0 (hc ▸ hpf.1)⟩
                · exact fun h => h.1
              · intro hpf
                exact absurd hpf.1 hpend0
    | autoFail jid =>
      simp only [exec] at hE
      have hndM : (markedOf s jid).Nodup := markedOf_nodup s jid hI.pendNodup
      have hPre1 : PreC (Call.makeFailedList (markedOf s jid)) s := by
        refine ⟨hndM, ?_⟩
        intro a ha
        obtain ⟨ham, pj, hpj, hdep, hnfst⟩ := (markedOf_spec s jid a).1 ha
        refine ⟨ham, pj, hpj, ?_⟩
        rcases hI.pendState a ham pj hpj with h | h
        · exact h
        · exact absurd h hnfst
      rcases hA : exec n now (Call.makeFailedList (markedOf s jid)) s with ⟨s1, e1⟩
      rw [hA] at hE
      cases e1 with
      | none =>
        simp only at hE
        obtain ⟨hI1, hK1, hPost1⟩ := ih now (Call.makeFailedList (markedOf s jid)) s s1 none
          hI hPre1 hA (by simp)
        obtain ⟨hen1, hpend1, hrun1, hcomp1, hfail1, htim1, hoth1, hmk1⟩ := hPost1
        have hPre2 : PreC (Call.cascadeList (markedOf s jid)) s1 := by
          refine ⟨hndM, ?_⟩
          intro a ha
          obtain ⟨jf, hjf, hstf, _⟩ := hmk1 a ha
          exact ⟨by rw [hpend1]; exact markedOf_sub s jid a ha, jf, hjf, hstf⟩
        obtain ⟨hI2, hK2, hPost2⟩ := ih now (Call.cascadeList (markedOf s jid)) s1 s2 e hI1
          hPre2 hE hf
        obtain ⟨hen2, hPFiff2, hrun2, hoth2⟩ := hPost2
        obtain ⟨k2p, k2c, k2f, k2s, k2d, k2ps, k2fs⟩ := hK2
        have hnm_of_PF : ∀ a, PF s a → a ∉ markedOf s jid := by
          intro a hpf hmem
          obtain ⟨_, pj, hpj, _, hnfst⟩ := (markedOf_spec s jid a).1 hmem
          obtain ⟨_, jF, hjF, hstF⟩ := hpf
          rw [hpj] at hjF
          cases hjF
          exact hnfst hstF
        have hPF1_iff : ∀ a, (PF s1 a ∧ a ∉ markedOf s jid) ↔ PF s a := by
          intro a
          constructor
          · rintro ⟨⟨ham, jF, hjF, hstF⟩, hnm⟩
            rw [hoth1 a hnm] at hjF
            rw [hpend1] at ham
            exact ⟨ham, jF, hjF, hstF⟩
          · intro hpf
            have hnm : a ∉ markedOf s jid := hnm_of_PF a hpf
            obtain ⟨ham, jF, hjF, hstF⟩ := hpf
            refine ⟨⟨by rw [hpend1]; exact ham, jF, ?_, hstF⟩, hnm⟩
            rw [hoth1 a hnm]
            exact hjF
        refine ⟨hI2, Keeps_trans hK1 ⟨k2p, k2c, k2f, k2s, k2d, k2ps, k2fs⟩, hen2, ?_, ?_, ?_, ?_⟩
        · intro a
          rw [hPFiff2 a]
          exact hPF1_iff a
        · intro a ha
          have := hrun2 a ha
          rw [hrun1] at this
          exact this
        · intro a ha
          have hnm : a ∉ markedOf s jid := fun hc => ha (markedOf_sub s jid a hc)
          have ha1 : a ∉ s1.pending := by rw [hpend1]; exact ha
          rw [hoth2 a ha1, hoth1 a hnm]
        · intro a ha j hj hst
          have ha1 : a ∈ s1.pending := k2p a ha
          have ham : a ∈ s.pending := by rw [hpend1] at ha1; exact ha1
          have hs1 : (getJob s1 a).isSome = true := by rw [← k2s a, hj]; rfl
          cases hj1 : getJob s1 a with
          | none => rw [hj1] at hs1; simp at hs1
          | some j1 =>
            have hst1 : j1.state = JState.PENDING := k2ps a ha j1 j hj1 hj hst
            have hnm : a ∉ markedOf s jid := by
              intro hmem
              obtain ⟨jf, hjf, hstf, _⟩ := hmk1 a hmem
              rw [hj1] at hjf
              cases hjf
              rw [hstf] at hst1
              simp at hst1
            have hjs : getJob s a = some j1 := by rw [← hoth1 a hnm]; exact hj1
            have hdeq : j.dependencies = j1.dependencies := k2d a j1 j hj1 hj
            have hdc : depsContain j jid = depsContain j1 jid := by
              unfold depsContain
              rw [hdeq]
            rw [hdc]
            by_contra hdcn
            have hdct : depsContain j1 jid = true := by
              cases hv : depsContain j1 jid with
              | false => exact absurd hv hdcn
              | true => rfl
            have : a ∈ markedOf s jid := by
              rw [markedOf_spec]
              refine ⟨ham, j1, hjs, hdct, ?_⟩
              rw [hst1]
              simp
            exact hnm this
      | some e1q =>
        simp only at hE
        injection hE with h1 h2
        subst h1
        subst h2
        have hf1 : some e1q ≠ some PyErr.fuel := hf
        obtain ⟨hI1, hK1, hPost1⟩ := ih now (Call.makeFailedList (markedOf s jid)) s s1
          (some e1q) hI hPre1 hA hf1
        exact absurd hPost1.1 (by simp)
    | makeFailedList l =>
      cases l with
      | nil =>
        simp only [exec] at hE
        injection hE with h1 h2
        subst h1
        subst h2
        refine ⟨hI, Keeps_refl s, ?_⟩
        exact ⟨rfl, rfl, rfl, rfl, rfl, rfl, fun a _ => rfl,
          fun a ha => absurd ha (List.not_mem_nil a)⟩
      | cons p rest =>
        simp only [exec] at hE
        simp only [PreC] at hP
        obtain ⟨hnd, hall⟩ := hP
        have hndr : rest.Nodup := hnd.of_cons
        have hpnr : p ∉ rest := (List.nodup_cons.mp hnd).1
        rcases hA : exec n now (Call.makeFailedCall p) s with ⟨s1, e1⟩
        rw [hA] at hE
        have hPre1 : PreC (Call.makeFailedCall p) s := hall p (by simp)
        cases e1 with
        | none =>
          simp only at hE
          obtain ⟨hI1, hK1, hPost1⟩ := ih now (Call.makeFailedCall p) s s1 none hI hPre1 hA
            (by simp)
          obtain ⟨hen1, hpend1, hrun1, hcomp1, hfail1, htim1, hoth1, jP, hjP, hstP, hresP, hhP⟩ :=
            hPost1
          have hPre2 : PreC (Call.makeFailedList rest) s1 := by
            refine ⟨hndr, ?_⟩
            intro a ha
            obtain ⟨ham, j0, hj0, hst0⟩ := hall a (by simp [ha])
            have hane : a ≠ p := fun hc => hpnr (hc ▸ ha)
            refine ⟨by rw [hpend1]; exact ham, j0, ?_, hst0⟩
            rw [hoth1 a hane]
            exact hj0
          obtain ⟨hI2, hK2, hPost2⟩ := ih now (Call.makeFailedList rest) s1 s2 e hI1 hPre2 hE hf
          obtain ⟨hen2, hpend2, hrun2, hcomp2, hfail2, htim2, hoth2, hmk2⟩ := hPost2
          refine ⟨hI2, Keeps_trans hK1 hK2, ?_⟩
          refine ⟨hen2, hpend2.trans hpend1, hrun2.trans hrun1, hcomp2.trans hcomp1,
            hfail2.trans hfail1, htim2.trans htim1, ?_, ?_⟩
          · intro a ha
            have hap : a ≠ p := fun hc => ha (by simp [hc])
            have har : a ∉ rest := fun hc => ha (by simp [hc])
            rw [hoth2 a har, hoth1 a hap]
          · intro a ha
            rcases List.mem_cons.mp ha with rfl | har
            · refine ⟨jP, ?_, hstP, hresP, hhP⟩
              rw [hoth2 a hpnr]
              exact hjP
            · exact hmk2 a har
        | some e1q =>
          simp only at hE
          injection hE with h1 h2
          subst h1
          subst h2
          have hf1 : some e1q ≠ some PyErr.fuel := hf
          obtain ⟨hI1, hK1, hPost1⟩ := ih now (Call.makeFailedCall p) s s1 (some e1q) hI hPre1
            hA hf1
          exact absurd hPost1.1 (by simp)
    | cascadeList l =>
      cases l with
      | nil =>
        simp only [exec] at hE
        injection hE with h1 h2
        subst h1
        subst h2
        refine ⟨hI, Keeps_refl s, ?_⟩
        refine ⟨rfl, ?_, fun a h => h, fun a _ => rfl⟩
        intro a
        simp
      | cons p rest =>
        simp only [exec] at hE
        simp only [PreC] at hP
        obtain ⟨hnd, hall⟩ := hP
        obtain ⟨hpmem, jp, hjp, hstp⟩ := hall p (by simp)
        have hPF_p : PF s p := ⟨hpmem, jp, hjp, hstp⟩
        have hPre1 : PreC (Call.onJobFailed p) s := by
          refine ⟨hI.pendHandlers p hpmem, ?_, hI.pendNotF p hpmem⟩
          intro j0 hj0
          rw [hjp] at hj0
          cases hj0
          exact hstp
        rcases hA : exec n now (Call.onJobFailed p) s with ⟨s1, e1⟩
        rw [hA] at hE
        cases e1 with
        | none =>
          simp only at hE
          obtain ⟨hI1, hK1, hPost1⟩ := ih now (Call.onJobFailed p) s s1 none hI hPre1 hA
            (by simp)
          obtain ⟨hPFiff1, hrun1, hclause1⟩ := hPost1
          obtain ⟨hen1, hfailm1, hnpend1, hnrun1, hoth1, hjW1⟩ := hclause1 hPF_p
          have hPre2 : PreC (Call.cascadeList rest) s1 := by
            refine ⟨hnd.of_cons, ?_⟩
            intro a ha
            have hane : a ≠ p := fun hc => (List.nodup_cons.mp hnd).1 (hc ▸ ha)
            exact (hPFiff1 a).mpr ⟨hall a (by simp [ha]), hane⟩
          obtain ⟨hI2, hK2, hPost2⟩ := ih now (Call.cascadeList rest) s1 s2 e hI1 hPre2 hE hf
          obtain ⟨hen2, hPFiff2, hrun2, hoth2⟩ := hPost2
          refine ⟨hI2, Keeps_trans hK1 hK2, hen2, ?_, ?_, ?_⟩
          · intro a
            rw [hPFiff2 a, hPFiff1 a]
            constructor
            · rintro ⟨⟨hpf, hne⟩, hnr⟩
              exact ⟨hpf, by simp [hne, hnr]⟩
            · rintro ⟨hpf, hnm⟩
              simp at hnm
              exact ⟨⟨hpf, hnm.1⟩, hnm.2⟩
          · intro a ha
            exact hrun1 a (hrun2 a ha)
          · intro a ha
            have h1 : a ∉ s1.pending := fun hc => ha (hK1.1 a hc)
            rw [hoth2 a h1, hoth1 a ha]
        | some e1q =>
          simp only at hE
          injection hE with h1 h2
          subst h1
          subst h2
          have hf1 : some e1q ≠ some PyErr.fuel := hf
          obtain ⟨hI1, hK1, hPost1⟩ := ih now (Call.onJobFailed p) s s1 (some e1q) hI hPre1
            hA hf1
          obtain ⟨hen1, _⟩ := hPost1.2.2 hPF_p
          exact absurd hen1 (by simp)
    | startJobIfCan jid =>
      simp only [exec] at hE
      split at hE
      · injection hE with h1 h2
        subst h1
        subst h2
        exact ⟨hI, Keeps_refl s, fun h => h⟩
      · split at hE
        · injection hE with h1 h2
          subst h1
          subst h2
          exact ⟨hI, Keeps_refl s, fun h => h⟩
        · next j heq =>
          split at hE
          · injection hE with h1 h2
            subst h1
            subst h2
            exact ⟨hI, Keeps_refl s, fun h => h⟩
          · next hda0 =>
            have hda : depsAvailable s j = true := by
              cases hv : depsAvailable s j with
              | false => exact absurd (by simp [hv]) hda0
              | true => rfl
            split at hE
            · injection hE with h1 h2
              subst h1
              subst h2
              refine ⟨?_, ?_, fun h => h⟩
              · refine ⟨hI.pendNodup, hI.runNodup, hI.disjPR, hI.runDeps, ?_, hI.pendState,
                  hI.pendHandlers, hI.handlersShape, hI.failedState, hI.compFailDisj,
                  hI.pendNotC, hI.pendNotF, hI.runNotC, hI.runNotF, hI.depOK⟩
                intro t ht k hk d hd
                rcases List.mem_cons.mp ht with rfl | ht2
                · have hk2 : getJob s jid = some k := hk
                  rw [heq] at hk2
                  cases hk2
                  exact (depsAvailable_iff s j).1 hda d hd
                · exact hI.timerDeps t ht2 k hk d hd
              · exact Keeps_parts s _ (fun a h => h) (fun a h => h) rfl rfl
            · have hPre1 : PreC (Call.startJob jid) s := by
                refine ⟨hP, ?_⟩
                intro j0 hj0
                rw [heq] at hj0
                cases hj0
                exact hda
              exact ih now (Call.startJob jid) s s2 e hI hPre1 hE hf
    | startJob jid =>
      simp only [exec] at hE
      simp only [PreC] at hP
      obtain ⟨hPFe, hdall⟩ := hP
      split at hE
      · injection hE with h1 h2
        subst h1
        subst h2
        exact ⟨hI, Keeps_refl s, fun h => h⟩
      · next j heq =>
        have hjid : j.id = jid := getJob_id s jid j heq
        split at hE
        · next hmem =>
          obtain ⟨hI1, hK1, hPFe1⟩ := startMove_inv s hI jid j heq hmem (hdall j heq) hPFe
          have hNid0 : (j.addCompleteHandler 0).id = j.id := by
            unfold Job.addCompleteHandler
            split <;> rfl
          have hNid : (j.addCompleteHandler 0).id = jid := hNid0.trans hjid
          have hNdep : (j.addCompleteHandler 0).dependencies = j.dependencies := by
            unfold Job.addCompleteHandler
            split <;> rfl
          have hself1 : getJob (setJob s (j.addCompleteHandler 0)) jid = some (j.addCompleteHandler 0) :=
            getJob_setJob_self s _ jid j heq hNid
          have hPre1 : PreC (Call.runJob jid) { s with jobs := (setJob s (j.addCompleteHandler 0)).jobs, pending := s.pending.erase jid, running := insertNew jid s.running } := by
            refine ⟨?_, hI.pendNotF jid hmem, ?_, Or.inl hPFe1⟩
            · intro hc
              exact (hI.pendNodup.mem_erase_iff.1 hc).1 rfl
            · intro jx hjx d hd
              have hjx2 : getJob (setJob s (j.addCompleteHandler 0)) jid = some jx := hjx
              rw [hself1] at hjx2
              cases hjx2
              have hd2 : d ∈ depsList j := by
                unfold depsList at hd ⊢
                rw [← hNdep]
                exact hd
              exact (depsAvailable_iff s j).1 (hdall j heq) d hd2
          obtain ⟨hI2, hK2, hPost2⟩ := ih now (Call.runJob jid) _ s2 e hI1 hPre1 hE hf
          exact ⟨hI2, Keeps_trans hK1 hK2, fun _ => hPost2.1 hPFe1⟩
        · next hmem =>
          injection hE with h1 h2
          subst h1
          subst h2
          have hNid0 : (j.addCompleteHandler 0).id = j.id := by
            unfold Job.addCompleteHandler
            split <;> rfl
          have hNid : (j.addCompleteHandler 0).id = jid := hNid0.trans hjid
          have hNst : (j.addCompleteHandler 0).state = j.state := by
            unfold Job.addCompleteHandler
            split <;> rfl
          have hNdep : (j.addCompleteHandler 0).dependencies = j.dependencies := by
            unfold Job.addCompleteHandler
            split <;> rfl
          have hNsh : (j.addCompleteHandler 0).handlers = [] ∨
              (j.addCompleteHandler 0).handlers = [0] := by
            rcases hI.handlersShape jid j heq with h | h <;>
              simp [Job.addCompleteHandler, h]
          have hNres : (j.addCompleteHandler 0).result = j.result := by
            unfold Job.addCompleteHandler
            split <;> rfl
          refine ⟨?_, ?_, ?_⟩
          · refine SInv_update s hI jid j _ heq hNid0 hNdep (fun hc => absurd hc hmem) ?_ hNsh ?_
            · intro hc
              rw [hNst]
              exact hI.failedState jid hc j heq
            · rcases hI.depOK jid j heq with ⟨_, h2⟩ | h | ⟨h1, h2, h3⟩
              · exact absurd h2 hmem
              · exact Or.inr (Or.inl h)
              · refine Or.inr (Or.inr ⟨?_, ?_, h3⟩)
                · rw [hNst]
                  exact h1
                · rw [hNres]
                  exact h2
          · exact Keeps_setJob s jid j _ heq hNid0 hNdep (fun hc _ => absurd hc hmem)
          · intro hPFe0
            exact PFempty_setJob_np s jid _ hNid hPFe0 hmem
    | startList depId l =>
      cases l with
      | nil =>
        simp only [exec] at hE
        injection hE with h1 h2
        subst h1
        subst h2
        exact ⟨hI, Keeps_refl s, fun h => h⟩
      | cons p rest =>
        simp only [exec] at hE
        split at hE
        · injection hE with h1 h2
          subst h1
          subst h2
          exact ⟨hI, Keeps_refl s, fun h => h⟩
        · split at hE
          · rcases hA : exec n now (Call.startJobIfCan p) s with ⟨s1, e1⟩
            rw [hA] at hE
            cases e1 with
            | none =>
              simp only at hE
              obtain ⟨hI1, hK1, hPost1⟩ := ih now (Call.startJobIfCan p) s s1 none hI hP hA
                (by simp)
              obtain ⟨hI2, hK2, hPost2⟩ := ih now (Call.startList depId rest) s1 s2 e hI1
                (hPost1 hP) hE hf
              exact ⟨hI2, Keeps_trans hK1 hK2, fun h0 => hPost2 (hPost1 h0)⟩
            | some e1q =>
              simp only at hE
              injection hE with h1 h2
              subst h1
              subst h2
              have hf1 : some e1q ≠ some PyErr.fuel := hf
              obtain ⟨hI1, hK1, hPost1⟩ := ih now (Call.startJobIfCan p) s s1 (some e1q) hI hP
                hA hf1
              exact ⟨hI1, hK1, fun h0 => hPost1 h0⟩
          · exact ih now (Call.startList depId rest) s s2 e hI hP hE hf
    | runPendingList l =>
      cases l with
      | nil =>
        simp only [exec] at hE
        injection hE with h1 h2
        subst h1
        subst h2
        exact ⟨hI, Keeps_refl s, fun h => h⟩
      | cons p rest =>
        simp only [exec] at hE
        split at hE
        · rcases hA : exec n now (Call.startJobIfCan p) s with ⟨s1, e1⟩
          rw [hA] at hE
          cases e1 with
          | none =>
            simp only at hE
            obtain ⟨hI1, hK1, hPost1⟩ := ih now (Call.startJobIfCan p) s s1 none hI hP hA
              (by simp)
            obtain ⟨hI2, hK2, hPost2⟩ := ih now (Call.runPendingList rest) s1 s2 e hI1
              (hPost1 hP) hE hf
            exact ⟨hI2, Keeps_trans hK1 hK2, fun h0 => hPost2 (hPost1 h0)⟩
          | some e1q =>
            simp only at hE
            injection hE with h1 h2
            subst h1
            subst h2
            have hf1 : some e1q ≠ some PyErr.fuel := hf
            obtain ⟨hI1, hK1, hPost1⟩ := ih now (Call.startJobIfCan p) s s1 (some e1q) hI hP
              hA hf1
            exact ⟨hI1, hK1, fun h0 => hPost1 h0⟩
        · exact ih now (Call.runPendingList rest) s s2 e hI hP hE hf

theorem PendUnsafe_keep {s s2 : SchedState} (hK : Keeps s s2)
    (hP : ∀ a, ¬ PendUnsafe s a) : ∀ a, ¬ PendUnsafe s2 a := by
  obtain ⟨kp, kc, kf, ks, kd, kps, kfs⟩ := hK
  rintro a ⟨ham2, j2, hj2, hst2, d, hd, hdf2⟩
  have ham : a ∈ s.pending := kp a ham2
  have hs1 : (getJob s a).isSome = true := by rw [← ks a, hj2]; rfl
  cases hj1 : getJob s a with
  | none => rw [hj1] at hs1; simp at hs1
  | some j1 =>
    have hst1 : j1.state = JState.PENDING := kps a ham2 j1 j2 hj1 hj2 hst2
    have hdeq : j2.dependencies = j1.dependencies := kd a j1 j2 hj1 hj2
    have hd1 : d ∈ depsList j1 := by
      unfold depsList at hd ⊢
      rw [← hdeq]
      exact hd
    by_cases hdf : d ∈ s.failed
    · exact hP a ⟨ham, j1, hj1, hst1, d, hd1, hdf⟩
    · have hfs := kfs d hdf2 hdf a ham2 j2 hj2 hst2
      have hct : depsContain j2 d = true := (depsContain_iff j2 d).2 hd
      rw [hfs] at hct
      cases hct

theorem RInv_init (ps : Nat) : RInv (schedInit ps) := by
  refine ⟨?_, ?_, ?_⟩
  · constructor
    · simp [schedInit]
    · simp [schedInit]
    · intro a ha
      simp [schedInit] at ha
    · intro a ha
      simp [schedInit] at ha
    · intro t ht
      simp [schedInit] at ht
    · intro a ha
      simp [schedInit] at ha
    · intro a ha
      simp [schedInit] at ha
    · intro a k hk
      simp [schedInit, getJob] at hk
    · intro a ha
      simp [schedInit] at ha
    · intro a ha
      simp [schedInit] at ha
    · intro a ha
      simp [schedInit] at ha
    · intro a ha
      simp [schedInit] at ha
    · intro a ha
      simp [schedInit] at ha
    · intro a ha
      simp [schedInit] at ha
    · intro a k hk
      simp [schedInit, getJob] at hk
  · rintro a ⟨ha, _⟩
    simp [schedInit] at ha
  · rintro a ⟨ha, _⟩
    simp [schedInit] at ha

theorem RInv_run (n : Nat) (now : Int) (s s2 : SchedState) (e : Option PyErr)
    (hR : RInv s) (hQ : schedRunF n now s = (s2, e)) (hfe : e ≠ some PyErr.fuel) :
    RInv s2 := by
  obtain ⟨hI, hPFe, hPU⟩ := hR
  unfold schedRunF at hQ
  have hI1 : SInv { s with isRunning := true, curGen := s.curGen + 1 } :=
    ⟨hI.pendNodup, hI.runNodup, hI.disjPR, hI.runDeps, hI.timerDeps, hI.pendState,
     hI.pendHandlers, hI.handlersShape, hI.failedState, hI.compFailDisj, hI.pendNotC,
     hI.pendNotF, hI.runNotC, hI.runNotF, hI.depOK⟩
  have hK1 : Keeps s { s with isRunning := true, curGen := s.curGen + 1 } :=
    Keeps_parts s _ (fun a h => h) (fun a h => h) rfl rfl
  have hPFe1 : PFempty { s with isRunning := true, curGen := s.curGen + 1 } := hPFe
  obtain ⟨hI2, hK2, hPost2⟩ := exec_inv n now (Call.runPendingList s.pending) _ s2 e hI1
    hPFe1 hQ hfe
  exact ⟨hI2, hPost2 hPFe1, PendUnsafe_keep (Keeps_trans hK1 hK2) hPU⟩

theorem RInv_async (n : Nat) (now : Int) (jid : Nat) (s s2 : SchedState) (e : Option PyErr)
    (hR : RInv s) (hQ : asyncFinStep n now jid s = (s2, e)) (hfe : e ≠ some PyErr.fuel) :
    RInv s2 := by
  obtain ⟨hI, hPFe, hPU⟩ := hR
  unfold asyncFinStep at hQ
  split at hQ
  · injection hQ with h1 h2
    subst h1
    exact ⟨hI, hPFe, hPU⟩
  · next j heq =>
    have hjid : j.id = jid := getJob_id s jid j heq
    split at hQ
    · next hcond =>
      have hI1 : SInv (setJob s { j with epi := j.epi + 1 }) :=
        SInv_update s hI jid j _ heq rfl rfl
          (fun hc => ⟨hI.pendState jid hc j heq, hI.pendHandlers jid hc j heq⟩)
          (fun hc => hI.failedState jid hc j heq) (hI.handlersShape jid j heq)
          (hI.depOK jid j heq)
      have hK1 : Keeps s (setJob s { j with epi := j.epi + 1 }) :=
        Keeps_setJob s jid j _ heq rfl rfl (fun _ h => h)
      have hPFe1 : PFempty (setJob s { j with epi := j.epi + 1 }) := by
        refine PFempty_setJob s jid j _ heq hjid hPFe ?_
        have : ({ j with epi := j.epi + 1 } : Job).state = j.state := rfl
        rw [this, hcond.2]
        simp
      split at hQ
      · next v hw =>
        obtain ⟨hI2, hK2, hPost2⟩ := exec_inv n now (Call.notifyComplete jid (some v)) _ s2 e
          hI1 (Or.inl hPFe1) hQ hfe
        exact ⟨hI2, hPost2.1 hPFe1, PendUnsafe_keep (Keeps_trans hK1 hK2) hPU⟩
      · injection hQ with h1 h2
        subst h1
        exact ⟨hI1, hPFe1, PendUnsafe_keep hK1 hPU⟩
    · injection hQ with h1 h2
      subst h1
      exact ⟨hI, hPFe, hPU⟩

theorem RInv_timeout (n : Nat) (now : Int) (jid : Nat) (s s2 : SchedState) (e : Option PyErr)
    (hR : RInv s) (hQ : timeoutStep n now jid s = (s2, e)) (hfe : e ≠ some PyErr.fuel) :
    RInv s2 := by
  obtain ⟨hI, hPFe, hPU⟩ := hR
  unfold timeoutStep at hQ
  split at hQ
  · injection hQ with h1 h2
    subst h1
    exact ⟨hI, hPFe, hPU⟩
  · next j heq =>
    split at hQ
    · obtain ⟨hI2, hK2, hPost2⟩ := exec_inv n now (Call.notifyError jid (some TIMEOUT_ERROR))
        s s2 e hI (Or.inl hPFe) hQ hfe
      exact ⟨hI2, hPost2.1 hPFe, PendUnsafe_keep hK2 hPU⟩
    · injection hQ with h1 h2
      subst h1
      exact ⟨hI, hPFe, hPU⟩

theorem RInv_timer (n : Nat) (now : Int) (jid g : Nat) (s s2 : SchedState) (e : Option PyErr)
    (hR : RInv s) (hQ : timerFireStep n now jid g s = (s2, e)) (hfe : e ≠ some PyErr.fuel) :
    RInv s2 := by
  obtain ⟨hI, hPFe, hPU⟩ := hR
  unfold timerFireStep at hQ
  split at hQ
  · next htm =>
    have hI1 : SInv { s with timers := s.timers.erase (jid, g) } := by
      refine ⟨hI.pendNodup, hI.runNodup, hI.disjPR, hI.runDeps, ?_, hI.pendState,
        hI.pendHandlers, hI.handlersShape, hI.failedState, hI.compFailDisj, hI.pendNotC,
        hI.pendNotF, hI.runNotC, hI.runNotF, hI.depOK⟩
      intro t ht
      exact hI.timerDeps t (List.mem_of_mem_erase ht)
    have hK1 : Keeps s { s with timers := s.timers.erase (jid, g) } :=
      Keeps_parts s _ (fun a h => h) (fun a h => h) rfl rfl
    have hPFe1 : PFempty { s with timers := s.timers.erase (jid, g) } := hPFe
    split at hQ
    · have hPre1 : PreC (Call.startJob jid) { s with timers := s.timers.erase (jid, g) } := by
        refine ⟨hPFe1, ?_⟩
        intro j0 hj0
        refine (depsAvailable_iff _ j0).2 ?_
        intro d hd
        exact hI.timerDeps (jid, g) htm j0 hj0 d hd
      obtain ⟨hI2, hK2, hPost2⟩ := exec_inv n now (Call.startJob jid) _ s2 e hI1 hPre1 hQ hfe
      exact ⟨hI2, hPost2 hPFe1, PendUnsafe_keep (Keeps_trans hK1 hK2) hPU⟩
    · injection hQ with h1 h2
      subst h1
      exact ⟨hI1, hPFe1, PendUnsafe_keep hK1 hPU⟩
  · injection hQ with h1 h2
    subst h1
    exact ⟨hI, hPFe, hPU⟩

theorem stopListGo_inv (l : List Nat) :
    ∀ s : SchedState, SInv s → PFempty s → (∀ a, ¬ PendUnsafe s a) → s.running = [] →
      (∀ p ∈ l, p ∉ s.completed) →
      (∀ p ∈ l, ∀ k : Job, getJob s p = some k → ∀ d ∈ depsList k, d ∈ s.completed) →
      SInv (stopListGo l s).1 ∧ PFempty (stopListGo l s).1 ∧
        ∀ a, ¬ PendUnsafe (stopListGo l s).1 a := by
  induction l with
  | nil =>
    intro s hI hPFe hPU _ _ _
    exact ⟨hI, hPFe, hPU⟩
  | cons p rest ih =>
    intro s hI hPFe hPU hrE hpc hdc
    unfold stopListGo
    split
    · exact ⟨hI, hPFe, hPU⟩
    · next jp hgj =>
      have hjid : jp.id = p := getJob_id s p jp hgj
      split
      · refine ⟨?_, ?_, ?_⟩
        · refine SInv_update s hI p jp _ hgj rfl rfl ?_ ?_ (Or.inl rfl) ?_
          · intro hc
            exact ⟨hI.pendState p hc jp hgj, rfl⟩
          · intro hc
            exact hI.failedState p hc jp hgj
          · exact hI.depOK p jp hgj
        · intro a hpf
          by_cases ha : a = p
          · subst ha
            rw [PF_setJob_self s a jp (jp.removeAllCompleteHandlers) hgj hjid] at hpf
            exact hPFe a ⟨hpf.1, jp, hgj, hpf.2⟩
          · rw [PF_setJob_other s (jp.removeAllCompleteHandlers) a
              (by simpa [Job.removeAllCompleteHandlers, hjid] using ha)] at hpf
            exact hPFe a hpf
        · exact PendUnsafe_keep (Keeps_setJob s p jp _ hgj rfl rfl (fun _ h => h)) hPU
      · next hns =>
        have hjpr : jp.state = JState.RUNNING := not_not.mp hns
        have hpnf : p ∉ s.failed := by
          intro hc
          have := hI.failedState p hc jp hgj
          rw [hjpr] at this
          simp at this
        have hself : getJob (setJob s { jp with handlers := [], result := none, state := JState.PENDING }) p = some { jp with handlers := [], result := none, state := JState.PENDING } :=
          getJob_setJob_self s _ p jp hgj hjid
        have hother : ∀ a, a ≠ p → getJob (setJob s { jp with handlers := [], result := none, state := JState.PENDING }) a = getJob s a :=
          fun a ha => getJob_setJob_other s _ a (by simpa [hjid] using ha)
        have hget : ∀ a (k : Job), getJob (setJob s { jp with handlers := [], result := none, state := JState.PENDING }) a = some k →
            (a = p ∧ k = { jp with handlers := [], result := none, state := JState.PENDING }) ∨
            (a ≠ p ∧ getJob s a = some k) := by
          intro a k hk
          by_cases ha : a = p
          · subst ha
            rw [hself] at hk
            cases hk
            exact Or.inl ⟨rfl, rfl⟩
          · rw [hother a ha] at hk
            exact Or.inr ⟨ha, hk⟩
        refine ih _ ?_ ?_ ?_ hrE ?_ ?_
        · constructor
          · exact insertNew_nodup p s.pending hI.pendNodup
          · exact hI.runNodup
          · intro a _ hc
            have hc2 : a ∈ s.running := hc
            rw [hrE] at hc2
            simp at hc2
          · intro a ha k hk d hd
            have ha2 : a ∈ s.running := ha
            rw [hrE] at ha2
            simp at ha2
          · intro t ht k hk d hd
            rcases hget t.1 k hk with ⟨he, rfl⟩ | ⟨hne, hk2⟩
            · refine hI.timerDeps t ht jp ?_ d hd
              rw [he]
              exact hgj
            · exact hI.timerDeps t ht k hk2 d hd
          · intro a ha k hk
            rcases hget a k hk with ⟨rfl, rfl⟩ | ⟨hne, hk2⟩
            · exact Or.inl rfl
            · rcases (mem_insertNew a p s.pending).1 ha with rfl | ham
              · exact absurd rfl hne
              · exact hI.pendState a ham k hk2
          · intro a ha k hk
            rcases hget a k hk with ⟨rfl, rfl⟩ | ⟨hne, hk2⟩
            · rfl
            · rcases (mem_insertNew a p s.pending).1 ha with rfl | ham
              · exact absurd rfl hne
              · exact hI.pendHandlers a ham k hk2
          · intro a k hk
            rcases hget a k hk with ⟨rfl, rfl⟩ | ⟨hne, hk2⟩
            · exact Or.inl rfl
            · exact hI.handlersShape a k hk2
          · intro a ha k hk
            rcases hget a k hk with ⟨rfl, rfl⟩ | ⟨hne, hk2⟩
            · exact absurd ha hpnf
            · exact hI.failedState a ha k hk2
          · exact hI.compFailDisj
          · intro a ha hc
            rcases (mem_insertNew a p s.pending).1 ha with rfl | ham
            · exact hpc a (by simp) hc
            · exact hI.pendNotC a ham hc
          · intro a ha hc
            rcases (mem_insertNew a p s.pending).1 ha with rfl | ham
            · exact hpnf hc
            · exact hI.pendNotF a ham hc
          · intro a ha
            have ha2 : a ∈ s.running := ha
            rw [hrE] at ha2
            simp at ha2
          · intro a ha
            have ha2 : a ∈ s.running := ha
            rw [hrE] at ha2
            simp at ha2
          · intro a k hk
            rcases hget a k hk with ⟨ha2, hk2⟩ | ⟨hne, hk2⟩
            · subst hk2
              exact Or.inl ⟨rfl, (mem_insertNew a p s.pending).2 (Or.inl ha2)⟩
            · rcases hI.depOK a k hk2 with ⟨h1, h2⟩ | h | ⟨h1, h2, h3⟩
              · exact Or.inl ⟨h1, (mem_insertNew a p s.pending).2 (Or.inr h2)⟩
              · exact Or.inr (Or.inl h)
              · refine Or.inr (Or.inr ⟨h1, h2, ?_⟩)
                rcases h3 with h3 | h3
                · exact Or.inl ((mem_insertNew a p s.pending).2 (Or.inr h3))
                · exact Or.inr h3
        · rintro a ⟨ham, k, hk, hst⟩
          rcases hget a k hk with ⟨rfl, rfl⟩ | ⟨hne, hk2⟩
          · simp at hst
          · rcases (mem_insertNew a p s.pending).1 ham with rfl | ham2
            · exact absurd rfl hne
            · exact hPFe a ⟨ham2, k, hk2, hst⟩
        · rintro a ⟨ham, k, hk, hst, d, hd, hdf⟩
          rcases hget a k hk with ⟨rfl, rfl⟩ | ⟨hne, hk2⟩
          · have hdc2 : d ∈ s.completed := hdc a (by simp) jp hgj d hd
            exact hI.compFailDisj d hdc2 hdf
          · rcases (mem_insertNew a p s.pending).1 ham with rfl | ham2
            · exact absurd rfl hne
            · exact hPU a ⟨ham2, k, hk2, hst, d, hd, hdf⟩
        · intro q hq hc
          exact hpc q (by simp [hq]) hc
        · intro q hq k hk d hd
          rcases hget q k hk with ⟨rfl, rfl⟩ | ⟨hne, hk2⟩
          · exact hdc q (by simp) jp hgj d hd
          · exact hdc q (by simp [hq]) k hk2 d hd

theorem RInv_stop (s s2 : SchedState) (e : Option PyErr)
    (hR : RInv s) (hQ : schedStopF s = (s2, e)) : RInv s2 := by
  obtain ⟨hI, hPFe, hPU⟩ := hR
  unfold schedStopF at hQ
  split at hQ
  · injection hQ with h1 h2
    subst h1
    exact ⟨hI, hPFe, hPU⟩
  · have hI1 : SInv { s with isRunning := false, timers := s.timers.filter (fun t => !(t.2 == s.curGen)), running := [] } := by
      constructor
      · exact hI.pendNodup
      · exact List.nodup_nil
      · intro a _ hc
        simp at hc
      · intro a ha
        simp at ha
      · intro t ht
        exact hI.timerDeps t (List.mem_of_mem_filter ht)
      · exact hI.pendState
      · exact hI.pendHandlers
      · exact hI.handlersShape
      · exact hI.failedState
      · exact hI.compFailDisj
      · exact hI.pendNotC
      · exact hI.pendNotF
      · intro a ha
        simp at ha
      · intro a ha
        simp at ha
      · exact hI.depOK
    have hres := stopListGo_inv s.running _ hI1 hPFe hPU rfl
      (fun p hp => hI.runNotC p hp) (fun p hp k hk => hI.runDeps p hp k hk)
    rw [hQ] at hres
    exact hres

theorem getJob_admitted_self (s : SchedState) (j : Job) :
    getJob (admitted s j) j.id = some j := by
  unfold getJob admitted
  exact List.find?_cons_of_pos _ (by simp)

theorem getJob_admitted_other (s : SchedState) (j : Job) (a : Nat) (ha : a ≠ j.id) :
    getJob (admitted s j) a = getJob s a := by
  have hb : (j.id == a) = false := by
    simp
    exact fun hc => ha hc.symm
  unfold getJob admitted
  simp only [List.find?_cons, hb]

/-- Invariants across the admission of a fresh job by schedule, together
with the characterization of the only possibly unsafe pending job it can
create: the new job itself when one of its dependencies already failed. -/
theorem admitted_RInv_parts (s : SchedState) (j : Job) (hI : SInv s) (hPFe : PFempty s)
    (hF : FreshFor s j) :
    SInv (admitted s j) ∧ PFempty (admitted s j) ∧
    (∀ a, PendUnsafe (admitted s j) a →
      (a = j.id ∧ ∃ d ∈ depsList j, d ∈ s.failed) ∨ PendUnsafe s a) := by
  obtain ⟨hst, hres, hh, hepi, hids, hnp, hnr, hnc, hnfl, htm⟩ := hF
  have hself := getJob_admitted_self s j
  have hother : ∀ a, a ≠ j.id → getJob (admitted s j) a = getJob s a :=
    fun a ha => getJob_admitted_other s j a ha
  have hget : ∀ a (k : Job), getJob (admitted s j) a = some k →
      (a = j.id ∧ k = j) ∨ (a ≠ j.id ∧ getJob s a = some k) := by
    intro a k hk
    by_cases ha : a = j.id
    · subst ha
      rw [hself] at hk
      cases hk
      exact Or.inl ⟨rfl, rfl⟩
    · rw [hother a ha] at hk
      exact Or.inr ⟨ha, hk⟩
  refine ⟨?_, ?_, ?_⟩
  · constructor
    · exact insertNew_nodup j.id s.pending hI.pendNodup
    · exact hI.runNodup
    · intro a ha hc
      rcases (mem_insertNew a j.id s.pending).1 ha with rfl | ham
      · exact hnr hc
      · exact hI.disjPR a ham hc
    · intro a ha k hk d hd
      rcases hget a k hk with ⟨rfl, rfl⟩ | ⟨hne, hk2⟩
      · exact absurd ha hnr
      · exact hI.runDeps a ha k hk2 d hd
    · intro t ht k hk d hd
      rcases hget t.1 k hk with ⟨he, rfl⟩ | ⟨hne, hk2⟩
      · exact absurd he (htm t ht)
      · exact hI.timerDeps t ht k hk2 d hd
    · intro a ha k hk
      rcases hget a k hk with ⟨rfl, rfl⟩ | ⟨hne, hk2⟩
      · exact Or.inl hst
      · rcases (mem_insertNew a j.id s.pending).1 ha with rfl | ham
        · exact absurd rfl hne
        · exact hI.pendState a ham k hk2
    · intro a ha k hk
      rcases hget a k hk with ⟨rfl, rfl⟩ | ⟨hne, hk2⟩
      · exact hh
      · rcases (mem_insertNew a j.id s.pending).1 ha with rfl | ham
        · exact absurd rfl hne
        · exact hI.pendHandlers a ham k hk2
    · intro a k hk
      rcases hget a k hk with ⟨rfl, rfl⟩ | ⟨hne, hk2⟩
      · exact Or.inl hh
      · exact hI.handlersShape a k hk2
    · intro a ha k hk
      rcases hget a k hk with ⟨rfl, rfl⟩ | ⟨hne, hk2⟩
      · exact absurd ha hnfl
      · exact hI.failedState a ha k hk2
    · exact hI.compFailDisj
    · intro a ha hc
      rcases (mem_insertNew a j.id s.pending).1 ha with rfl | ham
      · exact hnc hc
      · exact hI.pendNotC a ham hc
    · intro a ha hc
      rcases (mem_insertNew a j.id s.pending).1 ha with rfl | ham
      · exact hnfl hc
      · exact hI.pendNotF a ham hc
    · exact hI.runNotC
    · exact hI.runNotF
    · intro a k hk
      rcases hget a k hk with ⟨ha2, hk2⟩ | ⟨hne, hk2⟩
      · have hstk : k.state = JState.PENDING := by
          rw [hk2]
          exact hst
        exact Or.inl ⟨hstk, (mem_insertNew a j.id s.pending).2 (Or.inl ha2)⟩
      · rcases hI.depOK a k hk2 with ⟨h1, h2⟩ | h | ⟨h1, h2, h3⟩
        · exact Or.inl ⟨h1, (mem_insertNew a j.id s.pending).2 (Or.inr h2)⟩
        · exact Or.inr (Or.inl h)
        · refine Or.inr (Or.inr ⟨h1, h2, ?_⟩)
          rcases h3 with h3 | h3
          · exact Or.inl ((mem_insertNew a j.id s.pending).2 (Or.inr h3))
          · exact Or.inr h3
  · rintro a ⟨ham, k, hk, hst2⟩
    rcases hget a k hk with ⟨rfl, rfl⟩ | ⟨hne, hk2⟩
    · rw [hst] at hst2
      cases hst2
    · rcases (mem_insertNew a j.id s.pending).1 ham with rfl | ham2
      · exact absurd rfl hne
      · exact hPFe a ⟨ham2, k, hk2, hst2⟩
  · rintro a ⟨ham, k, hk, hst2, d, hd, hdf⟩
    rcases hget a k hk with ⟨rfl, rfl⟩ | ⟨hne, hk2⟩
    · exact Or.inl ⟨rfl, d, hd, hdf⟩
    · rcases (mem_insertNew a j.id s.pending).1 ham with rfl | ham2
      · exact absurd rfl hne
      · exact Or.inr ⟨ham2, k, hk2, hst2, d, hd, hdf⟩

theorem RInv_sched (n : Nat) (now : Int) (j : Job) (s s2 : SchedState) (e : Option PyErr)
    (hR : RInv s) (hF : FreshFor s j) (hQ : scheduleF n now j s = (s2, e))
    (hfe : e ≠ some PyErr.fuel) : RInv s2 := by
  obtain ⟨hI, hPFe, hPU⟩ := hR
  unfold scheduleF at hQ
  split at hQ
  · injection hQ with h1 h2
    subst h1
    exact ⟨hI, hPFe, hPU⟩
  · split at hQ
    · injection hQ with h1 h2
      subst h1
      exact ⟨hI, hPFe, hPU⟩
    · obtain ⟨hIA, hPFeA, hPUchar⟩ := admitted_RInv_parts s j hI hPFe hF
      split at hQ
      · next hany =>
        rcases hA : exec n now (Call.makeFailedCall j.id) (admitted s j) with ⟨s1, e1⟩
        rw [hA] at hQ
        have hmemA : j.id ∈ (admitted s j).pending :=
          (mem_insertNew j.id j.id s.pending).2 (Or.inl rfl)
        have hPre1 : PreC (Call.makeFailedCall j.id) (admitted s j) :=
          ⟨hmemA, j, getJob_admitted_self s j, hF.1⟩
        cases e1 with
        | none =>
          simp only at hQ
          obtain ⟨hI1, hK1, hPost1⟩ := exec_inv n now (Call.makeFailedCall j.id) _ s1 none
            hIA hPre1 hA (by simp)
          obtain ⟨hen1, hpend1, hrun1, hcomp1, hfail1, htim1, hoth1, jF, hjF, hstF, hresF, hhF⟩ :=
            hPost1
          have hPre2 : PreC (Call.onJobFailed j.id) s1 := by
            refine ⟨?_, ?_, ?_⟩
            · intro k hk
              rw [hjF] at hk
              cases hk
              exact hhF
            · intro k hk
              rw [hjF] at hk
              cases hk
              exact hstF
            · intro hc
              rw [hfail1] at hc
              exact hF.2.2.2.2.2.2.2.2.1 hc
          obtain ⟨hI2, hK2, hPost2⟩ := exec_inv n now (Call.onJobFailed j.id) s1 s2 e hI1
            hPre2 hQ hfe
          obtain ⟨hPFiff2, hrun2, hclause2⟩ := hPost2
          have hPFs1 : PF s1 j.id := ⟨by rw [hpend1]; exact hmemA, jF, hjF, hstF⟩
          obtain ⟨hen2, hfailm2, hnpend2, hnrun2, hoth2, hjW2⟩ := hclause2 hPFs1
          have hPFe2 : PFempty s2 := by
            intro a hpf
            obtain ⟨hpf1, hne⟩ := (hPFiff2 a).1 hpf
            obtain ⟨ham1, k, hk1, hst1⟩ := hpf1
            rw [hpend1] at ham1
            rw [hoth1 a hne] at hk1
            exact hPFeA a ⟨ham1, k, hk1, hst1⟩
          refine ⟨hI2, hPFe2, ?_⟩
          rintro a ⟨ham, k, hk, hst2, d, hd, hdf⟩
          have hane : a ≠ j.id := fun hc => hnpend2 (hc ▸ ham)
          obtain ⟨k2p, k2c, k2f, k2s, k2d, k2ps, k2fs⟩ := hK2
          have ham1 : a ∈ s1.pending := k2p a ham
          have hs1s : (getJob s1 a).isSome = true := by rw [← k2s a, hk]; rfl
          cases hk1 : getJob s1 a with
          | none => rw [hk1] at hs1s; simp at hs1s
          | some k1 =>
            have hst1 : k1.state = JState.PENDING := k2ps a ham k1 k hk1 hk hst2
            have hdeq : k.dependencies = k1.dependencies := k2d a k1 k hk1 hk
            have hd1 : d ∈ depsList k1 := by
              unfold depsList at hd ⊢
              rw [← hdeq]
              exact hd
            by_cases hdf1 : d ∈ s1.failed
            · rw [hfail1] at hdf1
              have hkA : getJob (admitted s j) a = some k1 := by
                rw [← hoth1 a hane]
                exact hk1
              have hamA : a ∈ (admitted s j).pending := by
                rw [← hpend1]
                exact ham1
              rcases hPUchar a ⟨hamA, k1, hkA, hst1, d, hd1, hdf1⟩ with ⟨hc, _⟩ | hpu
              · exact hane hc
              · exact hPU a hpu
            · have hfs := k2fs d hdf hdf1 a ham k hk hst2
              have hct : depsContain k d = true := (depsContain_iff k d).2 hd
              rw [hfs] at hct
              cases hct
        | some e1q =>
          simp only at hQ
          injection hQ with h1 h2
          subst h1
          subst h2
          have hf1 : some e1q ≠ some PyErr.fuel := hfe
          obtain ⟨hI1, hK1, hPost1⟩ := exec_inv n now (Call.makeFailedCall j.id) _ s1
            (some e1q) hIA hPre1 hA hf1
          exact absurd hPost1.1 (by simp)
      · next hnoany =>
        obtain ⟨hI2, hK2, hPost2⟩ := exec_inv n now (Call.startJobIfCan j.id) _ s2 e hIA
          hPFeA hQ hfe
        have hPUA : ∀ a, ¬ PendUnsafe (admitted s j) a := by
          intro a hpu
          rcases hPUchar a hpu with ⟨rfl, d, hd, hdf⟩ | hpu2
          · apply hnoany
            simp only [List.any_eq_true]
            exact ⟨d, hd, by simpa using hdf⟩
          · exact hPU a hpu2
        exact ⟨hI2, hPost2 hPFeA, PendUnsafe_keep hK2 hPUA⟩

theorem reach_RInv (s : SchedState) (hR : Reach s) : RInv s := by
  induction hR with
  | init ps => exact RInv_init ps
  | @sched s n now j hr hF hnf ih =>
    rcases hQ : scheduleF n now j s with ⟨s2, e⟩
    exact RInv_sched n now j s s2 e ih hF hQ (by rw [hQ] at hnf; exact hnf)
  | @runS s n now hr hnf ih =>
    rcases hQ : schedRunF n now s with ⟨s2, e⟩
    exact RInv_run n now s s2 e ih hQ (by rw [hQ] at hnf; exact hnf)
  | @stopS s hr ih =>
    rcases hQ : schedStopF s with ⟨s2, e⟩
    exact RInv_stop s s2 e ih hQ
  | @asyncS s n now jid hr hnf ih =>
    rcases hQ : asyncFinStep n now jid s with ⟨s2, e⟩
    exact RInv_async n now jid s s2 e ih hQ (by rw [hQ] at hnf; exact hnf)
  | @timerS s n now jid g hr hnf ih =>
    rcases hQ : timerFireStep n now jid g s with ⟨s2, e⟩
    exact RInv_timer n now jid g s s2 e ih hQ (by rw [hQ] at hnf; exact hnf)
  | @timeoutS s n now jid hr hnf ih =>
    rcases hQ : timeoutStep n now jid s with ⟨s2, e⟩
    exact RInv_timeout n now jid s s2 e ih hQ (by rw [hQ] at hnf; exact hnf)

/-- The failed-dependency branch of schedule: with a reachable scheduler,
room in the pool and a fresh job one of whose dependencies already failed,
the job ends in the failed partition, outside pending and running, with
the FAILED mark and the "Manually failed" result. -/
theorem schedule_failed_dep (n : Nat) (now : Int) (j : Job) (s s2 : SchedState)
    (e : Option PyErr) (hI : SInv s) (hPFe : PFempty s) (hF : FreshFor s j)
    (hany : (depsList j).any (fun d => decide (d ∈ s.failed)) = true)
    (hpool : s.pending.length + s.running.length < s.poolSize)
    (hQ : scheduleF n now j s = (s2, e)) (hfe : e ≠ some PyErr.fuel) :
    j.id ∈ s2.failed ∧ j.id ∉ s2.pending ∧ j.id ∉ s2.running ∧
    ∃ jf : Job, getJob s2 j.id = some jf ∧ jf.state = JState.FAILED ∧
      jf.result = some MANUALLY_FAILED_ERROR := by
  unfold scheduleF at hQ
  rw [if_neg (by omega)] at hQ
  rw [if_neg ?hmem] at hQ
  case hmem =>
    rintro (h | h | h | h)
    · exact hF.2.2.2.2.2.1 h
    · exact hF.2.2.2.2.2.2.1 h
    · exact hF.2.2.2.2.2.2.2.1 h
    · exact hF.2.2.2.2.2.2.2.2.1 h
  rw [if_pos hany] at hQ
  obtain ⟨hIA, hPFeA, hPUchar⟩ := admitted_RInv_parts s j hI hPFe hF
  rcases hA : exec n now (Call.makeFailedCall j.id) (admitted s j) with ⟨s1, e1⟩
  rw [hA] at hQ
  have hmemA : j.id ∈ (admitted s j).pending :=
    (mem_insertNew j.id j.id s.pending).2 (Or.inl rfl)
  have hPre1 : PreC (Call.makeFailedCall j.id) (admitted s j) :=
    ⟨hmemA, j, getJob_admitted_self s j, hF.1⟩
  cases e1 with
  | none =>
    simp only at hQ
    obtain ⟨hI1, hK1, hPost1⟩ := exec_inv n now (Call.makeFailedCall j.id) _ s1 none
      hIA hPre1 hA (by simp)
    obtain ⟨hen1, hpend1, hrun1, hcomp1, hfail1, htim1, hoth1, jF, hjF, hstF, hresF, hhF⟩ :=
      hPost1
    have hPre2 : PreC (Call.onJobFailed j.id) s1 := by
      refine ⟨?_, ?_, ?_⟩
      · intro k hk
        rw [hjF] at hk
        cases hk
        exact hhF
      · intro k hk
        rw [hjF] at hk
        cases hk
        exact hstF
      · intro hc
        rw [hfail1] at hc
        exact hF.2.2.2.2.2.2.2.2.1 hc
    obtain ⟨hI2, hK2, hPost2⟩ := exec_inv n now (Call.onJobFailed j.id) s1 s2 e hI1
      hPre2 hQ hfe
    have hPFs1 : PF s1 j.id := ⟨by rw [hpend1]; exact hmemA, jF, hjF, hstF⟩
    obtain ⟨hen2, hfailm2, hnpend2, hnrun2, hoth2, hjW2⟩ := hPost2.2.2 hPFs1
    refine ⟨hfailm2, hnpend2, hnrun2, jF, ?_, hstF, hresF⟩
    rw [hjW2]
    exact hjF
  | some e1q =>
    simp only at hQ
    injection hQ with h1 h2
    subst h1
    subst h2
    have hf1 : some e1q ≠ some PyErr.fuel := hfe
    obtain ⟨hI1, hK1, hPost1⟩ := exec_inv n now (Call.makeFailedCall j.id) _ s1
      (some e1q) hIA hPre1 hA hf1
    exact absurd hPost1.1 (by simp)

/-- C3: dependency closure. At every reachable scheduler state, every job
in the running partition has all its dependencies in completed (and so
none in failed), no job in
the pending partition has a dependency in failed (the cascade clears such
jobs out of pending), every id in the failed partition carries the
FAILED mark on its job object, and — covering the later-cascade case —
every job of the heap one of whose dependencies is in failed sits settled
in the failed partition, outside pending and running, marked FAILED via
make_failed with the result "Manually failed"; and scheduling a fresh job
that has a dependency in failed, with room in the pool, puts it in the
failed partition, not pending and not running, marked FAILED via
make_failed with the result "Manually failed" — it never enters
running. -/
theorem c3_dependency_closure :
    (∀ s : SchedState, Reach s →
      (∀ a ∈ s.running, ∀ jx : Job, getJob s a = some jx → ∀ d ∈ depsList jx,
        d ∈ s.completed ∧ d ∉ s.failed) ∧
      (∀ a ∈ s.pending, ∀ jx : Job, getJob s a = some jx → ∀ d ∈ depsList jx,
        d ∉ s.failed) ∧
      (∀ a ∈ s.failed, ∀ jx : Job, getJob s a = some jx → jx.state = JState.FAILED) ∧
      (∀ a, ∀ jx : Job, getJob s a = some jx → ∀ d ∈ depsList jx, d ∈ s.failed →
        a ∈ s.failed ∧ a ∉ s.pending ∧ a ∉ s.running ∧ jx.state = JState.FAILED ∧
        jx.result = some MANUALLY_FAILED_ERROR)) ∧
    (∀ (n : Nat) (now : Int) (j : Job) (s s2 : SchedState) (e : Option PyErr),
      Reach s → FreshFor s j →
      (depsList j).any (fun d => decide (d ∈ s.failed)) = true →
      s.pending.length + s.running.length < s.poolSize →
      scheduleF n now j s = (s2, e) → e ≠ some PyErr.fuel →
      j.id ∈ s2.failed ∧ j.id ∉ s2.pending ∧ j.id ∉ s2.running ∧
      ∃ jf : Job, getJob s2 j.id = some jf ∧ jf.state = JState.FAILED ∧
        jf.result = some MANUALLY_FAILED_ERROR) := by
  constructor
  · intro s hr
    obtain ⟨hI, hPFe, hPU⟩ := reach_RInv s hr
    refine ⟨?_, ?_, hI.failedState, ?_⟩
    · intro a ha jx hjx d hd
      have hdc := hI.runDeps a ha jx hjx d hd
      exact ⟨hdc, hI.compFailDisj d hdc⟩
    · intro a ha jx hjx d hd hdf
      rcases hI.pendState a ha jx hjx with hps | hps
      · exact hPU a ⟨ha, jx, hjx, hps, d, hd, hdf⟩
      · exact hPFe a ⟨ha, jx, hjx, hps⟩
    · intro a jx hjx d hd hdf
      rcases hI.depOK a jx hjx with ⟨h1, h2⟩ | h | ⟨h1, h2, h3⟩
      · exact absurd ⟨h2, jx, hjx, h1, d, hd, hdf⟩ (hPU a)
      · exact absurd hdf (hI.compFailDisj d (h d hd))
      · have haf : a ∈ s.failed := by
          rcases h3 with h3 | h3
          · exact absurd ⟨h3, jx, hjx, h1⟩ (hPFe a)
          · exact h3
        exact ⟨haf, fun hc => hI.pendNotF a hc haf, fun hc => hI.runNotF a hc haf, h1, h2⟩
  · intro n now j s s2 e hr hF hany hpool hQ hfe
    obtain ⟨hI, hPFe, hPU⟩ := reach_RInv s hr
    exact schedule_failed_dep n now j s s2 e hI hPFe hF hany hpool hQ hfe

/-- C3 witness: scheduling job 2, which depends on the already failed job
1, at a concretely reached scheduler: job 2 lands in failed, marked
"Manually failed", and never reaches running. -/
theorem c3_witness :
    2 ∈ (scheduleF 20 0 c3JobB c3S1).1.failed ∧
    2 ∉ (scheduleF 20 0 c3JobB c3S1).1.pending ∧
    2 ∉ (scheduleF 20 0 c3JobB c3S1).1.running ∧
    ∃ jf : Job, getJob (scheduleF 20 0 c3JobB c3S1).1 2 = some jf ∧
      jf.state = JState.FAILED ∧ jf.result = some MANUALLY_FAILED_ERROR := by
  have hr1 : Reach (schedRunF 20 0 (schedInit 2)).1 :=
    Reach.runS 20 0 (Reach.init 2) (by decide)
  have hr2 : Reach c3S1 :=
    Reach.sched 20 0 c3JobA hr1 (by unfold FreshFor; decide) (by decide)
  exact c3_dependency_closure.2 20 0 c3JobB c3S1 (scheduleF 20 0 c3JobB c3S1).1
    (scheduleF 20 0 c3JobB c3S1).2 hr2 (by unfold FreshFor; decide) (by decide) (by decide) rfl (by decide)
